import Mathlib

/-!
# CRC-32 / CRC-64 with CLMUL folding (`src/liblzma/check/crc_x86_clmul.h`)

A shallow embedding of the x86 CLMUL CRC code of liblzma.

* 128-bit vectors (`__m128i`) are natural numbers below `2^128`; the SSE
  intrinsics used by the source are functions on them.
* Memory is one byte buffer placed at an address; every load is checked
  against the bounds of that buffer and `_mm_load_si128` also checks the
  16-byte alignment of the address, so a successful run of a function
  is also a proof that it stayed inside the buffer.
* `uint32_t`, `uint64_t`, `size_t` and `uintptr_t` values are natural numbers
  with explicit reduction modulo `2^32` / `2^64`; `size_t` and `uintptr_t` are
  64 bits wide (x86-64), signed C integers are `Int`.
* `crc32_generic`, `crc64_generic` and the lookup tables are not part of the
  three source files; they are modelled from the specification.
* The loop of `crc_simd_body` is a structural recursion on a bound (`fuel`);
  running out of it is a fault, and the theorems show it does not happen.
-/

namespace XzCrc

/-! ## Machine model -/

/-- Ways in which a run of the C code can go wrong. -/
inductive Fault where
  /-- An `assert` of the source does not hold. -/
  | assert_failed
  /-- A read that is not inside the caller's buffer. -/
  | out_of_bounds
  /-- An aligned 16-byte load from an address that is not a multiple of 16. -/
  | misaligned
  /-- The bound given to a loop was too small. -/
  | out_of_fuel
  deriving DecidableEq, Repr

/-- The caller's buffer: `bytes` stored at the addresses `addr`, `addr + 1`, ... -/
structure Mem where
  addr : Nat
  bytes : List Nat
  deriving Repr

/-- Read `n` bytes starting at address `p`; fails outside the buffer. -/
def Mem.read (m : Mem) (p n : Nat) : Except Fault (List Nat) :=
  if m.addr ≤ p ∧ p + n ≤ m.addr + m.bytes.length then
    .ok ((m.bytes.drop (p - m.addr)).take n)
  else
    .error .out_of_bounds

/-- Little-endian value of a byte sequence. -/
def le_value : List Nat → Nat
  | [] => 0
  | b :: bs => b + 2 ^ 8 * le_value bs

/-- Conversion of an integer to `uint32_t`. -/
def to_uint32 (x : Int) : Nat := (x % 2 ^ 32).toNat

/-- Conversion of an integer to `uint64_t`. -/
def to_uint64 (x : Int) : Nat := (x % 2 ^ 64).toNat

/-- Conversion of an unsigned value to `int32_t` (two's complement). -/
def to_int32 (x : Nat) : Int :=
  if x % 2 ^ 32 < 2 ^ 31 then (x % 2 ^ 32 : Nat) else (x % 2 ^ 32 : Nat) - 2 ^ 32

/-- Conversion of an unsigned value to `int64_t` (two's complement). -/
def to_int64 (x : Nat) : Int :=
  if x % 2 ^ 64 < 2 ^ 63 then (x % 2 ^ 64 : Nat) else (x % 2 ^ 64 : Nat) - 2 ^ 64

/-- Bitwise complement of a `uint32_t`. -/
def not32 (x : Nat) : Nat := x ^^^ 0xFFFFFFFF

/-- Bitwise complement of a `uint64_t` (also `size_t`). -/
def not64 (x : Nat) : Nat := x ^^^ 0xFFFFFFFFFFFFFFFF

/-- Subtraction of `size_t` / `uintptr_t` values, wrapping modulo `2^64`. -/
def sub64 (a b : Nat) : Nat := (a + 2 ^ 64 - b % 2 ^ 64) % 2 ^ 64

/-! ## SSE / PCLMULQDQ intrinsics -/

/-- Low 64-bit half of a 128-bit vector. -/
def lo64 (v : Nat) : Nat := v % 2 ^ 64

/-- High 64-bit half of a 128-bit vector. -/
def hi64 (v : Nat) : Nat := (v >>> 64) % 2 ^ 64

/-- Carry-less product of `a` with the low `n` bits of `b`. -/
def clmul_bits (a b : Nat) : Nat → Nat
  | 0 => 0
  | i + 1 => clmul_bits a b i ^^^ (if b.testBit i then a <<< i else 0)

/-- Carry-less (polynomial over GF(2)) product of two 64-bit values. -/
def clmul64 (a b : Nat) : Nat := clmul_bits a b 64

/-- The instruction PCLMULQDQ: bit 0 of `imm` selects the half of `a`, bit 4 the half
of `b`. -/
def _mm_clmulepi64_si128 (a b imm : Nat) : Nat :=
  clmul64 (if imm.testBit 0 then hi64 a else lo64 a)
    (if imm.testBit 4 then hi64 b else lo64 b)

/-- Bitwise XOR of two vectors. -/
def _mm_xor_si128 (a b : Nat) : Nat := a ^^^ b

/-- Aligned 16-byte load: the sixteen bytes at `p`, lowest address in the lowest byte. -/
def _mm_load_si128 (m : Mem) (p : Nat) : Except Fault Nat :=
  if p % 16 ≠ 0 then .error .misaligned
  else (m.read p 16).map le_value

/-- Shift of the whole vector right by `imm` bytes. -/
def _mm_srli_si128 (a imm : Nat) : Nat := a >>> (8 * imm)

/-- Shift of the whole vector left by `imm` bytes. -/
def _mm_slli_si128 (a imm : Nat) : Nat := (a <<< (8 * imm)) % 2 ^ 128

/-- Shift of each 64-bit half left by `imm` bits. -/
def _mm_slli_epi64 (a imm : Nat) : Nat :=
  (((hi64 a <<< imm) % 2 ^ 64) <<< 64) ||| ((lo64 a <<< imm) % 2 ^ 64)

/-- The 32-bit element `i` of a vector. -/
def epi32 (a i : Nat) : Nat := (a >>> (32 * i)) % 2 ^ 32

/-- Element `i` of the result is the element of `a` selected by bits `2i+1..2i` of `imm`. -/
def _mm_shuffle_epi32 (a imm : Nat) : Nat :=
  epi32 a (imm % 4) ||| (epi32 a (imm / 4 % 4) <<< 32)
    ||| (epi32 a (imm / 16 % 4) <<< 64) ||| (epi32 a (imm / 64 % 4) <<< 96)

/-- The vector with high half `e1` and low half `e0` (two `int64_t`). -/
def _mm_set_epi64x (e1 e0 : Int) : Nat := (to_uint64 e1 <<< 64) ||| to_uint64 e0

/-- The vector whose low 32 bits are the `int32_t` `a`; the upper 96 bits are zero. -/
def _mm_cvtsi32_si128 (a : Int) : Nat := to_uint32 a

/-- The vector whose low 64 bits are the `int64_t` `a`; the upper 64 bits are zero. -/
def _mm_cvtsi64_si128 (a : Int) : Nat := to_uint64 a

/-- The 32-bit element `imm` of a vector, as an `int`. -/
def _mm_extract_epi32 (a imm : Nat) : Int := to_int32 (epi32 a imm)

/-- The 64-bit element `imm` of a vector, as an `int64_t`. -/
def _mm_extract_epi64 (a imm : Nat) : Int := to_int64 ((a >>> (64 * imm)) % 2 ^ 64)

/-! ## `crc_simd_body` -/

/-- The `while (aligned_buf < end)` loop of `crc_simd_body`; the state is
`(aligned_buf, v0, v1)` and `fuel` bounds the number of iterations. -/
def crc_simd_loop (m : Mem) (vfold16 end_ : Nat) :
    Nat → Nat → Nat → Nat → Except Fault (Nat × Nat × Nat)
  | 0, aligned_buf, v0, v1 =>
    if aligned_buf < end_ then .error .out_of_fuel else .ok (aligned_buf, v0, v1)
  | fuel + 1, aligned_buf, v0, v1 =>
    if aligned_buf < end_ then do
      let v1 := _mm_xor_si128 v1 (_mm_clmulepi64_si128 v0 vfold16 0x00)
      let v0 := _mm_xor_si128 v1 (_mm_clmulepi64_si128 v0 vfold16 0x11)
      let v1 ← _mm_load_si128 m aligned_buf
      crc_simd_loop m vfold16 end_ fuel (aligned_buf + 16) v0 v1
    else .ok (aligned_buf, v0, v1)

/-- The function `crc_simd_body(buf, size, &v0, &v1, vfold16, initial_crc)`; the value is
the final `(v0, v1)`. -/
def crc_simd_body (m : Mem) (buf size vfold16 initial_crc : Nat) :
    Except Fault (Nat × Nat) := do
  if (buf % 2 ^ 64) &&& 15 ≠ 0 then throw .assert_failed
  if size &&& 15 ≠ 0 then throw .assert_failed
  let aligned_buf := buf
  let end_ := buf + size
  let v0 := _mm_xor_si128 initial_crc (← _mm_load_si128 m aligned_buf)
  let aligned_buf := aligned_buf + 16
  let v0 ←
    if aligned_buf < end_ then do
      let v1 ← _mm_load_si128 m aligned_buf
      let aligned_buf := aligned_buf + 16
      let (_, v0, v1) ← crc_simd_loop m vfold16 end_ (size / 16) aligned_buf v0 v1
      let v1 := _mm_xor_si128 v1 (_mm_clmulepi64_si128 v0 vfold16 0x00)
      let v0 := _mm_xor_si128 v1 (_mm_clmulepi64_si128 v0 vfold16 0x11)
      pure v0
    else pure v0
  let v1 := _mm_srli_si128 v0 8
  pure (v0, v1)

/-! ## CRC-32 -/

/-- The function `crc32_clmul(buf, size, crc)`. -/
def crc32_clmul (m : Mem) (buf size crc : Nat) : Except Fault Nat := do
  let p : Int := 0x1db710640
  let mu : Int := 0x1f7011641
  let k5 : Int := 0x163cd6124
  let k4 : Int := 0x0ccaa009e
  let k3 : Int := 0x1751997d0
  let vfold4 := _mm_set_epi64x mu p
  let vfold8 := _mm_set_epi64x 0 k5
  let vfold16 := _mm_set_epi64x k4 k3
  let (v0, v1) ← crc_simd_body m buf size vfold16 (_mm_cvtsi32_si128 (to_int32 crc))
  let v1 := _mm_xor_si128 (_mm_clmulepi64_si128 v0 vfold16 0x10) v1
  let v2 := _mm_shuffle_epi32 v1 0xe7
  let v0 := _mm_slli_epi64 v1 32
  let v0 := _mm_clmulepi64_si128 v0 vfold8 0x00
  let v0 := _mm_xor_si128 v0 v2
  let v2 := _mm_clmulepi64_si128 v0 vfold4 0x10
  let v2 := _mm_clmulepi64_si128 v2 vfold4 0x00
  let v0 := _mm_xor_si128 v0 v2
  pure (to_uint32 (_mm_extract_epi32 v0 2))

/-- Modelled from the spec: one step of the reflected division by `poly`, with which the
lookup tables (not in `src/`) are filled. "Reflected polynomial: a CRC variant where bits
are processed least-significant-bit first." -/
def crc_bit (poly s : Nat) : Nat := (s >>> 1) ^^^ (if s &&& 1 = 1 then poly else 0)

/-- Modelled from the spec: the step of the "single-byte loop (classic table CRC step)" of
the generic functions (not in `src/`), `t[(b ^ crc) & 0xFF] ^ (crc >> 8)` for a table
row `t`. -/
def crc_byte (t : Nat → Nat) (crc b : Nat) : Nat := t ((b ^^^ crc) &&& 0xFF) ^^^ (crc >>> 8)

/-- Modelled from the spec: the lookup table `lzma_crc32_table` (`crc32_table_le.h`) is
not in `src/`. It is the "precomputed reflected-polynomial lookup table" of "8 rows × 256
entries", "each row corresponding to one input byte position in a multi-byte lookup
scheme", for the IEEE 802.3 polynomial: entry `i` of row `k` is the byte `i` followed by
`k` zero bytes, that is `i` after `8 * (k + 1)` steps of the reflected division. -/
def lzma_crc32_table (k i : Nat) : Nat := (crc_bit 0xEDB88320)^[8 * (k + 1)] i

/-- Modelled from the spec: one 8-byte chunk of `crc32_generic`, "combining table lookups
keyed by (current accumulator bytes XOR input bytes) per position, summed via XOR across
positions". The four accumulator bytes meet the first four input bytes. -/
def crc32_slice8 (crc : Nat) (chunk : List Nat) : Nat :=
  let x := crc ^^^ le_value (chunk.take 4)
  let y := le_value (chunk.drop 4)
  (lzma_crc32_table 7 (x &&& 0xFF) ^^^ lzma_crc32_table 6 ((x >>> 8) &&& 0xFF)
      ^^^ lzma_crc32_table 5 ((x >>> 16) &&& 0xFF) ^^^ lzma_crc32_table 4 (x >>> 24))
    ^^^ (lzma_crc32_table 3 (y &&& 0xFF) ^^^ lzma_crc32_table 2 ((y >>> 8) &&& 0xFF)
      ^^^ lzma_crc32_table 1 ((y >>> 16) &&& 0xFF) ^^^ lzma_crc32_table 0 (y >>> 24))

/-- Modelled from the spec: the loops of `crc32_generic` on the complemented accumulator.
"Consume input in chunks the table's row count supports ... when at least that many bytes
remain", then "fall through to a single-byte loop (classic table CRC step) for remaining
bytes below the chunk size". -/
def crc32_generic_loop : List Nat → Nat → Nat
  | b0 :: b1 :: b2 :: b3 :: b4 :: b5 :: b6 :: b7 :: rest, crc =>
    crc32_generic_loop rest (crc32_slice8 crc [b0, b1, b2, b3, b4, b5, b6, b7])
  | bs, crc => bs.foldl (crc_byte (lzma_crc32_table 0)) crc

/-- Modelled from the spec: `crc32_generic` (the Generic Computer) is not in `src/`.
"Maintain the accumulator pre-complemented", run the chunk loop and the byte loop, and
complement back. The little-endian table layout is the one modelled. -/
def crc32_generic (buf : List Nat) (crc : Nat) : Nat :=
  let crc := not32 crc
  let crc := crc32_generic_loop buf crc
  not32 crc

/-- The function `crc32_arch_optimized(buf, size, crc)` called on the buffer `m`:
`buf = m.addr` and `size` is the number of bytes of `m`. -/
def crc32_arch_optimized (m : Mem) (crc : Nat) : Except Fault Nat := do
  let buf := m.addr
  let size := m.bytes.length
  if size ≥ 32 then
    let align16 := sub64 0 (buf % 2 ^ 64) &&& 15
    let (buf, size, crc) ←
      if align16 > 0 then do
        let crc := crc32_generic (← m.read buf align16) crc
        pure (buf + align16, sub64 size align16, crc)
      else pure (buf, size, crc)
    let size16 := size &&& not64 15
    let crc := not32 (← crc32_clmul m buf size16 (not32 crc))
    let buf := buf + size16
    let size := size &&& 15
    pure (crc32_generic (← m.read buf size) crc)
  else
    pure (crc32_generic (← m.read buf size) crc)

/-! ## CRC-64 -/

/-- The function `crc64_clmul(buf, size, crc)`, the variant compiled when neither
`__i386__` nor `_M_IX86` is defined (x86-64). -/
def crc64_clmul (m : Mem) (buf size crc : Nat) : Except Fault Nat := do
  let p : Nat := 0x92d8af2baf0e1e85
  let mu : Nat := 0x9c3e466c172963d5
  let k2 : Nat := 0xdabe95afc7875f40
  let k1 : Nat := 0xe05dd497ca393ae4
  let vfold8 := _mm_set_epi64x (to_int64 p) (to_int64 mu)
  let vfold16 := _mm_set_epi64x (to_int64 k2) (to_int64 k1)
  let (v0, v1) ← crc_simd_body m buf size vfold16 (_mm_cvtsi64_si128 (to_int64 crc))
  let v1 := _mm_xor_si128 (_mm_clmulepi64_si128 v0 vfold16 0x10) v1
  let v0 := _mm_clmulepi64_si128 v1 vfold8 0x00
  let v2 := _mm_clmulepi64_si128 v0 vfold8 0x10
  let v0 := _mm_xor_si128 (_mm_xor_si128 v1 (_mm_slli_si128 v0 8)) v2
  pure (to_uint64 (_mm_extract_epi64 v0 1))

/-- Modelled from the spec: the lookup table `lzma_crc64_table` (`crc64_table_le.h`) is
not in `src/`. It is the "precomputed reflected-polynomial lookup table" of "4 rows × 256
entries", "each row corresponding to one input byte position in a multi-byte lookup
scheme", for the CRC-64/XZ polynomial (reflected form `0xC96C5795D7870F42`): entry `i` of
row `k` is the byte `i` followed by `k` zero bytes, that is `i` after `8 * (k + 1)` steps
of the reflected division. -/
def lzma_crc64_table (k i : Nat) : Nat := (crc_bit 0xC96C5795D7870F42)^[8 * (k + 1)] i

/-- Modelled from the spec: one 4-byte chunk of `crc64_generic`, "combining table lookups
keyed by (current accumulator bytes XOR input bytes) per position, summed via XOR across
positions". The four low accumulator bytes meet the four input bytes; the four high
accumulator bytes, which no lookup consumes, move down. -/
def crc64_slice4 (crc : Nat) (chunk : List Nat) : Nat :=
  let tmp := (crc % 2 ^ 32) ^^^ le_value chunk
  (lzma_crc64_table 3 (tmp &&& 0xFF) ^^^ lzma_crc64_table 2 ((tmp >>> 8) &&& 0xFF)
      ^^^ lzma_crc64_table 1 ((tmp >>> 16) &&& 0xFF) ^^^ lzma_crc64_table 0 (tmp >>> 24))
    ^^^ (crc >>> 32)

/-- Modelled from the spec: the loops of `crc64_generic` on the complemented accumulator.
"Consume input in chunks the table's row count supports ... when at least that many bytes
remain", then "fall through to a single-byte loop (classic table CRC step) for remaining
bytes below the chunk size". -/
def crc64_generic_loop : List Nat → Nat → Nat
  | b0 :: b1 :: b2 :: b3 :: rest, crc =>
    crc64_generic_loop rest (crc64_slice4 crc [b0, b1, b2, b3])
  | bs, crc => bs.foldl (crc_byte (lzma_crc64_table 0)) crc

/-- Modelled from the spec: `crc64_generic` (the Generic Computer) is not in `src/`.
"Maintain the accumulator pre-complemented", run the chunk loop and the byte loop, and
complement back. The little-endian table layout is the one modelled. -/
def crc64_generic (buf : List Nat) (crc : Nat) : Nat :=
  let crc := not64 crc
  let crc := crc64_generic_loop buf crc
  not64 crc

/-- The function `crc64_arch_optimized(buf, size, crc)` called on the buffer `m`:
`buf = m.addr` and `size` is the number of bytes of `m`. -/
def crc64_arch_optimized (m : Mem) (crc : Nat) : Except Fault Nat := do
  let buf := m.addr
  let size := m.bytes.length
  if size ≥ 32 then
    let align16 := sub64 0 (buf % 2 ^ 64) &&& 15
    let (buf, size, crc) ←
      if align16 > 0 then do
        let crc := crc64_generic (← m.read buf align16) crc
        pure (buf + align16, sub64 size align16, crc)
      else pure (buf, size, crc)
    let size16 := size &&& not64 15
    let crc := not64 (← crc64_clmul m buf size16 (not64 crc))
    let buf := buf + size16
    let size := size &&& 15
    pure (crc64_generic (← m.read buf size) crc)
  else
    pure (crc64_generic (← m.read buf size) crc)

/-! ## CPU feature detection -/

/-- The function `is_arch_extension_supported()`. The CPUID leaf 1 query is an input:
`success` is the value of the C variable `success` after the query (it stays `1` in the
two branches that cannot report failure) and `ecx` is `r[2]`. -/
def is_arch_extension_supported (success : Int) (ecx : Nat) : Bool :=
  let ecx_mask : Nat := (1 <<< 1) ||| (1 <<< 9) ||| (1 <<< 19)
  success ≠ 0 && (ecx % 2 ^ 32) &&& ecx_mask = ecx_mask

/-! ## Auxiliary definitions used in the proofs -/

/-- One fold step of `crc_simd_body`: `v1 ^= clmul(v0.lo, vfold16.lo)` followed by
`v0 = v1 ^ clmul(v0.hi, vfold16.hi)`; the value is the new `v0`. -/
def fold16 (vfold16 v0 v1 : Nat) : Nat :=
  _mm_xor_si128 (_mm_xor_si128 v1 (_mm_clmulepi64_si128 v0 vfold16 0x00))
    (_mm_clmulepi64_si128 v0 vfold16 0x11)

/-- The value of `vfold16` in `crc32_clmul`. -/
def crc32_vfold16 : Nat := _mm_set_epi64x 0x0ccaa009e 0x1751997d0

/-- The final reduction of `crc32_clmul`: the statements after the call of
`crc_simd_body`, as a function of the `(v0, v1)` it leaves. -/
def crc32_final (v0 v1 : Nat) : Nat :=
  let vfold4 := _mm_set_epi64x 0x1f7011641 0x1db710640
  let vfold8 := _mm_set_epi64x 0 0x163cd6124
  let vfold16 := _mm_set_epi64x 0x0ccaa009e 0x1751997d0
  let v1 := _mm_xor_si128 (_mm_clmulepi64_si128 v0 vfold16 0x10) v1
  let v2 := _mm_shuffle_epi32 v1 0xe7
  let v0 := _mm_slli_epi64 v1 32
  let v0 := _mm_clmulepi64_si128 v0 vfold8 0x00
  let v0 := _mm_xor_si128 v0 v2
  let v2 := _mm_clmulepi64_si128 v0 vfold4 0x10
  let v2 := _mm_clmulepi64_si128 v2 vfold4 0x00
  let v0 := _mm_xor_si128 v0 v2
  to_uint32 (_mm_extract_epi32 v0 2)

/-- The value of `vfold16` in `crc64_clmul`. -/
def crc64_vfold16 : Nat :=
  _mm_set_epi64x (to_int64 0xdabe95afc7875f40) (to_int64 0xe05dd497ca393ae4)

/-- The final reduction of `crc64_clmul`: the statements after the call of
`crc_simd_body`, as a function of the `(v0, v1)` it leaves. -/
def crc64_final (v0 v1 : Nat) : Nat :=
  let vfold8 := _mm_set_epi64x (to_int64 0x92d8af2baf0e1e85) (to_int64 0x9c3e466c172963d5)
  let vfold16 := _mm_set_epi64x (to_int64 0xdabe95afc7875f40) (to_int64 0xe05dd497ca393ae4)
  let v1 := _mm_xor_si128 (_mm_clmulepi64_si128 v0 vfold16 0x10) v1
  let v0 := _mm_clmulepi64_si128 v1 vfold8 0x00
  let v2 := _mm_clmulepi64_si128 v0 vfold8 0x10
  let v0 := _mm_xor_si128 (_mm_xor_si128 v1 (_mm_slli_si128 v0 8)) v2
  to_uint64 (_mm_extract_epi64 v0 1)

/-- The generic byte loop run over the `n` low bytes of `lane`, lowest byte first. -/
def crc_lane (t : Nat → Nat) : Nat → Nat → Nat → Nat
  | 0, s, _ => s
  | n + 1, s, lane => crc_lane t n (crc_byte t s (lane % 256)) (lane >>> 8)

/-- The first `n` 16-byte lanes of a byte sequence, as little-endian values. -/
def lanes (bs : List Nat) : Nat → List Nat
  | 0 => []
  | n + 1 => le_value (bs.take 16) :: lanes (bs.drop 16) n

/-- The CRC-32 that `crc32_clmul` extracts from the `v0` left by `crc_simd_body`. -/
def crc32_of_v0 (v0 : Nat) : Nat := crc32_final v0 (_mm_srli_si128 v0 8)

/-- The CRC-64 that `crc64_clmul` extracts from the `v0` left by `crc_simd_body`. -/
def crc64_of_v0 (v0 : Nat) : Nat := crc64_final v0 (_mm_srli_si128 v0 8)

/-- The body shared by `crc32_arch_optimized` and `crc64_arch_optimized`, with the
generic function, the CLMUL kernel and the complement as parameters. -/
def arch_optimized_with (generic : List Nat → Nat → Nat)
    (clmul : Mem → Nat → Nat → Nat → Except Fault Nat) (compl : Nat → Nat)
    (m : Mem) (crc : Nat) : Except Fault Nat := do
  let buf := m.addr
  let size := m.bytes.length
  if size ≥ 32 then
    let align16 := sub64 0 (buf % 2 ^ 64) &&& 15
    let (buf, size, crc) ←
      if align16 > 0 then do
        let crc := generic (← m.read buf align16) crc
        pure (buf + align16, sub64 size align16, crc)
      else pure (buf, size, crc)
    let size16 := size &&& not64 15
    let crc := compl (← clmul m buf size16 (compl crc))
    let buf := buf + size16
    let size := size &&& 15
    pure (generic (← m.read buf size) crc)
  else
    pure (generic (← m.read buf size) crc)

/-- The head length chosen by the dispatcher for a buffer at address `addr`. -/
def head_len (addr : Nat) : Nat := (16 - addr % 16) % 16

/-- The bulk length chosen by the dispatcher for a buffer of `size` bytes at `addr`. -/
def bulk_len (addr size : Nat) : Nat := (size - head_len addr) / 16 * 16

/-- The accumulator after the head: the generic function is called on the first
`align16` bytes only when `align16 > 0`. -/
def head_crc (generic : List Nat → Nat → Nat) (m : Mem) (crc : Nat) : Nat :=
  if head_len m.addr > 0 then generic (m.bytes.take (head_len m.addr)) crc else crc

/-- A buffer of 33 bytes at an address that is 1 modulo 16: the dispatchers split it into
a head of 15 bytes, one 16-byte lane and a tail of 2 bytes. -/
def sample33 : Mem := ⟨0x7ffd1001, (List.range 33).map (fun i => (37 * i + 11) % 256)⟩

/-- A buffer of 100 bytes at an address that is 3 modulo 16: a head of 13 bytes, five
16-byte lanes and a tail of 7 bytes. -/
def sample100 : Mem := ⟨0x7ffd2003, (List.range 100).map (fun i => (151 * i + 3) % 256)⟩

/-- The ASCII string "123456789". -/
def check_input : List Nat := [0x31, 0x32, 0x33, 0x34, 0x35, 0x36, 0x37, 0x38, 0x39]

/-- The chunk step of `crc32_generic` as a function of the accumulator and of the
little-endian value of the eight bytes. -/
def crc32_slice8_lane (crc lane : Nat) : Nat :=
  let x := crc ^^^ (lane % 2 ^ 32)
  let y := lane >>> 32
  (lzma_crc32_table 7 (x &&& 0xFF) ^^^ lzma_crc32_table 6 ((x >>> 8) &&& 0xFF)
      ^^^ lzma_crc32_table 5 ((x >>> 16) &&& 0xFF) ^^^ lzma_crc32_table 4 (x >>> 24))
    ^^^ (lzma_crc32_table 3 (y &&& 0xFF) ^^^ lzma_crc32_table 2 ((y >>> 8) &&& 0xFF)
      ^^^ lzma_crc32_table 1 ((y >>> 16) &&& 0xFF) ^^^ lzma_crc32_table 0 (y >>> 24))

/-- The chunk step of `crc64_generic` as a function of the accumulator and of the
little-endian value of the four bytes. -/
def crc64_slice4_lane (crc lane : Nat) : Nat :=
  let tmp := (crc % 2 ^ 32) ^^^ lane
  (lzma_crc64_table 3 (tmp &&& 0xFF) ^^^ lzma_crc64_table 2 ((tmp >>> 8) &&& 0xFF)
      ^^^ lzma_crc64_table 1 ((tmp >>> 16) &&& 0xFF) ^^^ lzma_crc64_table 0 (tmp >>> 24))
    ^^^ (crc >>> 32)

/-! ## Further definitions: variants, generators, traces -/

/-- One step of the bit-at-a-time reflected CRC update, in the words of the kernel
statements: `s = (s >> 1) ^ (poly if s & 1 else 0)`. -/
def bit_step (poly s : Nat) : Nat := (s >>> 1) ^^^ (if s &&& 1 ≠ 0 then poly else 0)

/-- The bit-at-a-time reflected CRC update of a register `s` over a byte sequence: per
byte `s ^= byte`, then eight times `bit_step`; no complement. -/
def crc_update_bitwise (poly s : Nat) (bytes : List Nat) : Nat :=
  bytes.foldl (fun s b => (bit_step poly)^[8] (s ^^^ b)) s

/-- The function `crc64_clmul(buf, size, crc)`, the variant compiled when `__i386__` or
`_M_IX86` is defined (32-bit x86): the initial lane is built with `_mm_set_epi64x` and the
result is put together from two 32-bit extractions. -/
def crc64_clmul_i386 (m : Mem) (buf size crc : Nat) : Except Fault Nat := do
  let p : Nat := 0x92d8af2baf0e1e85
  let mu : Nat := 0x9c3e466c172963d5
  let k2 : Nat := 0xdabe95afc7875f40
  let k1 : Nat := 0xe05dd497ca393ae4
  let vfold8 := _mm_set_epi64x (to_int64 p) (to_int64 mu)
  let vfold16 := _mm_set_epi64x (to_int64 k2) (to_int64 k1)
  let (v0, v1) ← crc_simd_body m buf size vfold16 (_mm_set_epi64x 0 (to_int64 crc))
  let v1 := _mm_xor_si128 (_mm_clmulepi64_si128 v0 vfold16 0x10) v1
  let v0 := _mm_clmulepi64_si128 v1 vfold8 0x00
  let v2 := _mm_clmulepi64_si128 v0 vfold8 0x10
  let v0 := _mm_xor_si128 (_mm_xor_si128 v1 (_mm_slli_si128 v0 8)) v2
  pure ((((to_uint32 (_mm_extract_epi32 v0 3) % 2 ^ 64) <<< 32) % 2 ^ 64)
    ||| to_uint32 (_mm_extract_epi32 v0 2))

/-- The loop of `calc_lo(p, a, n)` of the CRC32 generator (comment above `crc32_clmul`),
in `uint64_t` arithmetic: `k` iterations are left, the value is the final `b`. -/
def Gen32.calc_lo_loop (p n : Nat) : Nat → Nat → Nat → Nat
  | 0, _, b => b
  | k + 1, a, b =>
    let b := (b >>> 1) ||| (((a &&& 1) <<< (n - 1)) % 2 ^ 64)
    let a := (a >>> 1) ^^^ (sub64 0 (a &&& 1) &&& p)
    Gen32.calc_lo_loop p n k a b

/-- The function `calc_lo(p, a, n)` of the CRC32 generator. -/
def Gen32.calc_lo (p a n : Nat) : Nat := Gen32.calc_lo_loop p n n a 0

/-- The function `calc_hi(p, a, n)` of the CRC32 generator, in `uint64_t` arithmetic;
the recursion is on the number of iterations left. -/
def Gen32.calc_hi (p a : Nat) : Nat → Nat
  | 0 => a
  | k + 1 => Gen32.calc_hi p ((a >>> 1) ^^^ (sub64 0 (a &&& 1) &&& p)) k

/-- The loop of `calc_lo(poly)` of the CRC64 generator (comment above `crc64_clmul`), in
`uint64_t` arithmetic: `k` iterations are left, the value is the final `b`. -/
def Gen64.calc_lo_loop (poly : Nat) : Nat → Nat → Nat → Nat
  | 0, _, b => b
  | k + 1, a, b =>
    let b := (b >>> 1) ||| ((a <<< 63) % 2 ^ 64)
    let a := (a >>> 1) ^^^ (if a &&& 1 ≠ 0 then poly else 0)
    Gen64.calc_lo_loop poly k a b

/-- The function `calc_lo(poly)` of the CRC64 generator. -/
def Gen64.calc_lo (poly : Nat) : Nat := Gen64.calc_lo_loop poly 64 poly 0

/-- The loop of `calc_hi(poly, a)` of the CRC64 generator: `k` iterations are left. -/
def Gen64.calc_hi_loop (poly : Nat) : Nat → Nat → Nat
  | 0, a => a
  | k + 1, a => Gen64.calc_hi_loop poly k ((a >>> 1) ^^^ (if a &&& 1 ≠ 0 then poly else 0))

/-- The function `calc_hi(poly, a)` of the CRC64 generator. -/
def Gen64.calc_hi (poly a : Nat) : Nat := Gen64.calc_hi_loop poly 64 a

/-- The body of `crc32_clmul` with its five constants as parameters. -/
def crc32_clmul_with (p mu k5 k4 k3 : Int) (m : Mem) (buf size crc : Nat) :
    Except Fault Nat := do
  let vfold4 := _mm_set_epi64x mu p
  let vfold8 := _mm_set_epi64x 0 k5
  let vfold16 := _mm_set_epi64x k4 k3
  let (v0, v1) ← crc_simd_body m buf size vfold16 (_mm_cvtsi32_si128 (to_int32 crc))
  let v1 := _mm_xor_si128 (_mm_clmulepi64_si128 v0 vfold16 0x10) v1
  let v2 := _mm_shuffle_epi32 v1 0xe7
  let v0 := _mm_slli_epi64 v1 32
  let v0 := _mm_clmulepi64_si128 v0 vfold8 0x00
  let v0 := _mm_xor_si128 v0 v2
  let v2 := _mm_clmulepi64_si128 v0 vfold4 0x10
  let v2 := _mm_clmulepi64_si128 v2 vfold4 0x00
  let v0 := _mm_xor_si128 v0 v2
  pure (to_uint32 (_mm_extract_epi32 v0 2))

/-- The body of `crc64_clmul` (x86-64 variant) with its four constants as parameters. -/
def crc64_clmul_with (p mu k2 k1 : Nat) (m : Mem) (buf size crc : Nat) :
    Except Fault Nat := do
  let vfold8 := _mm_set_epi64x (to_int64 p) (to_int64 mu)
  let vfold16 := _mm_set_epi64x (to_int64 k2) (to_int64 k1)
  let (v0, v1) ← crc_simd_body m buf size vfold16 (_mm_cvtsi64_si128 (to_int64 crc))
  let v1 := _mm_xor_si128 (_mm_clmulepi64_si128 v0 vfold16 0x10) v1
  let v0 := _mm_clmulepi64_si128 v1 vfold8 0x00
  let v2 := _mm_clmulepi64_si128 v0 vfold8 0x10
  let v0 := _mm_xor_si128 (_mm_xor_si128 v1 (_mm_slli_si128 v0 8)) v2
  pure (to_uint64 (_mm_extract_epi64 v0 1))

/-- What a run of `crc_simd_body` did: the addresses given to `_mm_load_si128`, oldest
first, and the number of fold steps made inside and after the `while` loop. -/
structure Trace where
  loads : List Nat
  folds_in_loop : Nat
  folds_after_loop : Nat
  deriving DecidableEq, Repr

/-- The `while` loop of `crc_simd_body` with a record of what it does. -/
def crc_simd_loop_traced (m : Mem) (vfold16 end_ : Nat) :
    Nat → Nat → Nat → Nat → Trace → Except Fault (Nat × Nat × Nat × Trace)
  | 0, aligned_buf, v0, v1, t =>
    if aligned_buf < end_ then .error .out_of_fuel else .ok (aligned_buf, v0, v1, t)
  | fuel + 1, aligned_buf, v0, v1, t =>
    if aligned_buf < end_ then do
      let v1 := _mm_xor_si128 v1 (_mm_clmulepi64_si128 v0 vfold16 0x00)
      let v0 := _mm_xor_si128 v1 (_mm_clmulepi64_si128 v0 vfold16 0x11)
      let t := { t with folds_in_loop := t.folds_in_loop + 1 }
      let t := { t with loads := t.loads ++ [aligned_buf] }
      let v1 ← _mm_load_si128 m aligned_buf
      crc_simd_loop_traced m vfold16 end_ fuel (aligned_buf + 16) v0 v1 t
    else .ok (aligned_buf, v0, v1, t)

/-- The function `crc_simd_body` with a record of what it does; the value is the final
`(v0, v1)` and the record. -/
def crc_simd_body_traced (m : Mem) (buf size vfold16 initial_crc : Nat) :
    Except Fault (Nat × Nat × Trace) := do
  if (buf % 2 ^ 64) &&& 15 ≠ 0 then throw .assert_failed
  if size &&& 15 ≠ 0 then throw .assert_failed
  let aligned_buf := buf
  let end_ := buf + size
  let t : Trace := ⟨[aligned_buf], 0, 0⟩
  let v0 := _mm_xor_si128 initial_crc (← _mm_load_si128 m aligned_buf)
  let aligned_buf := aligned_buf + 16
  let (v0, t) ←
    if aligned_buf < end_ then do
      let t := { t with loads := t.loads ++ [aligned_buf] }
      let v1 ← _mm_load_si128 m aligned_buf
      let aligned_buf := aligned_buf + 16
      let (_, v0, v1, t) ← crc_simd_loop_traced m vfold16 end_ (size / 16) aligned_buf v0 v1 t
      let v1 := _mm_xor_si128 v1 (_mm_clmulepi64_si128 v0 vfold16 0x00)
      let v0 := _mm_xor_si128 v1 (_mm_clmulepi64_si128 v0 vfold16 0x11)
      let t := { t with folds_after_loop := t.folds_after_loop + 1 }
      pure (v0, t)
    else pure (v0, t)
  let v1 := _mm_srli_si128 v0 8
  pure (v0, v1, t)

/-- The value `~G(tail, A(bulk, G(head, ~crc)))` for `crc32_arch_optimized`: complement
on entry, generic on the head, kernel on the bulk, generic on the tail, complement on
exit. -/
def crc32_entry_exit_complement (m : Mem) (crc : Nat) : Except Fault Nat := do
  let align16 := head_len m.addr
  let size16 := bulk_len m.addr m.bytes.length
  let crc := not32 crc
  let crc := crc32_generic (m.bytes.take align16) crc
  let crc ← crc32_clmul m (m.addr + align16) size16 crc
  let crc := crc32_generic (m.bytes.drop (align16 + size16)) crc
  pure (not32 crc)

/-- The value `~G(tail, A(bulk, G(head, ~crc)))` for `crc64_arch_optimized`. -/
def crc64_entry_exit_complement (m : Mem) (crc : Nat) : Except Fault Nat := do
  let align16 := head_len m.addr
  let size16 := bulk_len m.addr m.bytes.length
  let crc := not64 crc
  let crc := crc64_generic (m.bytes.take align16) crc
  let crc ← crc64_clmul m (m.addr + align16) size16 crc
  let crc := crc64_generic (m.bytes.drop (align16 + size16)) crc
  pure (not64 crc)

/-- Bytewise XOR of two byte sequences. -/
def xor_bytes (b1 b2 : List Nat) : List Nat := List.zipWith (· ^^^ ·) b1 b2

/-- A buffer of 32 bytes at a 16-byte aligned address: two lanes. -/
def sample32 : Mem := ⟨0x1000, (List.range 32).map (fun i => (i * 7 + 1) % 256)⟩

/-- Additive maps of the GF(2) vector space of bit strings. -/
structure IsLin (f : Nat → Nat) : Prop where
  map_xor : ∀ a b, f (a ^^^ b) = f a ^^^ f b

/-! ## Bit-level lemmas -/

theorem shiftRight_xor (a b n : Nat) : (a ^^^ b) >>> n = (a >>> n) ^^^ (b >>> n) := by
  apply Nat.eq_of_testBit_eq; intro i; simp

theorem shiftLeft_xor (a b n : Nat) : (a ^^^ b) <<< n = (a <<< n) ^^^ (b <<< n) := by
  apply Nat.eq_of_testBit_eq; intro i
  simp only [Nat.testBit_shiftLeft, Nat.testBit_xor]
  cases decide (i ≥ n) <;> simp

theorem xor_mod_pow (a b n : Nat) : (a ^^^ b) % 2 ^ n = (a % 2 ^ n) ^^^ (b % 2 ^ n) := by
  apply Nat.eq_of_testBit_eq; intro i
  simp only [Nat.testBit_mod_two_pow, Nat.testBit_xor]
  cases decide (i < n) <;> simp

theorem or_shiftLeft_eq_xor (a b n : Nat) (h : a < 2 ^ n) :
    a ||| (b <<< n) = a ^^^ (b <<< n) := by
  apply Nat.eq_of_testBit_eq; intro i
  simp only [Nat.testBit_or, Nat.testBit_xor, Nat.testBit_shiftLeft]
  by_cases hi : i ≥ n
  · have : a.testBit i = false :=
      Nat.testBit_lt_two_pow (lt_of_lt_of_le h (Nat.pow_le_pow_right (by decide) hi))
    simp [this]
  · simp [hi]

theorem xor_four (a b c d : Nat) : (a ^^^ b) ^^^ (c ^^^ d) = (a ^^^ c) ^^^ (b ^^^ d) := by
  apply Nat.eq_of_testBit_eq; intro i
  simp only [Nat.testBit_xor]
  cases a.testBit i <;> cases b.testBit i <;> cases c.testBit i <;> cases d.testBit i <;> rfl

theorem bit_split (v n : Nat) (h : v < 2 ^ (n + 1)) :
    v = (v % 2 ^ n) ^^^ (if v.testBit n then 2 ^ n else 0) := by
  apply Nat.eq_of_testBit_eq; intro i
  rcases Nat.lt_trichotomy i n with hi | hi | hi
  · have hne : ¬ n = i := by omega
    by_cases hb : v.testBit n <;>
      simp [hb, Nat.testBit_mod_two_pow, Nat.testBit_two_pow, hi, hne]
  · subst hi
    by_cases hb : v.testBit i <;>
      simp [hb, Nat.testBit_mod_two_pow, Nat.testBit_two_pow]
  · have hv : v.testBit i = false :=
      Nat.testBit_lt_two_pow (lt_of_lt_of_le h (Nat.pow_le_pow_right (by decide) hi))
    have hne : ¬ n = i := by omega
    have hlt : ¬ i < n := by omega
    by_cases hb : v.testBit n <;>
      simp [hb, Nat.testBit_mod_two_pow, Nat.testBit_two_pow, hv, hne, hlt]

/-! ## Linear maps -/

theorem IsLin.zero {f : Nat → Nat} (hf : IsLin f) : f 0 = 0 := by
  have h := hf.map_xor 0 0
  simp only [Nat.xor_self] at h
  have h2 : f 0 ^^^ f 0 = 0 := Nat.xor_self _
  omega

theorem IsLin.id : IsLin (fun v => v) := ⟨fun _ _ => rfl⟩

theorem IsLin.comp {f g : Nat → Nat} (hf : IsLin f) (hg : IsLin g) :
    IsLin (fun v => f (g v)) := ⟨fun a b => by
  show f (g (a ^^^ b)) = _
  rw [hg.map_xor, hf.map_xor]⟩

theorem IsLin.xor {f g : Nat → Nat} (hf : IsLin f) (hg : IsLin g) :
    IsLin (fun v => f v ^^^ g v) := ⟨fun a b => by
  show f (a ^^^ b) ^^^ g (a ^^^ b) = _
  rw [hf.map_xor, hg.map_xor, xor_four]⟩

theorem IsLin.shiftRight (n : Nat) : IsLin (fun v => v >>> n) :=
  ⟨fun a b => shiftRight_xor a b n⟩

theorem IsLin.shiftLeft (n : Nat) : IsLin (fun v => v <<< n) :=
  ⟨fun a b => shiftLeft_xor a b n⟩

theorem IsLin.mod_pow (n : Nat) : IsLin (fun v => v % 2 ^ n) :=
  ⟨fun a b => xor_mod_pow a b n⟩

theorem IsLin.iterate {f : Nat → Nat} (hf : IsLin f) (n : Nat) : IsLin (f^[n]) := by
  induction n with
  | zero => exact ⟨fun _ _ => rfl⟩
  | succ n ih =>
    refine ⟨fun a b => ?_⟩
    simp only [Function.iterate_succ, Function.comp]
    rw [hf.map_xor, ih.map_xor]

/-- Two linear maps that agree on the unit vectors `2^k`, `k < n`, agree below `2^n`. -/
theorem IsLin.ext {f g : Nat → Nat} (hf : IsLin f) (hg : IsLin g) (n : Nat)
    (h : ∀ k < n, f (2 ^ k) = g (2 ^ k)) : ∀ v < 2 ^ n, f v = g v := by
  induction n with
  | zero =>
    intro v hv
    have : v = 0 := by simpa using hv
    rw [this, hf.zero, hg.zero]
  | succ n ih =>
    intro v hv
    have ih2 := ih (fun k hk => h k (by omega)) (v % 2 ^ n) (Nat.mod_lt _ (by positivity))
    rw [bit_split v n hv, hf.map_xor, hg.map_xor, ih2]
    by_cases hb : v.testBit n
    · simp only [hb, if_true]; rw [h n (by omega)]
    · simp only [hb]; simp [hf.zero, hg.zero]

theorem to_uint32_to_int32 (x : Nat) : to_uint32 (to_int32 x) = x % 2 ^ 32 := by
  unfold to_uint32 to_int32
  split <;> omega

theorem to_uint64_to_int64 (x : Nat) : to_uint64 (to_int64 x) = x % 2 ^ 64 := by
  unfold to_uint64 to_int64
  split <;> omega

theorem clmul_bits_lin (b n : Nat) : IsLin (fun a => clmul_bits a b n) := by
  induction n with
  | zero => exact ⟨fun x y => by simp [clmul_bits]⟩
  | succ n ih =>
    refine ⟨fun x y => ?_⟩
    have h := ih.map_xor x y
    simp only [clmul_bits] at h ⊢
    rw [h]
    by_cases hb : b.testBit n
    · simp only [hb, if_true, shiftLeft_xor, xor_four]
    · simp [hb]

theorem clmul_bits_lt (a b n : Nat) (ha : a < 2 ^ 64) (hn : n ≤ 64) :
    clmul_bits a b n < 2 ^ 128 := by
  induction n with
  | zero => simp [clmul_bits]
  | succ n ih =>
    simp only [clmul_bits]
    apply Nat.xor_lt_two_pow (ih (by omega))
    split
    · rw [Nat.shiftLeft_eq]
      calc a * 2 ^ n < 2 ^ 64 * 2 ^ n := Nat.mul_lt_mul_of_pos_right ha (by positivity)
        _ = 2 ^ (64 + n) := by rw [Nat.pow_add]
        _ ≤ 2 ^ 128 := Nat.pow_le_pow_right (by decide) (by omega)
    · positivity

theorem lo64_lin : IsLin lo64 := ⟨fun a b => xor_mod_pow a b 64⟩

theorem hi64_lin : IsLin hi64 := ⟨fun a b => by
  unfold hi64
  rw [shiftRight_xor, xor_mod_pow]⟩

theorem lo64_lt (v : Nat) : lo64 v < 2 ^ 64 := Nat.mod_lt _ (by positivity)

theorem hi64_lt (v : Nat) : hi64 v < 2 ^ 64 := Nat.mod_lt _ (by positivity)

theorem clmulepi64_lt (a b imm : Nat) : _mm_clmulepi64_si128 a b imm < 2 ^ 128 := by
  unfold _mm_clmulepi64_si128 clmul64
  split
  · exact clmul_bits_lt _ _ _ (hi64_lt a) (le_refl _)
  · exact clmul_bits_lt _ _ _ (lo64_lt a) (le_refl _)

theorem lin_clmul {f : Nat → Nat} (hf : IsLin f) (b imm : Nat) :
    IsLin (fun v => _mm_clmulepi64_si128 (f v) b imm) := by
  unfold _mm_clmulepi64_si128 clmul64
  split
  · exact IsLin.comp (clmul_bits_lin _ 64) (IsLin.comp hi64_lin hf)
  · exact IsLin.comp (clmul_bits_lin _ 64) (IsLin.comp lo64_lin hf)

theorem lin_xor {f g : Nat → Nat} (hf : IsLin f) (hg : IsLin g) :
    IsLin (fun v => _mm_xor_si128 (f v) (g v)) := IsLin.xor hf hg

theorem lin_srli {f : Nat → Nat} (hf : IsLin f) (imm : Nat) :
    IsLin (fun v => _mm_srli_si128 (f v) imm) := IsLin.comp (IsLin.shiftRight _) hf

theorem lin_slli {f : Nat → Nat} (hf : IsLin f) (imm : Nat) :
    IsLin (fun v => _mm_slli_si128 (f v) imm) :=
  IsLin.comp (IsLin.comp (IsLin.mod_pow 128) (IsLin.shiftLeft _)) hf

theorem slli_epi64_eq (a imm : Nat) :
    _mm_slli_epi64 a imm
      = ((lo64 a <<< imm) % 2 ^ 64) ^^^ (((hi64 a <<< imm) % 2 ^ 64) <<< 64) := by
  unfold _mm_slli_epi64
  rw [Nat.or_comm, or_shiftLeft_eq_xor _ _ _ (Nat.mod_lt _ (by positivity))]

theorem slli_epi64_xor (a b imm : Nat) :
    _mm_slli_epi64 (a ^^^ b) imm = _mm_slli_epi64 a imm ^^^ _mm_slli_epi64 b imm := by
  simp only [slli_epi64_eq, lo64_lin.map_xor, hi64_lin.map_xor, shiftLeft_xor, xor_mod_pow]
  rw [xor_four]

theorem lin_slli_epi64 {f : Nat → Nat} (hf : IsLin f) (imm : Nat) :
    IsLin (fun v => _mm_slli_epi64 (f v) imm) := ⟨fun a b => by
  show _mm_slli_epi64 (f (a ^^^ b)) imm = _
  rw [hf.map_xor, slli_epi64_xor]⟩

theorem epi32_lt (a i : Nat) : epi32 a i < 2 ^ 32 := Nat.mod_lt _ (by positivity)

theorem epi32_xor (a b i : Nat) : epi32 (a ^^^ b) i = epi32 a i ^^^ epi32 b i := by
  unfold epi32
  rw [shiftRight_xor, xor_mod_pow]

theorem epi32_lin (i : Nat) : IsLin (fun a => epi32 a i) := ⟨fun a b => epi32_xor a b i⟩

theorem shiftLeft_lt_pow (a k n : Nat) (h : a < 2 ^ k) : a <<< n < 2 ^ (k + n) := by
  rw [Nat.shiftLeft_eq, Nat.pow_add]
  exact Nat.mul_lt_mul_of_pos_right h (by positivity)

theorem shuffle_epi32_eq (a imm : Nat) :
    _mm_shuffle_epi32 a imm
      = ((epi32 a (imm % 4) ^^^ (epi32 a (imm / 4 % 4) <<< 32))
          ^^^ (epi32 a (imm / 16 % 4) <<< 64)) ^^^ (epi32 a (imm / 64 % 4) <<< 96) := by
  unfold _mm_shuffle_epi32
  have h0 := epi32_lt a (imm % 4)
  have h1 := shiftLeft_lt_pow _ 32 32 (epi32_lt a (imm / 4 % 4))
  have h2 := shiftLeft_lt_pow _ 32 64 (epi32_lt a (imm / 16 % 4))
  rw [or_shiftLeft_eq_xor _ _ 32 h0]
  have h01 : epi32 a (imm % 4) ^^^ (epi32 a (imm / 4 % 4) <<< 32) < 2 ^ 64 :=
    Nat.xor_lt_two_pow (lt_of_lt_of_le h0 (by decide)) h1
  rw [or_shiftLeft_eq_xor _ _ 64 h01]
  have h012 : (epi32 a (imm % 4) ^^^ (epi32 a (imm / 4 % 4) <<< 32))
      ^^^ (epi32 a (imm / 16 % 4) <<< 64) < 2 ^ 96 :=
    Nat.xor_lt_two_pow (lt_of_lt_of_le h01 (by decide)) h2
  rw [or_shiftLeft_eq_xor _ _ 96 h012]

theorem shuffle_epi32_xor (a b imm : Nat) :
    _mm_shuffle_epi32 (a ^^^ b) imm
      = _mm_shuffle_epi32 a imm ^^^ _mm_shuffle_epi32 b imm := by
  simp only [shuffle_epi32_eq, epi32_xor, shiftLeft_xor]
  rw [xor_four (epi32 a (imm % 4)), xor_four (epi32 a (imm % 4) ^^^ _),
    xor_four ((epi32 a (imm % 4) ^^^ _) ^^^ _)]

theorem lin_shuffle {f : Nat → Nat} (hf : IsLin f) (imm : Nat) :
    IsLin (fun v => _mm_shuffle_epi32 (f v) imm) := ⟨fun a b => by
  show _mm_shuffle_epi32 (f (a ^^^ b)) imm = _
  rw [hf.map_xor, shuffle_epi32_xor]⟩

theorem extract_epi32_eq (a imm : Nat) :
    to_uint32 (_mm_extract_epi32 a imm) = epi32 a imm := by
  unfold _mm_extract_epi32
  rw [to_uint32_to_int32]
  exact Nat.mod_eq_of_lt (epi32_lt a imm)

theorem extract_epi64_eq (a imm : Nat) :
    to_uint64 (_mm_extract_epi64 a imm) = (a >>> (64 * imm)) % 2 ^ 64 := by
  unfold _mm_extract_epi64
  rw [to_uint64_to_int64]
  exact Nat.mod_eq_of_lt (Nat.mod_lt _ (by positivity))

theorem lin_extract32 {f : Nat → Nat} (hf : IsLin f) (imm : Nat) :
    IsLin (fun v => to_uint32 (_mm_extract_epi32 (f v) imm)) := by
  simp only [extract_epi32_eq]
  exact IsLin.comp (epi32_lin imm) hf

theorem lin_extract64 {f : Nat → Nat} (hf : IsLin f) (imm : Nat) :
    IsLin (fun v => to_uint64 (_mm_extract_epi64 (f v) imm)) := by
  simp only [extract_epi64_eq]
  exact IsLin.comp (IsLin.comp (IsLin.mod_pow 64) (IsLin.shiftRight _)) hf

theorem crc32_final_lin : IsLin (fun v => crc32_final v (_mm_srli_si128 v 8)) := by
  unfold crc32_final
  have h1 := lin_xor (lin_clmul IsLin.id (_mm_set_epi64x 0x0ccaa009e 0x1751997d0) 0x10)
    (lin_srli IsLin.id 8)
  have h0 := lin_xor
    (lin_clmul (lin_slli_epi64 h1 32) (_mm_set_epi64x 0 0x163cd6124) 0x00)
    (lin_shuffle h1 0xe7)
  have h2 := lin_clmul (lin_clmul h0 (_mm_set_epi64x 0x1f7011641 0x1db710640) 0x10)
    (_mm_set_epi64x 0x1f7011641 0x1db710640) 0x00
  exact lin_extract32 (lin_xor h0 h2) 2

theorem crc64_final_lin : IsLin (fun v => crc64_final v (_mm_srli_si128 v 8)) := by
  unfold crc64_final
  have h1 := lin_xor (lin_clmul IsLin.id
    (_mm_set_epi64x (to_int64 0xdabe95afc7875f40) (to_int64 0xe05dd497ca393ae4)) 0x10)
    (lin_srli IsLin.id 8)
  have h0 := lin_clmul h1
    (_mm_set_epi64x (to_int64 0x92d8af2baf0e1e85) (to_int64 0x9c3e466c172963d5)) 0x00
  have h2 := lin_clmul h0
    (_mm_set_epi64x (to_int64 0x92d8af2baf0e1e85) (to_int64 0x9c3e466c172963d5)) 0x10
  exact lin_extract64 (lin_xor (lin_xor h1 (lin_slli h0 8)) h2) 1

/-! ## Linearity of the generic byte loop -/

theorem crc_bit_lin (poly : Nat) : IsLin (crc_bit poly) := ⟨fun a b => by
  unfold crc_bit
  have h : (a ^^^ b) % 2 = (a % 2) ^^^ (b % 2) := by
    have := xor_mod_pow a b 1
    simpa using this
  rw [shiftRight_xor, Nat.and_one_is_mod, Nat.and_one_is_mod, Nat.and_one_is_mod, h]
  rcases Nat.mod_two_eq_zero_or_one a with ha | ha <;>
    rcases Nat.mod_two_eq_zero_or_one b with hb | hb <;>
    simp only [ha, hb]
  · simp
  · simp [Nat.xor_assoc]
  · simp only [Nat.xor_zero, Nat.reduceXor, if_true, if_false, Nat.zero_ne_one]
    rw [Nat.xor_assoc, Nat.xor_comm (b >>> 1), ← Nat.xor_assoc]
  · simp only [Nat.xor_zero, Nat.reduceXor, if_true, if_false, Nat.zero_ne_one]
    rw [xor_four (a >>> 1) poly (b >>> 1) poly, Nat.xor_self, Nat.xor_zero]⟩

theorem lzma_crc32_table_lin (k : Nat) : IsLin (lzma_crc32_table k) :=
  (crc_bit_lin 0xEDB88320).iterate (8 * (k + 1))

theorem lzma_crc64_table_lin (k : Nat) : IsLin (lzma_crc64_table k) :=
  (crc_bit_lin 0xC96C5795D7870F42).iterate (8 * (k + 1))

theorem crc_byte_xor {t : Nat → Nat} (ht : IsLin t) (s1 s2 b1 b2 : Nat) :
    crc_byte t (s1 ^^^ s2) (b1 ^^^ b2) = crc_byte t s1 b1 ^^^ crc_byte t s2 b2 := by
  unfold crc_byte
  rw [xor_four b1 b2 s1 s2, Nat.and_xor_distrib_right, ht.map_xor, shiftRight_xor, xor_four]

theorem crc_lane_xor {t : Nat → Nat} (ht : IsLin t) (n s1 s2 l1 l2 : Nat) :
    crc_lane t n (s1 ^^^ s2) (l1 ^^^ l2) = crc_lane t n s1 l1 ^^^ crc_lane t n s2 l2 := by
  induction n generalizing s1 s2 l1 l2 with
  | zero => rfl
  | succ n ih =>
    simp only [crc_lane]
    have h : (l1 ^^^ l2) % 256 = (l1 % 256) ^^^ (l2 % 256) := xor_mod_pow l1 l2 8
    rw [h, crc_byte_xor ht, shiftRight_xor, ih]

theorem crc_lane_state_lin {t : Nat → Nat} (ht : IsLin t) (n : Nat) :
    IsLin (fun s => crc_lane t n s 0) := ⟨fun a b => by
  have h := crc_lane_xor ht n a b 0 0
  simpa using h⟩

theorem crc_lane_data_lin {t : Nat → Nat} (ht : IsLin t) (n : Nat) :
    IsLin (fun l => crc_lane t n 0 l) := ⟨fun a b => by
  have h := crc_lane_xor ht n 0 0 a b
  simpa using h⟩

theorem crc_lane_split {t : Nat → Nat} (ht : IsLin t) (n s l : Nat) :
    crc_lane t n s l = crc_lane t n s 0 ^^^ crc_lane t n 0 l := by
  have h := crc_lane_xor ht n s 0 0 l
  simpa using h

/-! ## Linearity of the fold step -/

theorem fold16_zero_lin (vf : Nat) : IsLin (fun v => fold16 vf v 0) := by
  unfold fold16
  exact lin_xor (lin_xor ⟨fun _ _ => by simp⟩ (lin_clmul IsLin.id vf 0x00))
    (lin_clmul IsLin.id vf 0x11)

theorem fold16_split (vf v l : Nat) : fold16 vf v l = fold16 vf v 0 ^^^ l := by
  unfold fold16 _mm_xor_si128
  rw [Nat.zero_xor, Nat.xor_assoc, Nat.xor_comm l, Nat.xor_assoc]

theorem fold16_lt (vf v l : Nat) (hl : l < 2 ^ 128) : fold16 vf v l < 2 ^ 128 := by
  unfold fold16 _mm_xor_si128
  exact Nat.xor_lt_two_pow (Nat.xor_lt_two_pow hl (clmulepi64_lt _ _ _)) (clmulepi64_lt _ _ _)

/-! ## From the unit vectors to all inputs

`F` is the final reduction as a function of `v0`, `t` the table row of the generic loop,
`vf` the folding constants and `w` the width of the CRC. -/

theorem reduce_lane_of_basis {F t : Nat → Nat} (hF : IsLin F) (ht : IsLin t) (w : Nat)
    (hA : ∀ k < 128, F (2 ^ k) = crc_lane t 16 0 (2 ^ k))
    (hB : ∀ k < w, F (2 ^ k) = crc_lane t 16 (2 ^ k) 0)
    (s l : Nat) (hs : s < 2 ^ w) (hl : l < 2 ^ 128) :
    F (s ^^^ l) = crc_lane t 16 s l := by
  rw [hF.map_xor, crc_lane_split ht,
    IsLin.ext hF (crc_lane_state_lin ht 16) w hB s hs,
    IsLin.ext hF (crc_lane_data_lin ht 16) 128 hA l hl]

theorem reduce_fold_of_basis {F t : Nat → Nat} (hF : IsLin F) (ht : IsLin t) (vf : Nat)
    (hA : ∀ k < 128, F (2 ^ k) = crc_lane t 16 0 (2 ^ k))
    (hC : ∀ k < 128, F (fold16 vf (2 ^ k) 0) = crc_lane t 16 (F (2 ^ k)) 0)
    (v l : Nat) (hv : v < 2 ^ 128) (hl : l < 2 ^ 128) :
    F (fold16 vf v l) = crc_lane t 16 (F v) l := by
  have h1 : IsLin (fun v => F (fold16 vf v 0)) := IsLin.comp hF (fold16_zero_lin vf)
  have h2 : IsLin (fun v => crc_lane t 16 (F v) 0) := IsLin.comp (crc_lane_state_lin ht 16) hF
  rw [fold16_split, hF.map_xor, crc_lane_split ht _ (F v) l,
    IsLin.ext h1 h2 128 hC v hv,
    IsLin.ext hF (crc_lane_data_lin ht 16) 128 hA l hl]

/-! ## The checks on the unit vectors -/

set_option maxRecDepth 100000 in
theorem crc32_basis_lane :
    ∀ k < 128, crc32_of_v0 (2 ^ k) = crc_lane (lzma_crc32_table 0) 16 0 (2 ^ k) := by
  decide

set_option maxRecDepth 100000 in
theorem crc32_basis_state :
    ∀ k < 32, crc32_of_v0 (2 ^ k) = crc_lane (lzma_crc32_table 0) 16 (2 ^ k) 0 := by
  decide

set_option maxRecDepth 100000 in
theorem crc32_basis_fold :
    ∀ k < 128, crc32_of_v0 (fold16 crc32_vfold16 (2 ^ k) 0)
      = crc_lane (lzma_crc32_table 0) 16 (crc32_of_v0 (2 ^ k)) 0 := by
  decide

set_option maxRecDepth 100000 in
theorem crc64_basis_lane :
    ∀ k < 128, crc64_of_v0 (2 ^ k) = crc_lane (lzma_crc64_table 0) 16 0 (2 ^ k) := by
  decide

set_option maxRecDepth 100000 in
theorem crc64_basis_state :
    ∀ k < 64, crc64_of_v0 (2 ^ k) = crc_lane (lzma_crc64_table 0) 16 (2 ^ k) 0 := by
  decide

set_option maxRecDepth 100000 in
theorem crc64_basis_fold :
    ∀ k < 128, crc64_of_v0 (fold16 crc64_vfold16 (2 ^ k) 0)
      = crc_lane (lzma_crc64_table 0) 16 (crc64_of_v0 (2 ^ k)) 0 := by
  decide

theorem crc32_of_v0_lin : IsLin crc32_of_v0 := crc32_final_lin

theorem crc64_of_v0_lin : IsLin crc64_of_v0 := crc64_final_lin

theorem crc32_of_v0_lane (s l : Nat) (hs : s < 2 ^ 32) (hl : l < 2 ^ 128) :
    crc32_of_v0 (s ^^^ l) = crc_lane (lzma_crc32_table 0) 16 s l :=
  reduce_lane_of_basis crc32_of_v0_lin (lzma_crc32_table_lin 0) 32
    crc32_basis_lane crc32_basis_state s l hs hl

theorem crc32_of_v0_fold (v l : Nat) (hv : v < 2 ^ 128) (hl : l < 2 ^ 128) :
    crc32_of_v0 (fold16 crc32_vfold16 v l)
      = crc_lane (lzma_crc32_table 0) 16 (crc32_of_v0 v) l :=
  reduce_fold_of_basis crc32_of_v0_lin (lzma_crc32_table_lin 0) crc32_vfold16
    crc32_basis_lane crc32_basis_fold v l hv hl

theorem crc64_of_v0_lane (s l : Nat) (hs : s < 2 ^ 64) (hl : l < 2 ^ 128) :
    crc64_of_v0 (s ^^^ l) = crc_lane (lzma_crc64_table 0) 16 s l :=
  reduce_lane_of_basis crc64_of_v0_lin (lzma_crc64_table_lin 0) 64
    crc64_basis_lane crc64_basis_state s l hs hl

theorem crc64_of_v0_fold (v l : Nat) (hv : v < 2 ^ 128) (hl : l < 2 ^ 128) :
    crc64_of_v0 (fold16 crc64_vfold16 v l)
      = crc_lane (lzma_crc64_table 0) 16 (crc64_of_v0 v) l :=
  reduce_fold_of_basis crc64_of_v0_lin (lzma_crc64_table_lin 0) crc64_vfold16
    crc64_basis_lane crc64_basis_fold v l hv hl

/-! ## Bytes, lanes and memory -/

theorem le_value_cons_mod (b : Nat) (bs : List Nat) (hb : b < 256) :
    le_value (b :: bs) % 256 = b := by
  simp only [le_value]
  omega

theorem le_value_cons_shift (b : Nat) (bs : List Nat) (hb : b < 256) :
    le_value (b :: bs) >>> 8 = le_value bs := by
  simp only [le_value, Nat.shiftRight_eq_div_pow]
  omega

theorem le_value_lt (ys : List Nat) (h : ∀ b ∈ ys, b < 256) :
    le_value ys < 2 ^ (8 * ys.length) := by
  induction ys with
  | nil => simp [le_value]
  | cons b bs ih =>
    have hb : b < 256 := h b (List.mem_cons_self _ _)
    have ih2 := ih (fun x hx => h x (List.mem_cons_of_mem _ hx))
    simp only [le_value, List.length_cons]
    have e : 2 ^ (8 * (bs.length + 1)) = 2 ^ 8 * 2 ^ (8 * bs.length) := by
      rw [← Nat.pow_add]; congr 1; omega
    rw [e]
    generalize 2 ^ (8 * bs.length) = B at ih2 ⊢
    generalize le_value bs = r at ih2 ⊢
    norm_num
    nlinarith

theorem crc_lane_le_value (t : Nat → Nat) (ys : List Nat) (s : Nat)
    (h : ∀ b ∈ ys, b < 256) :
    crc_lane t ys.length s (le_value ys) = ys.foldl (crc_byte t) s := by
  induction ys generalizing s with
  | nil => rfl
  | cons b bs ih =>
    have hb : b < 256 := h b (List.mem_cons_self _ _)
    simp only [List.length_cons, crc_lane, List.foldl_cons]
    rw [le_value_cons_mod b bs hb, le_value_cons_shift b bs hb]
    exact ih _ (fun x hx => h x (List.mem_cons_of_mem _ hx))

theorem foldl_lanes (t : Nat → Nat) (r : Nat) (xs : List Nat) (s : Nat)
    (hlen : 16 * r ≤ xs.length) (h : ∀ b ∈ xs, b < 256) :
    (xs.take (16 * r)).foldl (crc_byte t) s = (lanes xs r).foldl (crc_lane t 16) s := by
  induction r generalizing xs s with
  | zero => simp [lanes]
  | succ r ih =>
    have e : 16 * (r + 1) = 16 + 16 * r := by omega
    rw [e, List.take_add, List.foldl_append]
    simp only [lanes, List.foldl_cons]
    have h16 : (xs.take 16).length = 16 := by
      rw [List.length_take]; omega
    have h1 := crc_lane_le_value t (xs.take 16) s
      (fun b hb => h b (List.mem_of_mem_take hb))
    rw [h16] at h1
    rw [← h1]
    exact ih (xs.drop 16) _ (by rw [List.length_drop]; omega)
      (fun b hb => h b (List.mem_of_mem_drop hb))

theorem lanes_lt (r : Nat) (xs : List Nat)
    (hlen : 16 * r ≤ xs.length) (h : ∀ b ∈ xs, b < 256) :
    ∀ l ∈ lanes xs r, l < 2 ^ 128 := by
  induction r generalizing xs with
  | zero => simp [lanes]
  | succ r ih =>
    intro l hl
    simp only [lanes, List.mem_cons] at hl
    rcases hl with hl | hl
    · have h1 := le_value_lt (xs.take 16) (fun b hb => h b (List.mem_of_mem_take hb))
      have h16 : (xs.take 16).length = 16 := by
        rw [List.length_take]; omega
      rw [h16] at h1
      rw [hl]; exact h1
    · exact ih (xs.drop 16) (by rw [List.length_drop]; omega)
        (fun b hb => h b (List.mem_of_mem_drop hb)) l hl

theorem read_ok (m : Mem) (p n : Nat) (h1 : m.addr ≤ p)
    (h2 : p + n ≤ m.addr + m.bytes.length) :
    m.read p n = .ok ((m.bytes.drop (p - m.addr)).take n) := by
  unfold Mem.read
  rw [if_pos ⟨h1, h2⟩]

theorem load_ok (m : Mem) (p : Nat) (h0 : p % 16 = 0) (h1 : m.addr ≤ p)
    (h2 : p + 16 ≤ m.addr + m.bytes.length) :
    _mm_load_si128 m p = .ok (le_value ((m.bytes.drop (p - m.addr)).take 16)) := by
  unfold _mm_load_si128
  rw [if_neg (by simpa using h0), read_ok m p 16 h1 h2]
  rfl

/-! ## The fold loop -/

theorem and_15 (x : Nat) : x &&& 15 = x % 16 := Nat.and_pow_two_sub_one_eq_mod x 4

theorem ok_bind {α β : Type} (a : α) (f : α → Except Fault β) :
    (Except.ok a >>= f) = f a := rfl

theorem crc_simd_loop_ok (m : Mem) (vf end_ : Nat) (r : Nat) :
    ∀ (fuel p v0 v1 : Nat), r ≤ fuel → p % 16 = 0 → m.addr ≤ p → p + 16 * r = end_ →
      end_ ≤ m.addr + m.bytes.length →
      ∃ V0 V1, crc_simd_loop m vf end_ fuel p v0 v1 = .ok (end_, V0, V1) ∧
        fold16 vf V0 V1 = (v1 :: lanes (m.bytes.drop (p - m.addr)) r).foldl (fold16 vf) v0 := by
  induction r with
  | zero =>
    intro fuel p v0 v1 _ _ _ hend _
    have hp : ¬ p < end_ := by omega
    have he : p = end_ := by omega
    refine ⟨v0, v1, ?_, ?_⟩
    · cases fuel <;> simp [crc_simd_loop, hp, he]
    · simp [lanes]
  | succ r ih =>
    intro fuel p v0 v1 hfuel hal hlo hend hhi
    obtain ⟨fuel, rfl⟩ : ∃ f, fuel = f + 1 := ⟨fuel - 1, by omega⟩
    have hp : p < end_ := by omega
    obtain ⟨V0, V1, h1, h2⟩ := ih fuel (p + 16)
      (_mm_xor_si128 (_mm_xor_si128 v1 (_mm_clmulepi64_si128 v0 vf 0x00))
        (_mm_clmulepi64_si128 v0 vf 0x11))
      (le_value ((m.bytes.drop (p - m.addr)).take 16))
      (by omega) (by omega) (by omega) (by omega) hhi
    refine ⟨V0, V1, ?_, ?_⟩
    · simp only [crc_simd_loop, hp, if_true]
      rw [load_ok m p hal hlo (by omega)]
      exact h1
    · rw [h2]
      have e : p + 16 - m.addr = p - m.addr + 16 := by omega
      simp only [lanes, List.foldl_cons, e, List.drop_drop, fold16]

theorem crc_simd_body_ok (m : Mem) (buf size vf init n : Nat)
    (hal : buf % 16 = 0) (hsize : size = 16 * (n + 1)) (hlo : m.addr ≤ buf)
    (hhi : buf + size ≤ m.addr + m.bytes.length) :
    ∃ V, crc_simd_body m buf size vf init = .ok (V, _mm_srli_si128 V 8) ∧
      V = (lanes ((m.bytes.drop (buf - m.addr)).drop 16) n).foldl (fold16 vf)
        (init ^^^ le_value ((m.bytes.drop (buf - m.addr)).take 16)) := by
  have a1 : ¬ ((buf % 2 ^ 64) &&& 15 ≠ 0) := by
    rw [and_15]; omega
  have a2 : ¬ (size &&& 15 ≠ 0) := by
    rw [and_15]; omega
  unfold crc_simd_body
  simp only [a1, a2, if_false]
  rw [load_ok m buf hal hlo (by omega)]
  by_cases hn : n = 0
  · subst hn
    have hp : ¬ (buf + 16 < buf + size) := by omega
    refine ⟨_, ?_, rfl⟩
    simp [hp, lanes, _mm_xor_si128, ok_bind]
  · obtain ⟨k, rfl⟩ : ∃ k, n = k + 1 := ⟨n - 1, by omega⟩
    have hp : buf + 16 < buf + size := by omega
    obtain ⟨V0, V1, h1, h2⟩ := crc_simd_loop_ok m vf (buf + size) k (size / 16)
      (buf + 16 + 16)
      (_mm_xor_si128 init (le_value ((m.bytes.drop (buf - m.addr)).take 16)))
      (le_value ((m.bytes.drop (buf + 16 - m.addr)).take 16))
      (by omega) (by omega) (by omega) (by omega) hhi
    refine ⟨fold16 vf V0 V1, ?_, ?_⟩
    · simp only [ok_bind, hp, if_true]
      rw [load_ok m (buf + 16) (by omega) (by omega) (by omega)]
      simp only [ok_bind, h1]
      rfl
    · rw [h2]
      have e1 : buf + 16 - m.addr = buf - m.addr + 16 := by omega
      have e2 : buf + 16 + 16 - m.addr = buf - m.addr + 16 + 16 := by omega
      simp only [lanes, List.foldl_cons, e1, e2, List.drop_drop, _mm_xor_si128]

/-- The final reduction commutes with the fold loop. -/
theorem reduce_foldl {F t : Nat → Nat} (vf : Nat)
    (hfold : ∀ v l, v < 2 ^ 128 → l < 2 ^ 128 → F (fold16 vf v l) = crc_lane t 16 (F v) l)
    (ls : List Nat) (v : Nat) (hv : v < 2 ^ 128) (hls : ∀ l ∈ ls, l < 2 ^ 128) :
    F (ls.foldl (fold16 vf) v) = ls.foldl (crc_lane t 16) (F v) := by
  induction ls generalizing v with
  | nil => rfl
  | cons l ls ih =>
    have hl := hls l (List.mem_cons_self _ _)
    simp only [List.foldl_cons]
    rw [ih _ (fold16_lt vf v l hl) (fun x hx => hls x (List.mem_cons_of_mem _ hx)),
      hfold v l hv hl]

/-! ## The structure of the dispatchers -/

theorem crc32_arch_optimized_eq_with :
    crc32_arch_optimized = arch_optimized_with crc32_generic crc32_clmul not32 := rfl

theorem crc64_arch_optimized_eq_with :
    crc64_arch_optimized = arch_optimized_with crc64_generic crc64_clmul not64 := rfl

theorem align16_eq (addr : Nat) : sub64 0 (addr % 2 ^ 64) &&& 15 = head_len addr := by
  rw [and_15]
  unfold sub64 head_len
  omega

theorem and_not64_15 (x : Nat) (h : x < 2 ^ 64) : x &&& not64 15 = x / 16 * 16 := by
  have e : not64 15 = 2 ^ 64 - 1 - 15 := by decide
  have h1 : x &&& not64 15 = (x >>> 4) <<< 4 := by
    apply Nat.eq_of_testBit_eq; intro i
    have hm : (not64 15).testBit i = (decide (4 ≤ i) && decide (i < 64)) := by
      by_cases h64 : i < 64
      · have : ∀ j < 64, (not64 15).testBit j = (decide (4 ≤ j) && decide (j < 64)) := by
          decide
        exact this i h64
      · have hlt : not64 15 < 2 ^ i :=
          lt_of_lt_of_le (by decide : not64 15 < 2 ^ 64)
            (Nat.pow_le_pow_right (by decide) (by omega))
        rw [Nat.testBit_lt_two_pow hlt]
        simp [h64]
    rw [Nat.testBit_and, hm, Nat.testBit_shiftLeft, Nat.testBit_shiftRight]
    by_cases h4 : 4 ≤ i
    · by_cases h64 : i < 64
      · have : 4 + (i - 4) = i := by omega
        simp [h4, h64, this]
      · have hx : x.testBit i = false :=
          Nat.testBit_lt_two_pow (lt_of_lt_of_le h (Nat.pow_le_pow_right (by decide) (by omega)))
        have : 4 + (i - 4) = i := by omega
        simp [h4, h64, this, hx]
    · simp [h4]
  rw [h1, Nat.shiftLeft_eq, Nat.shiftRight_eq_div_pow]

/-- The dispatcher, for `size >= 32`, as one call of the kernel between two calls of the
generic function; the kernel is arbitrary. -/
theorem arch_optimized_with_large (G : List Nat → Nat → Nat)
    (K : Mem → Nat → Nat → Nat → Except Fault Nat) (compl : Nat → Nat) (m : Mem) (crc : Nat)
    (h32 : 32 ≤ m.bytes.length) (hlen : m.bytes.length < 2 ^ 64) :
    arch_optimized_with G K compl m crc
      = (K m (m.addr + head_len m.addr) (bulk_len m.addr m.bytes.length)
            (compl (head_crc G m crc))).map
          (fun r => G (m.bytes.drop (head_len m.addr + bulk_len m.addr m.bytes.length))
            (compl r)) := by
  have ha : head_len m.addr < 16 := by unfold head_len; omega
  unfold arch_optimized_with
  simp only [ge_iff_le, h32, if_true, align16_eq]
  have hsub : sub64 m.bytes.length (head_len m.addr) = m.bytes.length - head_len m.addr := by
    unfold sub64; omega
  have hb : bulk_len m.addr m.bytes.length
      = (m.bytes.length - head_len m.addr) / 16 * 16 := rfl
  have hs16 : (m.bytes.length - head_len m.addr) &&& not64 15
      = bulk_len m.addr m.bytes.length := and_not64_15 _ (by omega)
  have e1 : m.addr + head_len m.addr + bulk_len m.addr m.bytes.length - m.addr
      = head_len m.addr + bulk_len m.addr m.bytes.length := by omega
  have e2 : List.take ((m.bytes.length - head_len m.addr) % 16)
      (List.drop (head_len m.addr + bulk_len m.addr m.bytes.length) m.bytes)
      = List.drop (head_len m.addr + bulk_len m.addr m.bytes.length) m.bytes := by
    apply List.take_of_length_le
    rw [List.length_drop]; omega
  have hrd := read_ok m (m.addr + head_len m.addr + bulk_len m.addr m.bytes.length)
    ((m.bytes.length - head_len m.addr) % 16) (by omega) (by omega)
  rw [e1, e2] at hrd
  by_cases h0 : head_len m.addr > 0
  · rw [if_pos h0, read_ok m m.addr _ (le_refl _) (by omega)]
    simp only [ok_bind, pure_bind, hsub, hs16, and_15, Nat.sub_self, List.drop_zero, hrd,
      head_crc, if_pos h0]
    rfl
  · have h0' : head_len m.addr = 0 := by omega
    rw [if_neg h0]
    simp only [head_crc, if_neg h0]
    rw [h0'] at hs16 hrd ⊢
    simp only [Nat.sub_zero, Nat.add_zero, Nat.zero_add] at hs16 hrd ⊢
    simp only [ok_bind, pure_bind, hs16, and_15, hrd]
    rfl

/-! ## The CLMUL kernels compute the generic byte loop -/

theorem crc32_clmul_eq (m : Mem) (buf size crc : Nat) :
    crc32_clmul m buf size crc
      = (crc_simd_body m buf size crc32_vfold16 (_mm_cvtsi32_si128 (to_int32 crc))).map
          (fun p => crc32_final p.1 p.2) := by
  unfold crc32_clmul
  cases crc_simd_body m buf size (_mm_set_epi64x 0x0ccaa009e 0x1751997d0)
    (_mm_cvtsi32_si128 (to_int32 crc)) <;> rfl

theorem crc64_clmul_eq (m : Mem) (buf size crc : Nat) :
    crc64_clmul m buf size crc
      = (crc_simd_body m buf size crc64_vfold16 (_mm_cvtsi64_si128 (to_int64 crc))).map
          (fun p => crc64_final p.1 p.2) := by
  unfold crc64_clmul
  cases crc_simd_body m buf size
    (_mm_set_epi64x (to_int64 0xdabe95afc7875f40) (to_int64 0xe05dd497ca393ae4))
    (_mm_cvtsi64_si128 (to_int64 crc)) <;> rfl

/-- A kernel built from `crc_simd_body` and a final reduction `F` that satisfies the two
identities computes the generic byte loop over the region. -/
theorem kernel_of_reduce {F t : Nat → Nat} (vf w : Nat)
    (hlane : ∀ s l, s < 2 ^ w → l < 2 ^ 128 → F (s ^^^ l) = crc_lane t 16 s l)
    (hfold : ∀ v l, v < 2 ^ 128 → l < 2 ^ 128 → F (fold16 vf v l) = crc_lane t 16 (F v) l)
    (hw : w ≤ 128)
    (m : Mem) (buf size s n : Nat)
    (hal : buf % 16 = 0) (hsize : size = 16 * (n + 1)) (hlo : m.addr ≤ buf)
    (hhi : buf + size ≤ m.addr + m.bytes.length) (hs : s < 2 ^ w)
    (hb : ∀ b ∈ m.bytes, b < 256) :
    ∃ V, crc_simd_body m buf size vf s = .ok (V, _mm_srli_si128 V 8) ∧
      F V = ((m.bytes.drop (buf - m.addr)).take size).foldl (crc_byte t) s := by
  obtain ⟨V, hV, hVeq⟩ := crc_simd_body_ok m buf size vf s n hal hsize hlo hhi
  refine ⟨V, hV, ?_⟩
  have hxs : ∀ b ∈ m.bytes.drop (buf - m.addr), b < 256 :=
    fun b h => hb b (List.mem_of_mem_drop h)
  have hxlen : 16 * (n + 1) ≤ (m.bytes.drop (buf - m.addr)).length := by
    rw [List.length_drop]; omega
  have hl0 : le_value ((m.bytes.drop (buf - m.addr)).take 16) < 2 ^ 128 := by
    have h1 := le_value_lt ((m.bytes.drop (buf - m.addr)).take 16)
      (fun b h => hxs b (List.mem_of_mem_take h))
    have h16 : ((m.bytes.drop (buf - m.addr)).take 16).length = 16 := by
      rw [List.length_take]; omega
    rw [h16] at h1
    exact h1
  have hls := lanes_lt n ((m.bytes.drop (buf - m.addr)).drop 16)
    (by rw [List.length_drop]; omega) (fun b h => hxs b (List.mem_of_mem_drop h))
  have hv0 : s ^^^ le_value ((m.bytes.drop (buf - m.addr)).take 16) < 2 ^ 128 :=
    Nat.xor_lt_two_pow (lt_of_lt_of_le hs (Nat.pow_le_pow_right (by decide) hw)) hl0
  rw [hVeq, reduce_foldl vf hfold _ _ hv0 hls, hlane s _ hs hl0, hsize,
    foldl_lanes t (n + 1) _ s hxlen hxs]
  rfl

theorem crc32_clmul_ok (m : Mem) (buf size s n : Nat)
    (hal : buf % 16 = 0) (hsize : size = 16 * (n + 1)) (hlo : m.addr ≤ buf)
    (hhi : buf + size ≤ m.addr + m.bytes.length) (hs : s < 2 ^ 32)
    (hb : ∀ b ∈ m.bytes, b < 256) :
    crc32_clmul m buf size s
      = .ok (((m.bytes.drop (buf - m.addr)).take size).foldl
          (crc_byte (lzma_crc32_table 0)) s) := by
  have hinit : _mm_cvtsi32_si128 (to_int32 s) = s := by
    unfold _mm_cvtsi32_si128
    rw [to_uint32_to_int32, Nat.mod_eq_of_lt hs]
  rw [crc32_clmul_eq, hinit]
  obtain ⟨V, hV, hF⟩ := kernel_of_reduce (F := crc32_of_v0) crc32_vfold16 32
    crc32_of_v0_lane crc32_of_v0_fold (by decide) m buf size s n hal hsize hlo hhi hs hb
  rw [hV]
  exact congrArg Except.ok hF

theorem crc64_clmul_ok (m : Mem) (buf size s n : Nat)
    (hal : buf % 16 = 0) (hsize : size = 16 * (n + 1)) (hlo : m.addr ≤ buf)
    (hhi : buf + size ≤ m.addr + m.bytes.length) (hs : s < 2 ^ 64)
    (hb : ∀ b ∈ m.bytes, b < 256) :
    crc64_clmul m buf size s
      = .ok (((m.bytes.drop (buf - m.addr)).take size).foldl
          (crc_byte (lzma_crc64_table 0)) s) := by
  have hinit : _mm_cvtsi64_si128 (to_int64 s) = s := by
    unfold _mm_cvtsi64_si128
    rw [to_uint64_to_int64, Nat.mod_eq_of_lt hs]
  rw [crc64_clmul_eq, hinit]
  obtain ⟨V, hV, hF⟩ := kernel_of_reduce (F := crc64_of_v0) crc64_vfold16 64
    crc64_of_v0_lane crc64_of_v0_fold (by decide) m buf size s n hal hsize hlo hhi hs hb
  rw [hV]
  exact congrArg Except.ok hF

/-! ## The chunk loops of the generic functions -/

/-- Two jointly linear maps of two arguments that agree on the unit vectors agree. -/
theorem lin2_ext {f g : Nat → Nat → Nat}
    (hf : ∀ a b c d, f (a ^^^ b) (c ^^^ d) = f a c ^^^ f b d)
    (hg : ∀ a b c d, g (a ^^^ b) (c ^^^ d) = g a c ^^^ g b d) (n k : Nat)
    (h1 : ∀ i < n, f (2 ^ i) 0 = g (2 ^ i) 0) (h2 : ∀ i < k, f 0 (2 ^ i) = g 0 (2 ^ i))
    (s l : Nat) (hs : s < 2 ^ n) (hl : l < 2 ^ k) : f s l = g s l := by
  have f1 : IsLin (fun s => f s 0) := ⟨fun a b => by simpa using hf a b 0 0⟩
  have g1 : IsLin (fun s => g s 0) := ⟨fun a b => by simpa using hg a b 0 0⟩
  have f2 : IsLin (fun l => f 0 l) := ⟨fun a b => by simpa using hf 0 0 a b⟩
  have g2 : IsLin (fun l => g 0 l) := ⟨fun a b => by simpa using hg 0 0 a b⟩
  have e1 : f s l = f s 0 ^^^ f 0 l := by simpa using hf s 0 0 l
  have e2 : g s l = g s 0 ^^^ g 0 l := by simpa using hg s 0 0 l
  rw [e1, e2, IsLin.ext f1 g1 n h1 s hs, IsLin.ext f2 g2 k h2 l hl]

theorem lin_and_mask {f : Nat → Nat} (hf : IsLin f) (c : Nat) :
    IsLin (fun v => f v &&& c) := ⟨fun a b => by
  show f (a ^^^ b) &&& c = _
  rw [hf.map_xor, Nat.and_xor_distrib_right]⟩

theorem crc32_slice8_lane_xor (s1 s2 l1 l2 : Nat) :
    crc32_slice8_lane (s1 ^^^ s2) (l1 ^^^ l2)
      = crc32_slice8_lane s1 l1 ^^^ crc32_slice8_lane s2 l2 := by
  have t := lzma_crc32_table_lin
  have hP : IsLin (fun x => lzma_crc32_table 7 (x &&& 0xFF)
      ^^^ lzma_crc32_table 6 ((x >>> 8) &&& 0xFF)
      ^^^ lzma_crc32_table 5 ((x >>> 16) &&& 0xFF) ^^^ lzma_crc32_table 4 (x >>> 24)) :=
    IsLin.xor (IsLin.xor (IsLin.xor
      (IsLin.comp (t 7) (lin_and_mask IsLin.id _))
      (IsLin.comp (t 6) (lin_and_mask (IsLin.shiftRight 8) _)))
      (IsLin.comp (t 5) (lin_and_mask (IsLin.shiftRight 16) _)))
      (IsLin.comp (t 4) (IsLin.shiftRight 24))
  have hQ : IsLin (fun y => lzma_crc32_table 3 (y &&& 0xFF)
      ^^^ lzma_crc32_table 2 ((y >>> 8) &&& 0xFF)
      ^^^ lzma_crc32_table 1 ((y >>> 16) &&& 0xFF) ^^^ lzma_crc32_table 0 (y >>> 24)) :=
    IsLin.xor (IsLin.xor (IsLin.xor
      (IsLin.comp (t 3) (lin_and_mask IsLin.id _))
      (IsLin.comp (t 2) (lin_and_mask (IsLin.shiftRight 8) _)))
      (IsLin.comp (t 1) (lin_and_mask (IsLin.shiftRight 16) _)))
      (IsLin.comp (t 0) (IsLin.shiftRight 24))
  have e : (s1 ^^^ s2) ^^^ ((l1 ^^^ l2) % 2 ^ 32)
      = (s1 ^^^ l1 % 2 ^ 32) ^^^ (s2 ^^^ l2 % 2 ^ 32) := by
    rw [xor_mod_pow, xor_four]
  have hp := hP.map_xor (s1 ^^^ l1 % 2 ^ 32) (s2 ^^^ l2 % 2 ^ 32)
  have hq := hQ.map_xor (l1 >>> 32) (l2 >>> 32)
  simp only [crc32_slice8_lane, e, shiftRight_xor] at hp hq ⊢
  rw [hp, hq, xor_four]

theorem crc64_slice4_lane_xor (s1 s2 l1 l2 : Nat) :
    crc64_slice4_lane (s1 ^^^ s2) (l1 ^^^ l2)
      = crc64_slice4_lane s1 l1 ^^^ crc64_slice4_lane s2 l2 := by
  have t := lzma_crc64_table_lin
  have hP : IsLin (fun x => lzma_crc64_table 3 (x &&& 0xFF)
      ^^^ lzma_crc64_table 2 ((x >>> 8) &&& 0xFF)
      ^^^ lzma_crc64_table 1 ((x >>> 16) &&& 0xFF) ^^^ lzma_crc64_table 0 (x >>> 24)) :=
    IsLin.xor (IsLin.xor (IsLin.xor
      (IsLin.comp (t 3) (lin_and_mask IsLin.id _))
      (IsLin.comp (t 2) (lin_and_mask (IsLin.shiftRight 8) _)))
      (IsLin.comp (t 1) (lin_and_mask (IsLin.shiftRight 16) _)))
      (IsLin.comp (t 0) (IsLin.shiftRight 24))
  have e : ((s1 ^^^ s2) % 2 ^ 32) ^^^ (l1 ^^^ l2)
      = (s1 % 2 ^ 32 ^^^ l1) ^^^ (s2 % 2 ^ 32 ^^^ l2) := by
    rw [xor_mod_pow, xor_four]
  have hp := hP.map_xor (s1 % 2 ^ 32 ^^^ l1) (s2 % 2 ^ 32 ^^^ l2)
  simp only [crc64_slice4_lane, e, shiftRight_xor] at hp ⊢
  rw [hp, xor_four]

set_option maxRecDepth 100000 in
theorem crc32_slice8_basis_state :
    ∀ i < 32, crc32_slice8_lane (2 ^ i) 0 = crc_lane (lzma_crc32_table 0) 8 (2 ^ i) 0 := by
  decide

set_option maxRecDepth 100000 in
theorem crc32_slice8_basis_lane :
    ∀ i < 64, crc32_slice8_lane 0 (2 ^ i) = crc_lane (lzma_crc32_table 0) 8 0 (2 ^ i) := by
  decide

set_option maxRecDepth 100000 in
theorem crc64_slice4_basis_state :
    ∀ i < 64, crc64_slice4_lane (2 ^ i) 0 = crc_lane (lzma_crc64_table 0) 4 (2 ^ i) 0 := by
  decide

set_option maxRecDepth 100000 in
theorem crc64_slice4_basis_lane :
    ∀ i < 32, crc64_slice4_lane 0 (2 ^ i) = crc_lane (lzma_crc64_table 0) 4 0 (2 ^ i) := by
  decide

theorem crc32_slice8_lane_eq (s l : Nat) (hs : s < 2 ^ 32) (hl : l < 2 ^ 64) :
    crc32_slice8_lane s l = crc_lane (lzma_crc32_table 0) 8 s l :=
  lin2_ext crc32_slice8_lane_xor
    (fun a b c d => crc_lane_xor (lzma_crc32_table_lin 0) 8 a b c d) 32 64
    crc32_slice8_basis_state crc32_slice8_basis_lane s l hs hl

theorem crc64_slice4_lane_eq (s l : Nat) (hs : s < 2 ^ 64) (hl : l < 2 ^ 32) :
    crc64_slice4_lane s l = crc_lane (lzma_crc64_table 0) 4 s l :=
  lin2_ext crc64_slice4_lane_xor
    (fun a b c d => crc_lane_xor (lzma_crc64_table_lin 0) 4 a b c d) 64 32
    crc64_slice4_basis_state crc64_slice4_basis_lane s l hs hl

theorem crc32_slice8_eq (crc b0 b1 b2 b3 b4 b5 b6 b7 : Nat) (hcrc : crc < 2 ^ 32)
    (h0 : b0 < 256) (h1 : b1 < 256) (h2 : b2 < 256) (h3 : b3 < 256)
    (h4 : b4 < 256) (h5 : b5 < 256) (h6 : b6 < 256) (h7 : b7 < 256) :
    crc32_slice8 crc [b0, b1, b2, b3, b4, b5, b6, b7]
      = [b0, b1, b2, b3, b4, b5, b6, b7].foldl (crc_byte (lzma_crc32_table 0)) crc := by
  have hb : ∀ b ∈ [b0, b1, b2, b3, b4, b5, b6, b7], b < 256 := by
    intro b hb
    simp only [List.mem_cons, List.mem_singleton, List.not_mem_nil, or_false] at hb
    rcases hb with h | h | h | h | h | h | h | h <;> omega
  have hl := le_value_lt _ hb
  have e1 : le_value ([b0, b1, b2, b3, b4, b5, b6, b7].take 4)
      = le_value [b0, b1, b2, b3, b4, b5, b6, b7] % 2 ^ 32 := by
    simp only [List.take, le_value]
    omega
  have e2 : le_value ([b0, b1, b2, b3, b4, b5, b6, b7].drop 4)
      = le_value [b0, b1, b2, b3, b4, b5, b6, b7] >>> 32 := by
    simp only [List.drop, le_value, Nat.shiftRight_eq_div_pow]
    omega
  have h := crc32_slice8_lane_eq crc (le_value [b0, b1, b2, b3, b4, b5, b6, b7]) hcrc hl
  rw [← crc_lane_le_value _ _ _ hb]
  unfold crc32_slice8
  rw [e1, e2]
  exact h

theorem crc64_slice4_eq (crc b0 b1 b2 b3 : Nat) (hcrc : crc < 2 ^ 64)
    (h0 : b0 < 256) (h1 : b1 < 256) (h2 : b2 < 256) (h3 : b3 < 256) :
    crc64_slice4 crc [b0, b1, b2, b3]
      = [b0, b1, b2, b3].foldl (crc_byte (lzma_crc64_table 0)) crc := by
  have hb : ∀ b ∈ [b0, b1, b2, b3], b < 256 := by
    intro b hb
    simp only [List.mem_cons, List.mem_singleton, List.not_mem_nil, or_false] at hb
    rcases hb with h | h | h | h <;> omega
  have hl := le_value_lt _ hb
  have h := crc64_slice4_lane_eq crc (le_value [b0, b1, b2, b3]) hcrc hl
  rw [← crc_lane_le_value _ _ _ hb]
  exact h

/-! ## Bounds of the generic byte loop -/

theorem crc_bit_lt (poly w s : Nat) (hp : poly < 2 ^ w) (hs : s < 2 ^ w) :
    crc_bit poly s < 2 ^ w := by
  unfold crc_bit
  apply Nat.xor_lt_two_pow
  · rw [Nat.shiftRight_eq_div_pow]
    exact lt_of_le_of_lt (Nat.div_le_self _ _) hs
  · split
    · exact hp
    · positivity

theorem crc_bit_iterate_lt (poly w n s : Nat) (hp : poly < 2 ^ w) (hs : s < 2 ^ w) :
    (crc_bit poly)^[n] s < 2 ^ w := by
  induction n generalizing s with
  | zero => exact hs
  | succ n ih =>
    rw [Function.iterate_succ_apply]
    exact ih _ (crc_bit_lt poly w s hp hs)

theorem lzma_crc32_table_lt (k i : Nat) (hi : i < 2 ^ 32) : lzma_crc32_table k i < 2 ^ 32 :=
  crc_bit_iterate_lt _ 32 _ i (by decide) hi

theorem lzma_crc64_table_lt (k i : Nat) (hi : i < 2 ^ 64) : lzma_crc64_table k i < 2 ^ 64 :=
  crc_bit_iterate_lt _ 64 _ i (by decide) hi

theorem crc_byte_lt (t : Nat → Nat) (w s b : Nat) (ht : ∀ i, i < 2 ^ w → t i < 2 ^ w)
    (hw : 8 ≤ w) (hs : s < 2 ^ w) : crc_byte t s b < 2 ^ w := by
  unfold crc_byte
  apply Nat.xor_lt_two_pow
  · apply ht
    have h1 : (b ^^^ s) &&& 0xFF ≤ 0xFF := Nat.and_le_right
    have h2 : 2 ^ 8 ≤ 2 ^ w := Nat.pow_le_pow_right (by decide) hw
    omega
  · rw [Nat.shiftRight_eq_div_pow]
    exact lt_of_le_of_lt (Nat.div_le_self _ _) hs

theorem crc_foldl_lt (t : Nat → Nat) (w : Nat) (ht : ∀ i, i < 2 ^ w → t i < 2 ^ w)
    (hw : 8 ≤ w) (bs : List Nat) (s : Nat) (hs : s < 2 ^ w) :
    bs.foldl (crc_byte t) s < 2 ^ w := by
  induction bs generalizing s with
  | nil => exact hs
  | cons b bs ih => exact ih _ (crc_byte_lt t w s b ht hw hs)

theorem not32_not32 (x : Nat) : not32 (not32 x) = x := by
  unfold not32
  rw [Nat.xor_assoc, Nat.xor_self, Nat.xor_zero]

theorem not64_not64 (x : Nat) : not64 (not64 x) = x := by
  unfold not64
  rw [Nat.xor_assoc, Nat.xor_self, Nat.xor_zero]

theorem not32_lt (x : Nat) (h : x < 2 ^ 32) : not32 x < 2 ^ 32 :=
  Nat.xor_lt_two_pow h (by decide)

theorem not64_lt (x : Nat) (h : x < 2 ^ 64) : not64 x < 2 ^ 64 :=
  Nat.xor_lt_two_pow h (by decide)

/-! ## The generic functions are the byte loop between two complements -/

theorem crc32_generic_loop_eq (n : Nat) :
    ∀ (bs : List Nat) (crc : Nat), bs.length ≤ n → (∀ b ∈ bs, b < 256) → crc < 2 ^ 32 →
      crc32_generic_loop bs crc = bs.foldl (crc_byte (lzma_crc32_table 0)) crc := by
  induction n using Nat.strong_induction_on with
  | _ n ih =>
    intro bs crc hn hb hcrc
    rcases bs with _ | ⟨b0, _ | ⟨b1, _ | ⟨b2, _ | ⟨b3, _ | ⟨b4, _ | ⟨b5, _ | ⟨b6, _ | ⟨b7, rest⟩⟩⟩⟩⟩⟩⟩⟩
    all_goals try rfl
    have h8 : ∀ b ∈ [b0, b1, b2, b3, b4, b5, b6, b7], b < 256 := fun b h =>
      hb b (List.mem_append_left rest h)
    have hr : ∀ b ∈ rest, b < 256 := fun b h =>
      hb b (List.mem_append_right [b0, b1, b2, b3, b4, b5, b6, b7] h)
    have hs := crc32_slice8_eq crc b0 b1 b2 b3 b4 b5 b6 b7 hcrc
      (h8 b0 (by simp)) (h8 b1 (by simp)) (h8 b2 (by simp)) (h8 b3 (by simp))
      (h8 b4 (by simp)) (h8 b5 (by simp)) (h8 b6 (by simp)) (h8 b7 (by simp))
    have hlt : crc32_slice8 crc [b0, b1, b2, b3, b4, b5, b6, b7] < 2 ^ 32 := by
      rw [hs]
      exact crc_foldl_lt _ 32 (lzma_crc32_table_lt 0) (by decide) _ _ hcrc
    have hlen : rest.length < n := by
      simp only [List.length_cons] at hn
      omega
    have e : b0 :: b1 :: b2 :: b3 :: b4 :: b5 :: b6 :: b7 :: rest
        = [b0, b1, b2, b3, b4, b5, b6, b7] ++ rest := rfl
    rw [crc32_generic_loop, ih rest.length hlen rest _ (le_refl _) hr hlt, hs, e,
      List.foldl_append]

theorem crc64_generic_loop_eq (n : Nat) :
    ∀ (bs : List Nat) (crc : Nat), bs.length ≤ n → (∀ b ∈ bs, b < 256) → crc < 2 ^ 64 →
      crc64_generic_loop bs crc = bs.foldl (crc_byte (lzma_crc64_table 0)) crc := by
  induction n using Nat.strong_induction_on with
  | _ n ih =>
    intro bs crc hn hb hcrc
    rcases bs with _ | ⟨b0, _ | ⟨b1, _ | ⟨b2, _ | ⟨b3, rest⟩⟩⟩⟩
    all_goals try rfl
    have h4 : ∀ b ∈ [b0, b1, b2, b3], b < 256 := fun b h =>
      hb b (List.mem_append_left rest h)
    have hr : ∀ b ∈ rest, b < 256 := fun b h =>
      hb b (List.mem_append_right [b0, b1, b2, b3] h)
    have hs := crc64_slice4_eq crc b0 b1 b2 b3 hcrc
      (h4 b0 (by simp)) (h4 b1 (by simp)) (h4 b2 (by simp)) (h4 b3 (by simp))
    have hlt : crc64_slice4 crc [b0, b1, b2, b3] < 2 ^ 64 := by
      rw [hs]
      exact crc_foldl_lt _ 64 (lzma_crc64_table_lt 0) (by decide) _ _ hcrc
    have hlen : rest.length < n := by
      simp only [List.length_cons] at hn
      omega
    have e : b0 :: b1 :: b2 :: b3 :: rest = [b0, b1, b2, b3] ++ rest := rfl
    rw [crc64_generic_loop, ih rest.length hlen rest _ (le_refl _) hr hlt, hs, e,
      List.foldl_append]

theorem crc32_generic_eq (bs : List Nat) (crc : Nat) (hb : ∀ b ∈ bs, b < 256)
    (hcrc : crc < 2 ^ 32) :
    crc32_generic bs crc
      = not32 (bs.foldl (crc_byte (lzma_crc32_table 0)) (not32 crc)) := by
  show not32 (crc32_generic_loop bs (not32 crc)) = _
  rw [crc32_generic_loop_eq bs.length bs _ (le_refl _) hb (not32_lt _ hcrc)]

theorem crc64_generic_eq (bs : List Nat) (crc : Nat) (hb : ∀ b ∈ bs, b < 256)
    (hcrc : crc < 2 ^ 64) :
    crc64_generic bs crc
      = not64 (bs.foldl (crc_byte (lzma_crc64_table 0)) (not64 crc)) := by
  show not64 (crc64_generic_loop bs (not64 crc)) = _
  rw [crc64_generic_loop_eq bs.length bs _ (le_refl _) hb (not64_lt _ hcrc)]

theorem crc32_generic_nil (crc : Nat) : crc32_generic [] crc = crc := not32_not32 crc

theorem crc64_generic_nil (crc : Nat) : crc64_generic [] crc = crc := not64_not64 crc

theorem crc32_generic_lt (bs : List Nat) (crc : Nat) (hb : ∀ b ∈ bs, b < 256)
    (h : crc < 2 ^ 32) : crc32_generic bs crc < 2 ^ 32 := by
  rw [crc32_generic_eq bs crc hb h]
  exact not32_lt _ (crc_foldl_lt _ 32 (lzma_crc32_table_lt 0) (by decide) bs _ (not32_lt _ h))

theorem crc64_generic_lt (bs : List Nat) (crc : Nat) (hb : ∀ b ∈ bs, b < 256)
    (h : crc < 2 ^ 64) : crc64_generic bs crc < 2 ^ 64 := by
  rw [crc64_generic_eq bs crc hb h]
  exact not64_lt _ (crc_foldl_lt _ 64 (lzma_crc64_table_lt 0) (by decide) bs _ (not64_lt _ h))

theorem crc32_generic_append (xs ys : List Nat) (crc : Nat)
    (hb : ∀ b ∈ xs ++ ys, b < 256) (hcrc : crc < 2 ^ 32) :
    crc32_generic (xs ++ ys) crc = crc32_generic ys (crc32_generic xs crc) := by
  have hx : ∀ b ∈ xs, b < 256 := fun b h => hb b (List.mem_append_left _ h)
  have hy : ∀ b ∈ ys, b < 256 := fun b h => hb b (List.mem_append_right _ h)
  rw [crc32_generic_eq _ _ hb hcrc, crc32_generic_eq ys _ hy (crc32_generic_lt xs crc hx hcrc),
    crc32_generic_eq xs crc hx hcrc, not32_not32, List.foldl_append]

theorem crc64_generic_append (xs ys : List Nat) (crc : Nat)
    (hb : ∀ b ∈ xs ++ ys, b < 256) (hcrc : crc < 2 ^ 64) :
    crc64_generic (xs ++ ys) crc = crc64_generic ys (crc64_generic xs crc) := by
  have hx : ∀ b ∈ xs, b < 256 := fun b h => hb b (List.mem_append_left _ h)
  have hy : ∀ b ∈ ys, b < 256 := fun b h => hb b (List.mem_append_right _ h)
  rw [crc64_generic_eq _ _ hb hcrc, crc64_generic_eq ys _ hy (crc64_generic_lt xs crc hx hcrc),
    crc64_generic_eq xs crc hx hcrc, not64_not64, List.foldl_append]

/-! ## The dispatchers compute the generic function -/

theorem split3 (bs : List Nat) (a b : Nat) :
    bs = bs.take a ++ ((bs.drop a).take b ++ bs.drop (a + b)) := by
  have h : bs.drop (a + b) = (bs.drop a).drop b := by
    rw [List.drop_drop, Nat.add_comm]
  rw [h, List.take_append_drop, List.take_append_drop]

theorem ge32_regions (addr size : Nat) (h32 : 32 ≤ size) :
    (addr + head_len addr) % 16 = 0 ∧ head_len addr ≤ 15 ∧
      bulk_len addr size = 16 * ((size - head_len addr) / 16 - 1 + 1) ∧
      16 ≤ bulk_len addr size ∧ bulk_len addr size % 16 = 0 ∧
      head_len addr + bulk_len addr size ≤ size ∧
      size - (head_len addr + bulk_len addr size) ≤ 15 := by
  unfold bulk_len head_len
  omega

theorem crc32_arch_optimized_correct (m : Mem) (crc : Nat) (hcrc : crc < 2 ^ 32)
    (hb : ∀ b ∈ m.bytes, b < 256) (hlen : m.bytes.length < 2 ^ 64) :
    crc32_arch_optimized m crc = .ok (crc32_generic m.bytes crc) := by
  by_cases h32 : 32 ≤ m.bytes.length
  · obtain ⟨r1, r2, r3, r4, r5, r6, r7⟩ := ge32_regions m.addr m.bytes.length h32
    have hh : head_crc crc32_generic m crc
        = crc32_generic (m.bytes.take (head_len m.addr)) crc := by
      unfold head_crc
      split
      · rfl
      · have h0 : head_len m.addr = 0 := by omega
        rw [h0, List.take_zero, crc32_generic_nil]
    have hhead : ∀ b ∈ m.bytes.take (head_len m.addr), b < 256 :=
      fun b h => hb b (List.mem_of_mem_take h)
    have htail : ∀ b ∈ m.bytes.drop (head_len m.addr + bulk_len m.addr m.bytes.length),
        b < 256 := fun b h => hb b (List.mem_of_mem_drop h)
    have hc1 := crc32_generic_lt _ crc hhead hcrc
    rw [crc32_arch_optimized_eq_with,
      arch_optimized_with_large _ _ _ m crc h32 hlen, hh,
      crc32_clmul_ok m _ _ _ _ r1 r3 (by omega) (by omega) (not32_lt _ hc1) hb]
    show Except.ok _ = _
    congr 1
    beta_reduce
    have e : m.addr + head_len m.addr - m.addr = head_len m.addr := by omega
    have hc2 : not32 (List.foldl (crc_byte (lzma_crc32_table 0))
        (not32 (crc32_generic (List.take (head_len m.addr) m.bytes) crc))
        (List.take (bulk_len m.addr m.bytes.length)
          (List.drop (head_len m.addr) m.bytes))) < 2 ^ 32 :=
      not32_lt _ (crc_foldl_lt _ 32 (lzma_crc32_table_lt 0) (by decide) _ _
        (not32_lt _ hc1))
    rw [e, crc32_generic_eq _ _ htail hc2, crc32_generic_eq _ crc hhead hcrc,
      crc32_generic_eq m.bytes crc hb hcrc]
    conv_rhs => rw [split3 m.bytes (head_len m.addr) (bulk_len m.addr m.bytes.length)]
    simp only [not32_not32, List.foldl_append]
  · have hsz : ¬ m.bytes.length ≥ 32 := h32
    unfold crc32_arch_optimized
    simp only [hsz, if_false]
    rw [read_ok m m.addr _ (le_refl _) (le_refl _)]
    simp only [ok_bind, Nat.sub_self, List.drop_zero, List.take_length]
    rfl

theorem crc64_arch_optimized_correct (m : Mem) (crc : Nat) (hcrc : crc < 2 ^ 64)
    (hb : ∀ b ∈ m.bytes, b < 256) (hlen : m.bytes.length < 2 ^ 64) :
    crc64_arch_optimized m crc = .ok (crc64_generic m.bytes crc) := by
  by_cases h32 : 32 ≤ m.bytes.length
  · obtain ⟨r1, r2, r3, r4, r5, r6, r7⟩ := ge32_regions m.addr m.bytes.length h32
    have hh : head_crc crc64_generic m crc
        = crc64_generic (m.bytes.take (head_len m.addr)) crc := by
      unfold head_crc
      split
      · rfl
      · have h0 : head_len m.addr = 0 := by omega
        rw [h0, List.take_zero, crc64_generic_nil]
    have hhead : ∀ b ∈ m.bytes.take (head_len m.addr), b < 256 :=
      fun b h => hb b (List.mem_of_mem_take h)
    have htail : ∀ b ∈ m.bytes.drop (head_len m.addr + bulk_len m.addr m.bytes.length),
        b < 256 := fun b h => hb b (List.mem_of_mem_drop h)
    have hc1 := crc64_generic_lt _ crc hhead hcrc
    rw [crc64_arch_optimized_eq_with,
      arch_optimized_with_large _ _ _ m crc h32 hlen, hh,
      crc64_clmul_ok m _ _ _ _ r1 r3 (by omega) (by omega) (not64_lt _ hc1) hb]
    show Except.ok _ = _
    congr 1
    beta_reduce
    have e : m.addr + head_len m.addr - m.addr = head_len m.addr := by omega
    have hc2 : not64 (List.foldl (crc_byte (lzma_crc64_table 0))
        (not64 (crc64_generic (List.take (head_len m.addr) m.bytes) crc))
        (List.take (bulk_len m.addr m.bytes.length)
          (List.drop (head_len m.addr) m.bytes))) < 2 ^ 64 :=
      not64_lt _ (crc_foldl_lt _ 64 (lzma_crc64_table_lt 0) (by decide) _ _
        (not64_lt _ hc1))
    rw [e, crc64_generic_eq _ _ htail hc2, crc64_generic_eq _ crc hhead hcrc,
      crc64_generic_eq m.bytes crc hb hcrc]
    conv_rhs => rw [split3 m.bytes (head_len m.addr) (bulk_len m.addr m.bytes.length)]
    simp only [not64_not64, List.foldl_append]
  · have hsz : ¬ m.bytes.length ≥ 32 := h32
    unfold crc64_arch_optimized
    simp only [hsz, if_false]
    rw [read_ok m m.addr _ (le_refl _) (le_refl _)]
    simp only [ok_bind, Nat.sub_self, List.drop_zero, List.take_length]
    rfl

/-! ## Small buffers -/

theorem arch_optimized_with_small (G : List Nat → Nat → Nat)
    (K : Mem → Nat → Nat → Nat → Except Fault Nat) (compl : Nat → Nat) (m : Mem) (crc : Nat)
    (h : m.bytes.length < 32) :
    arch_optimized_with G K compl m crc = .ok (G m.bytes crc) := by
  have hsz : ¬ m.bytes.length ≥ 32 := by omega
  unfold arch_optimized_with
  simp only [hsz, if_false]
  rw [read_ok m m.addr _ (le_refl _) (le_refl _)]
  simp only [ok_bind, Nat.sub_self, List.drop_zero, List.take_length]
  rfl

/-! ## Concrete runs -/

set_option maxRecDepth 100000 in
theorem crc32_sample33_run : crc32_arch_optimized sample33 0xDEADBEEF = .ok 127140405 := by
  rfl

set_option maxRecDepth 100000 in
theorem crc64_sample33_run :
    crc64_arch_optimized sample33 0xDEADBEEF01234567 = .ok 5275667771677301826 := by
  rfl

set_option maxRecDepth 100000 in
theorem crc32_sample100_run :
    crc32_arch_optimized sample100 0x89ABCDEF = .ok 3758519774 ∧
      crc32_generic sample100.bytes 0x89ABCDEF = 3758519774 := by
  constructor <;> rfl

set_option maxRecDepth 100000 in
theorem crc64_sample100_run :
    crc64_arch_optimized sample100 0x0123456789ABCDEF = .ok 14487959683693910569 ∧
      crc64_generic sample100.bytes 0x0123456789ABCDEF = 14487959683693910569 := by
  constructor <;> rfl

set_option maxRecDepth 100000 in
theorem crc32_check_generic : crc32_generic check_input 0 = 0xCBF43926 := by
  decide

set_option maxRecDepth 100000 in
theorem crc64_check_generic : crc64_generic check_input 0 = 0x995DC9BBDF1939FA := by
  decide

/-! ## The claims -/

/-- Claim C1. For every buffer (any start address, any length, any bytes) and every
32-bit `crc`, `crc32_arch_optimized` runs without a fault and returns the value of
`crc32_generic` on the whole buffer. -/
theorem crc32_arch_optimized_eq_generic (m : Mem) (crc : Nat) (hcrc : crc < 2 ^ 32)
    (hbytes : ∀ b ∈ m.bytes, b < 256) (hsize : m.bytes.length < 2 ^ 64) :
    crc32_arch_optimized m crc = .ok (crc32_generic m.bytes crc) :=
  crc32_arch_optimized_correct m crc hcrc hbytes hsize

theorem crc32_arch_optimized_eq_generic_witness :
    (0xDEADBEEF < 2 ^ 32 ∧ (∀ b ∈ sample33.bytes, b < 256) ∧
        sample33.bytes.length < 2 ^ 64) ∧
      crc32_arch_optimized sample33 0xDEADBEEF
        = .ok (crc32_generic sample33.bytes 0xDEADBEEF) :=
  ⟨⟨by decide, by decide, by decide⟩,
    crc32_arch_optimized_eq_generic sample33 0xDEADBEEF (by decide) (by decide) (by decide)⟩

/-- Claim C2. For every buffer (any start address, any length, any bytes) and every
64-bit `crc`, `crc64_arch_optimized` runs without a fault and returns the value of
`crc64_generic` (CRC-64/XZ, reflected polynomial `0xC96C5795D7870F42`) on the whole
buffer. -/
theorem crc64_arch_optimized_eq_generic (m : Mem) (crc : Nat) (hcrc : crc < 2 ^ 64)
    (hbytes : ∀ b ∈ m.bytes, b < 256) (hsize : m.bytes.length < 2 ^ 64) :
    crc64_arch_optimized m crc = .ok (crc64_generic m.bytes crc) :=
  crc64_arch_optimized_correct m crc hcrc hbytes hsize

theorem crc64_arch_optimized_eq_generic_witness :
    (0xDEADBEEF01234567 < 2 ^ 64 ∧ (∀ b ∈ sample33.bytes, b < 256) ∧
        sample33.bytes.length < 2 ^ 64) ∧
      crc64_arch_optimized sample33 0xDEADBEEF01234567
        = .ok (crc64_generic sample33.bytes 0xDEADBEEF01234567) :=
  ⟨⟨by decide, by decide, by decide⟩,
    crc64_arch_optimized_eq_generic sample33 0xDEADBEEF01234567
      (by decide) (by decide) (by decide)⟩

/-- Claim C3. Chaining law: for every split `buf1 ++ buf2` of a byte sequence, with the
whole and the two parts placed at arbitrary addresses, running `crc32_arch_optimized` on
`buf1` and then on `buf2` with the first result as initial value gives the result of one
run on `buf1 ++ buf2`; likewise for `crc64_arch_optimized`. All runs are fault-free. -/
theorem arch_optimized_chaining (a a1 a2 : Nat) (buf1 buf2 : List Nat) (init32 init64 : Nat)
    (h32 : init32 < 2 ^ 32) (h64 : init64 < 2 ^ 64)
    (hbytes : ∀ b ∈ buf1 ++ buf2, b < 256) (hsize : (buf1 ++ buf2).length < 2 ^ 64) :
    (∃ c1 c, crc32_arch_optimized ⟨a1, buf1⟩ init32 = .ok c1 ∧
        crc32_arch_optimized ⟨a2, buf2⟩ c1 = .ok c ∧
        crc32_arch_optimized ⟨a, buf1 ++ buf2⟩ init32 = .ok c) ∧
    (∃ c1 c, crc64_arch_optimized ⟨a1, buf1⟩ init64 = .ok c1 ∧
        crc64_arch_optimized ⟨a2, buf2⟩ c1 = .ok c ∧
        crc64_arch_optimized ⟨a, buf1 ++ buf2⟩ init64 = .ok c) := by
  have hb1 : ∀ b ∈ buf1, b < 256 := fun b h => hbytes b (List.mem_append_left _ h)
  have hb2 : ∀ b ∈ buf2, b < 256 := fun b h => hbytes b (List.mem_append_right _ h)
  have hl : buf1.length + buf2.length < 2 ^ 64 := by
    rw [← List.length_append]; exact hsize
  have hl1 : buf1.length < 2 ^ 64 := by omega
  have hl2 : buf2.length < 2 ^ 64 := by omega
  constructor
  · refine ⟨crc32_generic buf1 init32, crc32_generic buf2 (crc32_generic buf1 init32),
      crc32_arch_optimized_correct ⟨a1, buf1⟩ init32 h32 hb1 hl1,
      crc32_arch_optimized_correct ⟨a2, buf2⟩ _ (crc32_generic_lt _ _ hb1 h32) hb2 hl2,
      ?_⟩
    rw [← crc32_generic_append buf1 buf2 _ hbytes h32]
    exact crc32_arch_optimized_correct ⟨a, buf1 ++ buf2⟩ init32 h32 hbytes hsize
  · refine ⟨crc64_generic buf1 init64, crc64_generic buf2 (crc64_generic buf1 init64),
      crc64_arch_optimized_correct ⟨a1, buf1⟩ init64 h64 hb1 hl1,
      crc64_arch_optimized_correct ⟨a2, buf2⟩ _ (crc64_generic_lt _ _ hb1 h64) hb2 hl2,
      ?_⟩
    rw [← crc64_generic_append buf1 buf2 _ hbytes h64]
    exact crc64_arch_optimized_correct ⟨a, buf1 ++ buf2⟩ init64 h64 hbytes hsize

theorem arch_optimized_chaining_witness :
    (0xDEADBEEF < 2 ^ 32 ∧ 0xDEADBEEF01234567 < 2 ^ 64 ∧
        (∀ b ∈ (sample33.bytes.take 20 ++ sample33.bytes) ++ sample33.bytes, b < 256) ∧
        ((sample33.bytes.take 20 ++ sample33.bytes) ++ sample33.bytes).length < 2 ^ 64) ∧
      ((∃ c1 c, crc32_arch_optimized ⟨5, sample33.bytes.take 20 ++ sample33.bytes⟩ 0xDEADBEEF
            = .ok c1 ∧
          crc32_arch_optimized ⟨58, sample33.bytes⟩ c1 = .ok c ∧
          crc32_arch_optimized
            ⟨7, (sample33.bytes.take 20 ++ sample33.bytes) ++ sample33.bytes⟩ 0xDEADBEEF
            = .ok c) ∧
        (∃ c1 c, crc64_arch_optimized ⟨5, sample33.bytes.take 20 ++ sample33.bytes⟩
            0xDEADBEEF01234567 = .ok c1 ∧
          crc64_arch_optimized ⟨58, sample33.bytes⟩ c1 = .ok c ∧
          crc64_arch_optimized
            ⟨7, (sample33.bytes.take 20 ++ sample33.bytes) ++ sample33.bytes⟩
            0xDEADBEEF01234567 = .ok c)) :=
  ⟨⟨by decide, by decide, by decide, by decide⟩,
    arch_optimized_chaining 7 5 58 (sample33.bytes.take 20 ++ sample33.bytes) sample33.bytes
      0xDEADBEEF 0xDEADBEEF01234567 (by decide) (by decide) (by decide) (by decide)⟩

/-- Claim C4. `crc32_arch_optimized` on the nine ASCII bytes "123456789" with initial
value 0 returns `0xCBF43926`, at every start address. -/
theorem crc32_arch_optimized_check (addr : Nat) :
    crc32_arch_optimized ⟨addr, check_input⟩ 0 = .ok 0xCBF43926 := by
  rw [crc32_arch_optimized_eq_with,
    arch_optimized_with_small _ _ _ ⟨addr, check_input⟩ 0
      (show check_input.length < 32 by decide)]
  exact congrArg Except.ok crc32_check_generic

/-- Claim C5. `crc64_arch_optimized` on the nine ASCII bytes "123456789" with initial
value 0 returns `0x995DC9BBDF1939FA`, at every start address. -/
theorem crc64_arch_optimized_check (addr : Nat) :
    crc64_arch_optimized ⟨addr, check_input⟩ 0 = .ok 0x995DC9BBDF1939FA := by
  rw [crc64_arch_optimized_eq_with,
    arch_optimized_with_small _ _ _ ⟨addr, check_input⟩ 0
      (show check_input.length < 32 by decide)]
  exact congrArg Except.ok crc64_check_generic

/-- Claim C6. Identity on empty input: at every address and for every initial value both
dispatchers return the initial value on a buffer of size 0. The result is that of the
generic function on the empty byte sequence whatever the kernel, the generic function and
the complement are: the CLMUL kernel is not called and no byte is read. -/
theorem arch_optimized_empty (addr init : Nat) :
    crc32_arch_optimized ⟨addr, []⟩ init = .ok init ∧
    crc64_arch_optimized ⟨addr, []⟩ init = .ok init ∧
    (∀ G K compl, arch_optimized_with G K compl ⟨addr, []⟩ init = .ok (G [] init)) := by
  have h : ∀ G K compl, arch_optimized_with G K compl ⟨addr, []⟩ init = .ok (G [] init) :=
    fun G K compl => arch_optimized_with_small G K compl ⟨addr, []⟩ init
      (show ([] : List Nat).length < 32 by decide)
  refine ⟨?_, ?_, h⟩
  · rw [crc32_arch_optimized_eq_with, h, crc32_generic_nil]
  · rw [crc64_arch_optimized_eq_with, h, crc64_generic_nil]

/-- Claim C7. Alignment invariance: the same bytes placed at two start addresses `a1`
and `a2` give the same fault-free result of `crc32_arch_optimized`, and likewise of
`crc64_arch_optimized`, although the head length `head_len` depends on the address. -/
theorem arch_optimized_alignment_invariant (a1 a2 : Nat) (bytes : List Nat)
    (init32 init64 : Nat) (h32 : init32 < 2 ^ 32) (h64 : init64 < 2 ^ 64)
    (hbytes : ∀ b ∈ bytes, b < 256) (hsize : bytes.length < 2 ^ 64) :
    (crc32_arch_optimized ⟨a1, bytes⟩ init32 = crc32_arch_optimized ⟨a2, bytes⟩ init32 ∧
      ∃ c, crc32_arch_optimized ⟨a1, bytes⟩ init32 = .ok c) ∧
    (crc64_arch_optimized ⟨a1, bytes⟩ init64 = crc64_arch_optimized ⟨a2, bytes⟩ init64 ∧
      ∃ c, crc64_arch_optimized ⟨a1, bytes⟩ init64 = .ok c) := by
  have e1 := crc32_arch_optimized_correct ⟨a1, bytes⟩ init32 h32 hbytes hsize
  have e2 := crc32_arch_optimized_correct ⟨a2, bytes⟩ init32 h32 hbytes hsize
  have e3 := crc64_arch_optimized_correct ⟨a1, bytes⟩ init64 h64 hbytes hsize
  have e4 := crc64_arch_optimized_correct ⟨a2, bytes⟩ init64 h64 hbytes hsize
  exact ⟨⟨e1.trans e2.symm, _, e1⟩, ⟨e3.trans e4.symm, _, e3⟩⟩

theorem arch_optimized_alignment_invariant_witness :
    (0xDEADBEEF < 2 ^ 32 ∧ 0xDEADBEEF01234567 < 2 ^ 64 ∧
        (∀ b ∈ sample33.bytes ++ sample33.bytes, b < 256) ∧
        (sample33.bytes ++ sample33.bytes).length < 2 ^ 64) ∧
      (head_len 0x1000 = 0 ∧ head_len 0x1009 = 7) ∧
      ((crc32_arch_optimized ⟨0x1000, sample33.bytes ++ sample33.bytes⟩ 0xDEADBEEF
          = crc32_arch_optimized ⟨0x1009, sample33.bytes ++ sample33.bytes⟩ 0xDEADBEEF ∧
        ∃ c, crc32_arch_optimized ⟨0x1000, sample33.bytes ++ sample33.bytes⟩ 0xDEADBEEF
          = .ok c) ∧
      (crc64_arch_optimized ⟨0x1000, sample33.bytes ++ sample33.bytes⟩ 0xDEADBEEF01234567
          = crc64_arch_optimized ⟨0x1009, sample33.bytes ++ sample33.bytes⟩
            0xDEADBEEF01234567 ∧
        ∃ c, crc64_arch_optimized ⟨0x1000, sample33.bytes ++ sample33.bytes⟩
          0xDEADBEEF01234567 = .ok c)) :=
  ⟨⟨by decide, by decide, by decide, by decide⟩, ⟨by decide, by decide⟩,
    arch_optimized_alignment_invariant 0x1000 0x1009 (sample33.bytes ++ sample33.bytes)
      0xDEADBEEF 0xDEADBEEF01234567 (by decide) (by decide) (by decide) (by decide)⟩

/-! ## The region given to the kernel -/

theorem crc_simd_body_size_zero (vfold16 init : Nat) :
    crc_simd_body ⟨0, []⟩ 0 0 vfold16 init = .error .out_of_bounds := rfl

theorem bulk_len_eq (addr size : Nat) (h32 : 32 ≤ size) (hsize : size < 2 ^ 64) :
    bulk_len addr size
      = sub64 size (sub64 0 (addr % 2 ^ 64) &&& 15) &&& not64 15 := by
  have ha : head_len addr < 16 := by unfold head_len; omega
  have hsub : sub64 size (head_len addr) = size - head_len addr := by
    unfold sub64; omega
  rw [align16_eq, hsub, and_not64_15 _ (by omega)]
  rfl

/-- Claim C8. For every start address and every `size >= 32` each dispatcher is one call
of its kernel on the region `(m.addr + align16, size16)` (for an arbitrary kernel `K` the
result is a function of `K` at that single point), with `align16` and `size16` the values
the source computes. The region starts at a multiple of 16, its length is a multiple of
16 and at least 16, and it lies inside the buffer; both assertions of `crc_simd_body`
hold, the first load succeeds and `crc_simd_body` runs on it without a fault. With
`size = 0` the assertions pass and the first load is out of bounds. -/
theorem clmul_call_region (m : Mem) (crc : Nat) (h32 : 32 ≤ m.bytes.length)
    (hsize : m.bytes.length < 2 ^ 64) :
    (head_len m.addr = sub64 0 (m.addr % 2 ^ 64) &&& 15 ∧
      bulk_len m.addr m.bytes.length
        = sub64 m.bytes.length (sub64 0 (m.addr % 2 ^ 64) &&& 15) &&& not64 15) ∧
    (∀ G K compl, arch_optimized_with G K compl m crc
      = (K m (m.addr + head_len m.addr) (bulk_len m.addr m.bytes.length)
            (compl (head_crc G m crc))).map
          (fun r => G (m.bytes.drop (head_len m.addr + bulk_len m.addr m.bytes.length))
            (compl r))) ∧
    crc32_arch_optimized m crc
      = (crc32_clmul m (m.addr + head_len m.addr) (bulk_len m.addr m.bytes.length)
            (not32 (head_crc crc32_generic m crc))).map
          (fun r => crc32_generic
            (m.bytes.drop (head_len m.addr + bulk_len m.addr m.bytes.length)) (not32 r)) ∧
    crc64_arch_optimized m crc
      = (crc64_clmul m (m.addr + head_len m.addr) (bulk_len m.addr m.bytes.length)
            (not64 (head_crc crc64_generic m crc))).map
          (fun r => crc64_generic
            (m.bytes.drop (head_len m.addr + bulk_len m.addr m.bytes.length)) (not64 r)) ∧
    ((m.addr + head_len m.addr) % 16 = 0 ∧
      bulk_len m.addr m.bytes.length % 16 = 0 ∧
      16 ≤ bulk_len m.addr m.bytes.length ∧
      m.addr ≤ m.addr + head_len m.addr ∧
      m.addr + head_len m.addr + bulk_len m.addr m.bytes.length
        ≤ m.addr + m.bytes.length) ∧
    (((m.addr + head_len m.addr) % 2 ^ 64) &&& 15 = 0 ∧
      bulk_len m.addr m.bytes.length &&& 15 = 0) ∧
    (∃ x, _mm_load_si128 m (m.addr + head_len m.addr) = .ok x) ∧
    (∀ vfold16 init, ∃ v, crc_simd_body m (m.addr + head_len m.addr)
      (bulk_len m.addr m.bytes.length) vfold16 init = .ok v) ∧
    (∀ vfold16 init, crc_simd_body ⟨0, []⟩ 0 0 vfold16 init = .error .out_of_bounds) := by
  obtain ⟨r1, r2, r3, r4, r5, r6, r7⟩ := ge32_regions m.addr m.bytes.length h32
  refine ⟨⟨(align16_eq m.addr).symm, bulk_len_eq m.addr m.bytes.length h32 hsize⟩,
    fun G K compl => arch_optimized_with_large G K compl m crc h32 hsize, ?_, ?_,
    ⟨r1, r5, r4, by omega, by omega⟩, ⟨?_, ?_⟩, ?_, ?_, crc_simd_body_size_zero⟩
  · rw [crc32_arch_optimized_eq_with]
    exact arch_optimized_with_large _ _ _ m crc h32 hsize
  · rw [crc64_arch_optimized_eq_with]
    exact arch_optimized_with_large _ _ _ m crc h32 hsize
  · rw [and_15]; omega
  · rw [and_15]; omega
  · exact ⟨_, load_ok m _ r1 (by omega) (by omega)⟩
  · intro vfold16 init
    obtain ⟨V, hV, -⟩ := crc_simd_body_ok m (m.addr + head_len m.addr)
      (bulk_len m.addr m.bytes.length) vfold16 init _ r1 r3 (by omega) (by omega)
    exact ⟨_, hV⟩

theorem clmul_call_region_witness :
    (32 ≤ sample33.bytes.length ∧ sample33.bytes.length < 2 ^ 64) ∧
    ((head_len sample33.addr = sub64 0 (sample33.addr % 2 ^ 64) &&& 15 ∧
      bulk_len sample33.addr sample33.bytes.length
        = sub64 sample33.bytes.length (sub64 0 (sample33.addr % 2 ^ 64) &&& 15)
          &&& not64 15) ∧
    (∀ G K compl, arch_optimized_with G K compl sample33 0xDEADBEEF
      = (K sample33 (sample33.addr + head_len sample33.addr)
            (bulk_len sample33.addr sample33.bytes.length)
            (compl (head_crc G sample33 0xDEADBEEF))).map
          (fun r => G (sample33.bytes.drop
            (head_len sample33.addr + bulk_len sample33.addr sample33.bytes.length))
            (compl r))) ∧
    crc32_arch_optimized sample33 0xDEADBEEF
      = (crc32_clmul sample33 (sample33.addr + head_len sample33.addr)
            (bulk_len sample33.addr sample33.bytes.length)
            (not32 (head_crc crc32_generic sample33 0xDEADBEEF))).map
          (fun r => crc32_generic (sample33.bytes.drop
            (head_len sample33.addr + bulk_len sample33.addr sample33.bytes.length))
            (not32 r)) ∧
    crc64_arch_optimized sample33 0xDEADBEEF
      = (crc64_clmul sample33 (sample33.addr + head_len sample33.addr)
            (bulk_len sample33.addr sample33.bytes.length)
            (not64 (head_crc crc64_generic sample33 0xDEADBEEF))).map
          (fun r => crc64_generic (sample33.bytes.drop
            (head_len sample33.addr + bulk_len sample33.addr sample33.bytes.length))
            (not64 r)) ∧
    ((sample33.addr + head_len sample33.addr) % 16 = 0 ∧
      bulk_len sample33.addr sample33.bytes.length % 16 = 0 ∧
      16 ≤ bulk_len sample33.addr sample33.bytes.length ∧
      sample33.addr ≤ sample33.addr + head_len sample33.addr ∧
      sample33.addr + head_len sample33.addr + bulk_len sample33.addr sample33.bytes.length
        ≤ sample33.addr + sample33.bytes.length) ∧
    (((sample33.addr + head_len sample33.addr) % 2 ^ 64) &&& 15 = 0 ∧
      bulk_len sample33.addr sample33.bytes.length &&& 15 = 0) ∧
    (∃ x, _mm_load_si128 sample33 (sample33.addr + head_len sample33.addr) = .ok x) ∧
    (∀ vfold16 init, ∃ v, crc_simd_body sample33 (sample33.addr + head_len sample33.addr)
      (bulk_len sample33.addr sample33.bytes.length) vfold16 init = .ok v) ∧
    (∀ vfold16 init, crc_simd_body ⟨0, []⟩ 0 0 vfold16 init = .error .out_of_bounds)) :=
  ⟨⟨by decide, by decide⟩, clmul_call_region sample33 0xDEADBEEF (by decide) (by decide)⟩

/-! ## CPU feature detection -/

theorem ecx_mask_bits (x : Nat) :
    x &&& 524802 = 524802
      ↔ x.testBit 1 = true ∧ x.testBit 9 = true ∧ x.testBit 19 = true := by
  have hm : ∀ i, (524802 : Nat).testBit i = (decide (i = 1) || decide (i = 9) || decide (i = 19)) := by
    intro i
    by_cases h : i < 32
    · have : ∀ j < 32, (524802 : Nat).testBit j
          = (decide (j = 1) || decide (j = 9) || decide (j = 19)) := by decide
      exact this i h
    · have hlt : (524802 : Nat) < 2 ^ i :=
        lt_of_lt_of_le (by decide : (524802 : Nat) < 2 ^ 32)
          (Nat.pow_le_pow_right (by decide) (by omega))
      rw [Nat.testBit_lt_two_pow hlt]
      have h1 : ¬ i = 1 := by omega
      have h9 : ¬ i = 9 := by omega
      have h19 : ¬ i = 19 := by omega
      simp [h1, h9, h19]
  constructor
  · intro h
    have hb : ∀ i, (x.testBit i && (524802 : Nat).testBit i) = (524802 : Nat).testBit i := by
      intro i
      rw [← Nat.testBit_and, h]
    have b1 := hb 1
    have b9 := hb 9
    have b19 := hb 19
    rw [hm] at b1 b9 b19
    simp at b1 b9 b19
    exact ⟨b1, b9, b19⟩
  · rintro ⟨b1, b9, b19⟩
    apply Nat.eq_of_testBit_eq
    intro i
    rw [Nat.testBit_and, hm]
    by_cases h1 : i = 1
    · subst h1; simp [b1]
    · by_cases h9 : i = 9
      · subst h9; simp [b9]
      · by_cases h19 : i = 19
        · subst h19; simp [b19]
        · simp [h1, h9, h19]

/-- Claim C9. With the CPUID leaf 1 query as input (`success`, `ecx`),
`is_arch_extension_supported` is true exactly when the query succeeded and bits 1, 9 and
19 of ECX are all set; it is false when the query failed, whatever ECX holds. -/
theorem is_arch_extension_supported_iff (success : Int) (ecx : Nat) :
    (is_arch_extension_supported success ecx = true
      ↔ success ≠ 0 ∧ ecx.testBit 1 = true ∧ ecx.testBit 9 = true ∧
          ecx.testBit 19 = true) ∧
    is_arch_extension_supported 0 ecx = false := by
  have hmask : (1 <<< 1 ||| 1 <<< 9 ||| 1 <<< 19 : Nat) = 524802 := by decide
  unfold is_arch_extension_supported
  simp only [hmask, Bool.and_eq_true, decide_eq_true_eq, ecx_mask_bits,
    Nat.testBit_mod_two_pow]
  constructor
  · simp
  · simp

/-- Claim C10. Minimum threshold: on every buffer of fewer than 32 bytes, at every start
address, each dispatcher returns what the generic function returns on the whole buffer
with the unmodified `crc`; this holds for an arbitrary kernel, generic function and
complement, so neither the kernel nor the complement is used. -/
theorem arch_optimized_below_threshold (m : Mem) (crc : Nat) (hsize : m.bytes.length < 32) :
    crc32_arch_optimized m crc = .ok (crc32_generic m.bytes crc) ∧
    crc64_arch_optimized m crc = .ok (crc64_generic m.bytes crc) ∧
    crc32_arch_optimized = arch_optimized_with crc32_generic crc32_clmul not32 ∧
    crc64_arch_optimized = arch_optimized_with crc64_generic crc64_clmul not64 ∧
    (∀ G K compl, arch_optimized_with G K compl m crc = .ok (G m.bytes crc)) := by
  refine ⟨?_, ?_, rfl, rfl, fun G K compl => arch_optimized_with_small G K compl m crc hsize⟩
  · rw [crc32_arch_optimized_eq_with]
    exact arch_optimized_with_small _ _ _ m crc hsize
  · rw [crc64_arch_optimized_eq_with]
    exact arch_optimized_with_small _ _ _ m crc hsize

theorem arch_optimized_below_threshold_witness :
    (⟨0x1003, sample33.bytes.take 31⟩ : Mem).bytes.length < 32 ∧
    (crc32_arch_optimized ⟨0x1003, sample33.bytes.take 31⟩ 0xDEADBEEF
        = .ok (crc32_generic (⟨0x1003, sample33.bytes.take 31⟩ : Mem).bytes 0xDEADBEEF) ∧
      crc64_arch_optimized ⟨0x1003, sample33.bytes.take 31⟩ 0xDEADBEEF
        = .ok (crc64_generic (⟨0x1003, sample33.bytes.take 31⟩ : Mem).bytes 0xDEADBEEF) ∧
      crc32_arch_optimized = arch_optimized_with crc32_generic crc32_clmul not32 ∧
      crc64_arch_optimized = arch_optimized_with crc64_generic crc64_clmul not64 ∧
      (∀ G K compl, arch_optimized_with G K compl ⟨0x1003, sample33.bytes.take 31⟩ 0xDEADBEEF
        = .ok (G (⟨0x1003, sample33.bytes.take 31⟩ : Mem).bytes 0xDEADBEEF))) :=
  ⟨by decide,
    arch_optimized_below_threshold ⟨0x1003, sample33.bytes.take 31⟩ 0xDEADBEEF (by decide)⟩

/-! ## The table step and the bit-at-a-time update -/

theorem bit_step_eq (poly : Nat) : bit_step poly = crc_bit poly := by
  funext s
  unfold bit_step crc_bit
  rw [Nat.and_one_is_mod]
  rcases Nat.mod_two_eq_zero_or_one s with h | h <;> simp [h]

theorem bitwise_byte_xor (poly s1 s2 b1 b2 : Nat) :
    (crc_bit poly)^[8] ((s1 ^^^ s2) ^^^ (b1 ^^^ b2))
      = (crc_bit poly)^[8] (s1 ^^^ b1) ^^^ (crc_bit poly)^[8] (s2 ^^^ b2) := by
  rw [xor_four s1 s2 b1 b2, ((crc_bit_lin poly).iterate 8).map_xor]

set_option maxRecDepth 100000 in
theorem crc32_byte_basis_state :
    ∀ i < 32, crc_byte (lzma_crc32_table 0) (2 ^ i) 0
      = (crc_bit 0xEDB88320)^[8] (2 ^ i ^^^ 0) := by
  decide

set_option maxRecDepth 100000 in
theorem crc32_byte_basis_data :
    ∀ i < 8, crc_byte (lzma_crc32_table 0) 0 (2 ^ i)
      = (crc_bit 0xEDB88320)^[8] (0 ^^^ 2 ^ i) := by
  decide

set_option maxRecDepth 100000 in
theorem crc64_byte_basis_state :
    ∀ i < 64, crc_byte (lzma_crc64_table 0) (2 ^ i) 0
      = (crc_bit 0xC96C5795D7870F42)^[8] (2 ^ i ^^^ 0) := by
  decide

set_option maxRecDepth 100000 in
theorem crc64_byte_basis_data :
    ∀ i < 8, crc_byte (lzma_crc64_table 0) 0 (2 ^ i)
      = (crc_bit 0xC96C5795D7870F42)^[8] (0 ^^^ 2 ^ i) := by
  decide

theorem crc32_byte_eq_bitwise (s b : Nat) (hs : s < 2 ^ 32) (hb : b < 256) :
    crc_byte (lzma_crc32_table 0) s b = (bit_step 0xEDB88320)^[8] (s ^^^ b) := by
  rw [bit_step_eq]
  exact lin2_ext (f := fun s b => crc_byte (lzma_crc32_table 0) s b)
    (g := fun s b => (crc_bit 0xEDB88320)^[8] (s ^^^ b))
    (fun a b c d => crc_byte_xor (lzma_crc32_table_lin 0) a b c d)
    (fun a b c d => bitwise_byte_xor _ a b c d) 32 8
    crc32_byte_basis_state crc32_byte_basis_data s b hs hb

theorem crc64_byte_eq_bitwise (s b : Nat) (hs : s < 2 ^ 64) (hb : b < 256) :
    crc_byte (lzma_crc64_table 0) s b = (bit_step 0xC96C5795D7870F42)^[8] (s ^^^ b) := by
  rw [bit_step_eq]
  exact lin2_ext (f := fun s b => crc_byte (lzma_crc64_table 0) s b)
    (g := fun s b => (crc_bit 0xC96C5795D7870F42)^[8] (s ^^^ b))
    (fun a b c d => crc_byte_xor (lzma_crc64_table_lin 0) a b c d)
    (fun a b c d => bitwise_byte_xor _ a b c d) 64 8
    crc64_byte_basis_state crc64_byte_basis_data s b hs hb

theorem crc32_foldl_eq_bitwise (bs : List Nat) (s : Nat) (hs : s < 2 ^ 32)
    (hb : ∀ b ∈ bs, b < 256) :
    bs.foldl (crc_byte (lzma_crc32_table 0)) s = crc_update_bitwise 0xEDB88320 s bs := by
  unfold crc_update_bitwise
  induction bs generalizing s with
  | nil => rfl
  | cons b bs ih =>
    have hb0 := hb b (List.mem_cons_self _ _)
    simp only [List.foldl_cons]
    rw [← crc32_byte_eq_bitwise s b hs hb0]
    exact ih _ (crc_byte_lt _ 32 s b (lzma_crc32_table_lt 0) (by decide) hs)
      (fun x hx => hb x (List.mem_cons_of_mem _ hx))

theorem crc64_foldl_eq_bitwise (bs : List Nat) (s : Nat) (hs : s < 2 ^ 64)
    (hb : ∀ b ∈ bs, b < 256) :
    bs.foldl (crc_byte (lzma_crc64_table 0)) s
      = crc_update_bitwise 0xC96C5795D7870F42 s bs := by
  unfold crc_update_bitwise
  induction bs generalizing s with
  | nil => rfl
  | cons b bs ih =>
    have hb0 := hb b (List.mem_cons_self _ _)
    simp only [List.foldl_cons]
    rw [← crc64_byte_eq_bitwise s b hs hb0]
    exact ih _ (crc_byte_lt _ 64 s b (lzma_crc64_table_lt 0) (by decide) hs)
      (fun x hx => hb x (List.mem_cons_of_mem _ hx))

/-- Claim C11. On every aligned in-bounds region of `n + 1` lanes and for every 32-bit
register `s`, `crc32_clmul` returns the register of the bit-at-a-time reflected CRC-32
update (polynomial `0xEDB88320`) started from `s`, with no complement inside; hence
`~crc32_clmul(buf, size, ~crc)`, as the dispatcher calls it, is `crc32_generic` on the
region. -/
theorem crc32_clmul_eq_bitwise (m : Mem) (buf size n s crc : Nat)
    (hal : buf % 16 = 0) (hsize : size = 16 * (n + 1)) (hlo : m.addr ≤ buf)
    (hhi : buf + size ≤ m.addr + m.bytes.length) (hs : s < 2 ^ 32) (hcrc : crc < 2 ^ 32)
    (hbytes : ∀ b ∈ m.bytes, b < 256) :
    crc32_clmul m buf size s
      = .ok (crc_update_bitwise 0xEDB88320 s ((m.bytes.drop (buf - m.addr)).take size)) ∧
    (crc32_clmul m buf size (not32 crc)).map not32
      = .ok (crc32_generic ((m.bytes.drop (buf - m.addr)).take size) crc) := by
  have hreg : ∀ b ∈ (m.bytes.drop (buf - m.addr)).take size, b < 256 :=
    fun b h => hbytes b (List.mem_of_mem_drop (List.mem_of_mem_take h))
  constructor
  · rw [crc32_clmul_ok m buf size s n hal hsize hlo hhi hs hbytes,
      crc32_foldl_eq_bitwise _ s hs hreg]
  · rw [crc32_clmul_ok m buf size _ n hal hsize hlo hhi (not32_lt _ hcrc) hbytes,
      crc32_generic_eq _ crc hreg hcrc]
    rfl

theorem crc32_clmul_eq_bitwise_witness :
    (sample100.addr + 13) % 16 = 0 ∧ 80 = 16 * (4 + 1) ∧ sample100.addr ≤ sample100.addr + 13 ∧
      sample100.addr + 13 + 80 ≤ sample100.addr + sample100.bytes.length ∧
      0x80000001 < 2 ^ 32 ∧ 0xDEADBEEF < 2 ^ 32 ∧ (∀ b ∈ sample100.bytes, b < 256) ∧
      (crc32_clmul sample100 (sample100.addr + 13) 80 0x80000001
        = .ok (crc_update_bitwise 0xEDB88320 0x80000001
            ((sample100.bytes.drop (sample100.addr + 13 - sample100.addr)).take 80)) ∧
      (crc32_clmul sample100 (sample100.addr + 13) 80 (not32 0xDEADBEEF)).map not32
        = .ok (crc32_generic
            ((sample100.bytes.drop (sample100.addr + 13 - sample100.addr)).take 80)
            0xDEADBEEF)) :=
  ⟨by decide, by decide, by decide, by decide, by decide, by decide, by decide,
    crc32_clmul_eq_bitwise sample100 (sample100.addr + 13) 80 4 0x80000001 0xDEADBEEF
      (by decide) (by decide) (by decide) (by decide) (by decide) (by decide) (by decide)⟩

/-- Claim C12. On every aligned in-bounds region of `n + 1` lanes and for every 64-bit
register `s`, `crc64_clmul` (x86-64 variant) returns the register of the bit-at-a-time
reflected CRC-64 update (polynomial `0xC96C5795D7870F42`) started from `s`, with no
complement inside; hence `~crc64_clmul(buf, size, ~crc)`, as the dispatcher calls it, is
`crc64_generic` on the region. -/
theorem crc64_clmul_eq_bitwise (m : Mem) (buf size n s crc : Nat)
    (hal : buf % 16 = 0) (hsize : size = 16 * (n + 1)) (hlo : m.addr ≤ buf)
    (hhi : buf + size ≤ m.addr + m.bytes.length) (hs : s < 2 ^ 64) (hcrc : crc < 2 ^ 64)
    (hbytes : ∀ b ∈ m.bytes, b < 256) :
    crc64_clmul m buf size s
      = .ok (crc_update_bitwise 0xC96C5795D7870F42 s
          ((m.bytes.drop (buf - m.addr)).take size)) ∧
    (crc64_clmul m buf size (not64 crc)).map not64
      = .ok (crc64_generic ((m.bytes.drop (buf - m.addr)).take size) crc) := by
  have hreg : ∀ b ∈ (m.bytes.drop (buf - m.addr)).take size, b < 256 :=
    fun b h => hbytes b (List.mem_of_mem_drop (List.mem_of_mem_take h))
  constructor
  · rw [crc64_clmul_ok m buf size s n hal hsize hlo hhi hs hbytes,
      crc64_foldl_eq_bitwise _ s hs hreg]
  · rw [crc64_clmul_ok m buf size _ n hal hsize hlo hhi (not64_lt _ hcrc) hbytes,
      crc64_generic_eq _ crc hreg hcrc]
    rfl

theorem crc64_clmul_eq_bitwise_witness :
    (sample100.addr + 13) % 16 = 0 ∧ 80 = 16 * (4 + 1) ∧ sample100.addr ≤ sample100.addr + 13 ∧
      sample100.addr + 13 + 80 ≤ sample100.addr + sample100.bytes.length ∧
      0x8000000000000001 < 2 ^ 64 ∧ 0xDEADBEEF01234567 < 2 ^ 64 ∧
      (∀ b ∈ sample100.bytes, b < 256) ∧
      (crc64_clmul sample100 (sample100.addr + 13) 80 0x8000000000000001
        = .ok (crc_update_bitwise 0xC96C5795D7870F42 0x8000000000000001
            ((sample100.bytes.drop (sample100.addr + 13 - sample100.addr)).take 80)) ∧
      (crc64_clmul sample100 (sample100.addr + 13) 80 (not64 0xDEADBEEF01234567)).map not64
        = .ok (crc64_generic
            ((sample100.bytes.drop (sample100.addr + 13 - sample100.addr)).take 80)
            0xDEADBEEF01234567)) :=
  ⟨by decide, by decide, by decide, by decide, by decide, by decide, by decide,
    crc64_clmul_eq_bitwise sample100 (sample100.addr + 13) 80 4 0x8000000000000001
      0xDEADBEEF01234567
      (by decide) (by decide) (by decide) (by decide) (by decide) (by decide) (by decide)⟩

/-! ## Where the dispatchers complement -/

set_option maxRecDepth 100000 in
theorem crc32_entry_exit_run :
    crc32_entry_exit_complement sample33 0xDEADBEEF = .ok 1529537802 := by
  rfl

set_option maxRecDepth 100000 in
theorem crc64_entry_exit_run :
    crc64_entry_exit_complement sample33 0xDEADBEEF01234567 = .ok 6493086352745922306 := by
  rfl

/-- Counterexample to claim C13 as stated: on the 33-byte buffer `sample33` (head of 15
bytes, one lane, tail of 2 bytes) the dispatchers do not return
`~G(tail, A(bulk, G(head, ~crc)))`. -/
theorem entry_exit_complement_fails :
    32 ≤ sample33.bytes.length ∧
    crc32_arch_optimized sample33 0xDEADBEEF = .ok 127140405 ∧
    crc32_entry_exit_complement sample33 0xDEADBEEF = .ok 1529537802 ∧
    crc32_arch_optimized sample33 0xDEADBEEF
      ≠ crc32_entry_exit_complement sample33 0xDEADBEEF ∧
    crc64_arch_optimized sample33 0xDEADBEEF01234567 = .ok 5275667771677301826 ∧
    crc64_entry_exit_complement sample33 0xDEADBEEF01234567 = .ok 6493086352745922306 ∧
    crc64_arch_optimized sample33 0xDEADBEEF01234567
      ≠ crc64_entry_exit_complement sample33 0xDEADBEEF01234567 := by
  refine ⟨by decide, crc32_sample33_run, crc32_entry_exit_run, ?_, crc64_sample33_run,
    crc64_entry_exit_run, ?_⟩
  · rw [crc32_sample33_run, crc32_entry_exit_run]
    intro h
    have h2 := Except.ok.inj h
    exact absurd h2 (by decide)
  · rw [crc64_sample33_run, crc64_entry_exit_run]
    intro h
    have h2 := Except.ok.inj h
    exact absurd h2 (by decide)

/-- Claim C13, amended. For every buffer with `32 <= size` the dispatchers complement
only around the kernel call: the result is `G(tail, ~A(bulk, ~G(head, crc)))`, where
the generic function `G` gets the accumulator uncomplemented, and the head call is left
out (`G(head, crc)` is `crc`) when `align16` is 0. -/
theorem arch_optimized_complement_around_kernel (m : Mem) (crc : Nat)
    (h32 : 32 ≤ m.bytes.length) (hsize : m.bytes.length < 2 ^ 64) :
    crc32_arch_optimized m crc
      = (crc32_clmul m (m.addr + head_len m.addr) (bulk_len m.addr m.bytes.length)
            (not32 (head_crc crc32_generic m crc))).map
          (fun r => crc32_generic
            (m.bytes.drop (head_len m.addr + bulk_len m.addr m.bytes.length)) (not32 r)) ∧
    crc64_arch_optimized m crc
      = (crc64_clmul m (m.addr + head_len m.addr) (bulk_len m.addr m.bytes.length)
            (not64 (head_crc crc64_generic m crc))).map
          (fun r => crc64_generic
            (m.bytes.drop (head_len m.addr + bulk_len m.addr m.bytes.length)) (not64 r)) ∧
    (∀ G : List Nat → Nat → Nat, 0 < head_len m.addr →
      head_crc G m crc = G (m.bytes.take (head_len m.addr)) crc) ∧
    (∀ G : List Nat → Nat → Nat, head_len m.addr = 0 → head_crc G m crc = crc) := by
  refine ⟨?_, ?_, ?_, ?_⟩
  · rw [crc32_arch_optimized_eq_with]
    exact arch_optimized_with_large _ _ _ m crc h32 hsize
  · rw [crc64_arch_optimized_eq_with]
    exact arch_optimized_with_large _ _ _ m crc h32 hsize
  · intro G h
    unfold head_crc
    rw [if_pos h]
  · intro G h
    unfold head_crc
    rw [if_neg (by omega)]

theorem arch_optimized_complement_around_kernel_witness :
    (32 ≤ sample33.bytes.length ∧ sample33.bytes.length < 2 ^ 64) ∧
    (crc32_arch_optimized sample33 0xDEADBEEF
      = (crc32_clmul sample33 (sample33.addr + head_len sample33.addr)
            (bulk_len sample33.addr sample33.bytes.length)
            (not32 (head_crc crc32_generic sample33 0xDEADBEEF))).map
          (fun r => crc32_generic (sample33.bytes.drop
            (head_len sample33.addr + bulk_len sample33.addr sample33.bytes.length))
            (not32 r)) ∧
    crc64_arch_optimized sample33 0xDEADBEEF
      = (crc64_clmul sample33 (sample33.addr + head_len sample33.addr)
            (bulk_len sample33.addr sample33.bytes.length)
            (not64 (head_crc crc64_generic sample33 0xDEADBEEF))).map
          (fun r => crc64_generic (sample33.bytes.drop
            (head_len sample33.addr + bulk_len sample33.addr sample33.bytes.length))
            (not64 r)) ∧
    (∀ G : List Nat → Nat → Nat, 0 < head_len sample33.addr →
      head_crc G sample33 0xDEADBEEF
        = G (sample33.bytes.take (head_len sample33.addr)) 0xDEADBEEF) ∧
    (∀ G : List Nat → Nat → Nat, head_len sample33.addr = 0 →
      head_crc G sample33 0xDEADBEEF = 0xDEADBEEF)) :=
  ⟨⟨by decide, by decide⟩,
    arch_optimized_complement_around_kernel sample33 0xDEADBEEF (by decide) (by decide)⟩

/-! ## The split into head, bulk and tail -/

/-- Claim C14. For every start address and every `32 <= size` the dispatcher body (generic
function, kernel and complement arbitrary) works on a head of `align16 = (0 - address) &
15` bytes, a bulk of `size16 = (size - align16) & ~15` bytes and a tail of
`(size - align16) & 15` bytes: the subtraction does not wrap, `align16 <= 15`, the tail
is at most 15 bytes, the three lengths add up to `size`, the three regions are the
consecutive pieces of the buffer and are consumed in this order, every read is inside
the buffer, and with `align16 = 0` the generic function is not called on a head. -/
theorem dispatcher_split (m : Mem) (crc : Nat) (h32 : 32 ≤ m.bytes.length)
    (hsize : m.bytes.length < 2 ^ 64) :
    (head_len m.addr = sub64 0 (m.addr % 2 ^ 64) &&& 15 ∧
      head_len m.addr = (2 ^ 64 - m.addr % 2 ^ 64) % 16 ∧
      sub64 m.bytes.length (head_len m.addr) = m.bytes.length - head_len m.addr ∧
      head_len m.addr ≤ m.bytes.length ∧
      bulk_len m.addr m.bytes.length = sub64 m.bytes.length (head_len m.addr) &&& not64 15 ∧
      bulk_len m.addr m.bytes.length = (m.bytes.length - head_len m.addr) / 16 * 16 ∧
      sub64 m.bytes.length (head_len m.addr) &&& 15
        = (m.bytes.length - head_len m.addr) % 16) ∧
    (head_len m.addr ≤ 15 ∧ (m.bytes.length - head_len m.addr) % 16 ≤ 15 ∧
      head_len m.addr + bulk_len m.addr m.bytes.length
        + (m.bytes.length - head_len m.addr) % 16 = m.bytes.length) ∧
    (m.bytes = m.bytes.take (head_len m.addr)
        ++ ((m.bytes.drop (head_len m.addr)).take (bulk_len m.addr m.bytes.length)
        ++ m.bytes.drop (head_len m.addr + bulk_len m.addr m.bytes.length)) ∧
      (m.bytes.take (head_len m.addr)).length = head_len m.addr ∧
      ((m.bytes.drop (head_len m.addr)).take (bulk_len m.addr m.bytes.length)).length
        = bulk_len m.addr m.bytes.length ∧
      (m.bytes.drop (head_len m.addr + bulk_len m.addr m.bytes.length)).length
        = (m.bytes.length - head_len m.addr) % 16) ∧
    (m.read m.addr (head_len m.addr) = .ok (m.bytes.take (head_len m.addr)) ∧
      m.read (m.addr + head_len m.addr) (bulk_len m.addr m.bytes.length)
        = .ok ((m.bytes.drop (head_len m.addr)).take (bulk_len m.addr m.bytes.length)) ∧
      m.read (m.addr + head_len m.addr + bulk_len m.addr m.bytes.length)
          ((m.bytes.length - head_len m.addr) % 16)
        = .ok (m.bytes.drop (head_len m.addr + bulk_len m.addr m.bytes.length))) ∧
    (∀ G K compl, arch_optimized_with G K compl m crc
      = (K m (m.addr + head_len m.addr) (bulk_len m.addr m.bytes.length)
            (compl (head_crc G m crc))).map
          (fun r => G (m.bytes.drop (head_len m.addr + bulk_len m.addr m.bytes.length))
            (compl r))) ∧
    (∀ G : List Nat → Nat → Nat, 0 < head_len m.addr →
      head_crc G m crc = G (m.bytes.take (head_len m.addr)) crc) ∧
    (m.addr % 16 = 0 → head_len m.addr = 0 ∧
      ∀ G : List Nat → Nat → Nat, head_crc G m crc = crc) ∧
    crc32_arch_optimized = arch_optimized_with crc32_generic crc32_clmul not32 ∧
    crc64_arch_optimized = arch_optimized_with crc64_generic crc64_clmul not64 := by
  obtain ⟨r1, r2, r3, r4, r5, r6, r7⟩ := ge32_regions m.addr m.bytes.length h32
  have hb : bulk_len m.addr m.bytes.length
      = (m.bytes.length - head_len m.addr) / 16 * 16 := rfl
  have hsub : sub64 m.bytes.length (head_len m.addr)
      = m.bytes.length - head_len m.addr := by
    unfold sub64; omega
  have hh : head_len m.addr = (16 - m.addr % 16) % 16 := rfl
  have e1 : m.addr + head_len m.addr - m.addr = head_len m.addr := by omega
  have e2 : m.addr + head_len m.addr + bulk_len m.addr m.bytes.length - m.addr
      = head_len m.addr + bulk_len m.addr m.bytes.length := by omega
  have htl : (m.bytes.drop (head_len m.addr + bulk_len m.addr m.bytes.length)).length
      = (m.bytes.length - head_len m.addr) % 16 := by
    rw [List.length_drop]; omega
  refine ⟨⟨(align16_eq m.addr).symm, by omega, hsub, by omega,
      by rw [hsub]; exact (and_not64_15 _ (by omega)).symm, hb, by rw [hsub, and_15]⟩,
    ⟨r2, by omega, by omega⟩,
    ⟨split3 m.bytes _ _, by rw [List.length_take]; omega,
      by rw [List.length_take, List.length_drop]; omega, htl⟩,
    ⟨?_, ?_, ?_⟩,
    fun G K compl => arch_optimized_with_large G K compl m crc h32 hsize, ?_, ?_, rfl, rfl⟩
  · have h := read_ok m m.addr (head_len m.addr) (le_refl _) (by omega)
    rw [Nat.sub_self, List.drop_zero] at h
    exact h
  · have h := read_ok m (m.addr + head_len m.addr) (bulk_len m.addr m.bytes.length)
      (by omega) (by omega)
    rw [e1] at h
    exact h
  · have h := read_ok m (m.addr + head_len m.addr + bulk_len m.addr m.bytes.length)
      ((m.bytes.length - head_len m.addr) % 16) (by omega) (by omega)
    rw [e2, List.take_of_length_le (by rw [htl])] at h
    exact h
  · intro G h
    unfold head_crc
    rw [if_pos h]
  · intro h
    have h0 : head_len m.addr = 0 := by omega
    refine ⟨h0, fun G => ?_⟩
    unfold head_crc
    rw [if_neg (by omega)]

theorem dispatcher_split_witness :
    (32 ≤ sample33.bytes.length ∧ sample33.bytes.length < 2 ^ 64) ∧
    ((head_len sample33.addr = sub64 0 (sample33.addr % 2 ^ 64) &&& 15 ∧
      head_len sample33.addr = (2 ^ 64 - sample33.addr % 2 ^ 64) % 16 ∧
      sub64 sample33.bytes.length (head_len sample33.addr) = sample33.bytes.length - head_len sample33.addr ∧
      head_len sample33.addr ≤ sample33.bytes.length ∧
      bulk_len sample33.addr sample33.bytes.length = sub64 sample33.bytes.length (head_len sample33.addr) &&& not64 15 ∧
      bulk_len sample33.addr sample33.bytes.length = (sample33.bytes.length - head_len sample33.addr) / 16 * 16 ∧
      sub64 sample33.bytes.length (head_len sample33.addr) &&& 15
        = (sample33.bytes.length - head_len sample33.addr) % 16) ∧
    (head_len sample33.addr ≤ 15 ∧ (sample33.bytes.length - head_len sample33.addr) % 16 ≤ 15 ∧
      head_len sample33.addr + bulk_len sample33.addr sample33.bytes.length
        + (sample33.bytes.length - head_len sample33.addr) % 16 = sample33.bytes.length) ∧
    (sample33.bytes = sample33.bytes.take (head_len sample33.addr)
        ++ ((sample33.bytes.drop (head_len sample33.addr)).take (bulk_len sample33.addr sample33.bytes.length)
        ++ sample33.bytes.drop (head_len sample33.addr + bulk_len sample33.addr sample33.bytes.length)) ∧
      (sample33.bytes.take (head_len sample33.addr)).length = head_len sample33.addr ∧
      ((sample33.bytes.drop (head_len sample33.addr)).take (bulk_len sample33.addr sample33.bytes.length)).length
        = bulk_len sample33.addr sample33.bytes.length ∧
      (sample33.bytes.drop (head_len sample33.addr + bulk_len sample33.addr sample33.bytes.length)).length
        = (sample33.bytes.length - head_len sample33.addr) % 16) ∧
    (sample33.read sample33.addr (head_len sample33.addr) = .ok (sample33.bytes.take (head_len sample33.addr)) ∧
      sample33.read (sample33.addr + head_len sample33.addr) (bulk_len sample33.addr sample33.bytes.length)
        = .ok ((sample33.bytes.drop (head_len sample33.addr)).take (bulk_len sample33.addr sample33.bytes.length)) ∧
      sample33.read (sample33.addr + head_len sample33.addr + bulk_len sample33.addr sample33.bytes.length)
          ((sample33.bytes.length - head_len sample33.addr) % 16)
        = .ok (sample33.bytes.drop (head_len sample33.addr + bulk_len sample33.addr sample33.bytes.length))) ∧
    (∀ G K compl, arch_optimized_with G K compl sample33 0xDEADBEEF
      = (K sample33 (sample33.addr + head_len sample33.addr) (bulk_len sample33.addr sample33.bytes.length)
            (compl (head_crc G sample33 0xDEADBEEF))).map
          (fun r => G (sample33.bytes.drop (head_len sample33.addr + bulk_len sample33.addr sample33.bytes.length))
            (compl r))) ∧
    (∀ G : List Nat → Nat → Nat, 0 < head_len sample33.addr →
      head_crc G sample33 0xDEADBEEF = G (sample33.bytes.take (head_len sample33.addr)) 0xDEADBEEF) ∧
    (sample33.addr % 16 = 0 → head_len sample33.addr = 0 ∧
      ∀ G : List Nat → Nat → Nat, head_crc G sample33 0xDEADBEEF = 0xDEADBEEF) ∧
    crc32_arch_optimized = arch_optimized_with crc32_generic crc32_clmul not32 ∧
    crc64_arch_optimized = arch_optimized_with crc64_generic crc64_clmul not64) :=
  ⟨⟨by decide, by decide⟩, dispatcher_split sample33 0xDEADBEEF (by decide) (by decide)⟩

/-! ## What `crc_simd_body` does -/

theorem crc_simd_loop_erase (m : Mem) (vf end_ : Nat) (fuel : Nat) :
    ∀ (p v0 v1 : Nat) (t : Trace),
      (crc_simd_loop_traced m vf end_ fuel p v0 v1 t).map (fun r => (r.1, r.2.1, r.2.2.1))
        = crc_simd_loop m vf end_ fuel p v0 v1 := by
  induction fuel with
  | zero =>
    intro p v0 v1 t
    unfold crc_simd_loop_traced crc_simd_loop
    split <;> rfl
  | succ fuel ih =>
    intro p v0 v1 t
    unfold crc_simd_loop_traced crc_simd_loop
    split
    · cases h : _mm_load_si128 m p with
      | error e => rfl
      | ok x => exact ih _ _ _ _
    · rfl

theorem crc_simd_body_erase (m : Mem) (buf size vf init : Nat) :
    (crc_simd_body_traced m buf size vf init).map (fun r => (r.1, r.2.1))
      = crc_simd_body m buf size vf init := by
  unfold crc_simd_body_traced crc_simd_body
  by_cases a1 : (buf % 2 ^ 64) &&& 15 ≠ 0
  · simp only [if_pos a1]; rfl
  by_cases a2 : size &&& 15 ≠ 0
  · simp only [if_neg a1, if_pos a2]; rfl
  simp only [if_neg a1, if_neg a2]
  cases h0 : _mm_load_si128 m buf with
  | error e => rfl
  | ok x =>
    simp only [ok_bind]
    by_cases hp : buf + 16 < buf + size
    · simp only [hp, if_true]
      cases h1 : _mm_load_si128 m (buf + 16) with
      | error e => rfl
      | ok y =>
        simp only [ok_bind]
        have h := crc_simd_loop_erase m vf (buf + size) (size / 16) (buf + 16 + 16)
          (_mm_xor_si128 init x) y ⟨[buf] ++ [buf + 16], 0, 0⟩
        cases h2 : crc_simd_loop_traced m vf (buf + size) (size / 16) (buf + 16 + 16)
            (_mm_xor_si128 init x) y ⟨[buf] ++ [buf + 16], 0, 0⟩ with
        | error e =>
          rw [h2] at h
          rw [← h]
          rfl
        | ok r =>
          rw [h2] at h
          rw [← h]
          rfl
    · simp only [hp, if_false]
      rfl

/-- The addresses of `r` consecutive lanes starting at `p`. -/
theorem lane_addrs_succ (p r : Nat) :
    [p] ++ (List.range r).map (fun i => p + 16 + 16 * i)
      = (List.range (r + 1)).map (fun i => p + 16 * i) := by
  rw [List.range_succ_eq_map]
  simp only [List.map_cons, List.map_map, List.singleton_append, Nat.mul_zero, Nat.add_zero]
  congr 1
  apply List.map_congr_left
  intro i _
  simp only [Function.comp]
  omega

theorem crc_simd_loop_traced_ok (m : Mem) (vf end_ : Nat) (r : Nat) :
    ∀ (fuel p v0 v1 : Nat) (t : Trace), r ≤ fuel → p % 16 = 0 → m.addr ≤ p →
      p + 16 * r = end_ → end_ ≤ m.addr + m.bytes.length →
      ∃ V0 V1, crc_simd_loop_traced m vf end_ fuel p v0 v1 t
        = .ok (end_, V0, V1, ⟨t.loads ++ (List.range r).map (fun i => p + 16 * i),
            t.folds_in_loop + r, t.folds_after_loop⟩) := by
  induction r with
  | zero =>
    intro fuel p v0 v1 t _ _ _ hend _
    have hp : ¬ p < end_ := by omega
    have he : p = end_ := by omega
    refine ⟨v0, v1, ?_⟩
    cases fuel <;> simp [crc_simd_loop_traced, hp, he]
  | succ r ih =>
    intro fuel p v0 v1 t hfuel hal hlo hend hhi
    obtain ⟨fuel, rfl⟩ : ∃ f, fuel = f + 1 := ⟨fuel - 1, by omega⟩
    have hp : p < end_ := by omega
    obtain ⟨V0, V1, h1⟩ := ih fuel (p + 16)
      (_mm_xor_si128 (_mm_xor_si128 v1 (_mm_clmulepi64_si128 v0 vf 0x00))
        (_mm_clmulepi64_si128 v0 vf 0x11))
      (le_value ((m.bytes.drop (p - m.addr)).take 16))
      ⟨t.loads ++ [p], t.folds_in_loop + 1, t.folds_after_loop⟩
      (by omega) (by omega) (by omega) (by omega) hhi
    refine ⟨V0, V1, ?_⟩
    simp only [crc_simd_loop_traced, hp, if_true]
    rw [load_ok m p hal hlo (by omega)]
    simp only [ok_bind]
    rw [h1]
    simp only [List.append_assoc, lane_addrs_succ]
    have e : t.folds_in_loop + 1 + r = t.folds_in_loop + (r + 1) := by omega
    rw [e]

theorem crc_simd_body_traced_ok (m : Mem) (buf size vf init n : Nat)
    (hal : buf % 16 = 0) (hsize : size = 16 * (n + 1)) (hlo : m.addr ≤ buf)
    (hhi : buf + size ≤ m.addr + m.bytes.length) :
    ∃ V, crc_simd_body_traced m buf size vf init
      = .ok (V, _mm_srli_si128 V 8, ⟨(List.range (n + 1)).map (fun i => buf + 16 * i),
          n - 1, if n = 0 then 0 else 1⟩) := by
  have a1 : ¬ ((buf % 2 ^ 64) &&& 15 ≠ 0) := by
    rw [and_15]; omega
  have a2 : ¬ (size &&& 15 ≠ 0) := by
    rw [and_15]; omega
  unfold crc_simd_body_traced
  simp only [a1, a2, if_false]
  rw [load_ok m buf hal hlo (by omega)]
  by_cases hn : n = 0
  · subst hn
    have hp : ¬ (buf + 16 < buf + size) := by omega
    refine ⟨_mm_xor_si128 init (le_value ((m.bytes.drop (buf - m.addr)).take 16)), ?_⟩
    simp only [ok_bind, hp, if_false]
    rfl
  · obtain ⟨k, rfl⟩ : ∃ k, n = k + 1 := ⟨n - 1, by omega⟩
    have hp : buf + 16 < buf + size := by omega
    obtain ⟨V0, V1, h1⟩ := crc_simd_loop_traced_ok m vf (buf + size) k (size / 16)
      (buf + 16 + 16)
      (_mm_xor_si128 init (le_value ((m.bytes.drop (buf - m.addr)).take 16)))
      (le_value ((m.bytes.drop (buf + 16 - m.addr)).take 16))
      ⟨[buf] ++ [buf + 16], 0, 0⟩
      (by omega) (by omega) (by omega) (by omega) hhi
    refine ⟨fold16 vf V0 V1, ?_⟩
    simp only [ok_bind, hp, if_true]
    rw [load_ok m (buf + 16) (by omega) (by omega) (by omega)]
    simp only [ok_bind, h1]
    have e : [buf] ++ [buf + 16] ++ (List.range k).map (fun i => buf + 16 + 16 + 16 * i)
        = (List.range (k + 1 + 1)).map (fun i => buf + 16 * i) := by
      rw [List.append_assoc, lane_addrs_succ (buf + 16) k, ← lane_addrs_succ buf (k + 1)]
    simp only [e, Nat.zero_add, Nat.add_sub_cancel, if_neg hn]
    rfl

theorem lanes_length (bs : List Nat) (r : Nat) : (lanes bs r).length = r := by
  induction r generalizing bs with
  | zero => rfl
  | succ r ih => simp [lanes, ih]

theorem cvtsi32_to_int32 (crc : Nat) (h : crc < 2 ^ 32) :
    _mm_cvtsi32_si128 (to_int32 crc) = crc := by
  unfold _mm_cvtsi32_si128
  rw [to_uint32_to_int32, Nat.mod_eq_of_lt h]

theorem cvtsi64_to_int64 (crc : Nat) (h : crc < 2 ^ 64) :
    _mm_cvtsi64_si128 (to_int64 crc) = crc := by
  unfold _mm_cvtsi64_si128
  rw [to_uint64_to_int64, Nat.mod_eq_of_lt h]

theorem crc_simd_body_single (m : Mem) (buf vf init : Nat) (hal : buf % 16 = 0)
    (hlo : m.addr ≤ buf) (hhi : buf + 16 ≤ m.addr + m.bytes.length) :
    crc_simd_body m buf 16 vf init
      = .ok (init ^^^ le_value ((m.bytes.drop (buf - m.addr)).take 16),
          (init ^^^ le_value ((m.bytes.drop (buf - m.addr)).take 16)) >>> 64) := by
  obtain ⟨V, hV, hVeq⟩ := crc_simd_body_ok m buf 16 vf init 0 hal rfl hlo hhi
  simp only [lanes, List.foldl_nil] at hVeq
  rw [hV, hVeq]
  rfl

theorem crc_simd_body_traced_single (m : Mem) (buf vf init : Nat) (hal : buf % 16 = 0)
    (hlo : m.addr ≤ buf) (hhi : buf + 16 ≤ m.addr + m.bytes.length) :
    crc_simd_body_traced m buf 16 vf init
      = .ok (init ^^^ le_value ((m.bytes.drop (buf - m.addr)).take 16),
          (init ^^^ le_value ((m.bytes.drop (buf - m.addr)).take 16)) >>> 64,
          ⟨[buf], 0, 0⟩) := by
  obtain ⟨V, hV⟩ := crc_simd_body_traced_ok m buf 16 vf init 0 hal rfl hlo hhi
  have he := crc_simd_body_erase m buf 16 vf init
  rw [hV, crc_simd_body_single m buf vf init hal hlo hhi] at he
  have hv : V = init ^^^ le_value ((m.bytes.drop (buf - m.addr)).take 16) :=
    congrArg Prod.fst (Except.ok.inj he)
  rw [hV, hv]
  rfl

/-- Claim C15. On an aligned in-bounds region of exactly 16 bytes `crc_simd_body` makes
one load and no fold step, whatever `vfold16` is, and leaves `v0 = initial_crc XOR lane`
and `v1 = v0 >> 64`. The initial lane built from a CRC is the CRC itself, zero-extended,
also when the cast to the signed type is negative, and `crc32_clmul` / `crc64_clmul`
apply their final reduction to these `v0` and `v1`. -/
theorem crc_simd_body_single_lane (m : Mem) (buf vfold16 init crc32 crc64 : Nat)
    (hal : buf % 16 = 0) (hlo : m.addr ≤ buf) (hhi : buf + 16 ≤ m.addr + m.bytes.length)
    (h32 : crc32 < 2 ^ 32) (h64 : crc64 < 2 ^ 64) :
    crc_simd_body m buf 16 vfold16 init
      = .ok (init ^^^ le_value ((m.bytes.drop (buf - m.addr)).take 16),
          (init ^^^ le_value ((m.bytes.drop (buf - m.addr)).take 16)) >>> 64) ∧
    crc_simd_body_traced m buf 16 vfold16 init
      = .ok (init ^^^ le_value ((m.bytes.drop (buf - m.addr)).take 16),
          (init ^^^ le_value ((m.bytes.drop (buf - m.addr)).take 16)) >>> 64,
          ⟨[buf], 0, 0⟩) ∧
    (_mm_cvtsi32_si128 (to_int32 crc32) = crc32 ∧
      _mm_cvtsi64_si128 (to_int64 crc64) = crc64 ∧
      (2 ^ 31 ≤ crc32 → to_int32 crc32 < 0) ∧ (2 ^ 63 ≤ crc64 → to_int64 crc64 < 0)) ∧
    crc32_clmul m buf 16 crc32
      = .ok (crc32_final (crc32 ^^^ le_value ((m.bytes.drop (buf - m.addr)).take 16))
          ((crc32 ^^^ le_value ((m.bytes.drop (buf - m.addr)).take 16)) >>> 64)) ∧
    crc64_clmul m buf 16 crc64
      = .ok (crc64_final (crc64 ^^^ le_value ((m.bytes.drop (buf - m.addr)).take 16))
          ((crc64 ^^^ le_value ((m.bytes.drop (buf - m.addr)).take 16)) >>> 64)) := by
  refine ⟨crc_simd_body_single m buf vfold16 init hal hlo hhi,
    crc_simd_body_traced_single m buf vfold16 init hal hlo hhi,
    ⟨cvtsi32_to_int32 crc32 h32, cvtsi64_to_int64 crc64 h64, ?_, ?_⟩, ?_, ?_⟩
  · intro h
    unfold to_int32
    rw [Nat.mod_eq_of_lt h32, if_neg (by omega)]
    omega
  · intro h
    unfold to_int64
    rw [Nat.mod_eq_of_lt h64, if_neg (by omega)]
    omega
  · rw [crc32_clmul_eq, cvtsi32_to_int32 crc32 h32,
      crc_simd_body_single m buf _ crc32 hal hlo hhi]
    rfl
  · rw [crc64_clmul_eq, cvtsi64_to_int64 crc64 h64,
      crc_simd_body_single m buf _ crc64 hal hlo hhi]
    rfl

theorem crc_simd_body_single_lane_witness :
    (0x7ffd1010 % 16 = 0 ∧ sample33.addr ≤ 0x7ffd1010 ∧
      0x7ffd1010 + 16 ≤ sample33.addr + sample33.bytes.length ∧
      0xDEADBEEF < 2 ^ 32 ∧ 0xDEADBEEF01234567 < 2 ^ 64) ∧
    (crc_simd_body sample33 0x7ffd1010 16 crc32_vfold16 0xDEADBEEF
      = .ok (0xDEADBEEF ^^^ le_value ((sample33.bytes.drop (0x7ffd1010 - sample33.addr)).take 16),
          (0xDEADBEEF ^^^ le_value ((sample33.bytes.drop (0x7ffd1010 - sample33.addr)).take 16)) >>> 64) ∧
    crc_simd_body_traced sample33 0x7ffd1010 16 crc32_vfold16 0xDEADBEEF
      = .ok (0xDEADBEEF ^^^ le_value ((sample33.bytes.drop (0x7ffd1010 - sample33.addr)).take 16),
          (0xDEADBEEF ^^^ le_value ((sample33.bytes.drop (0x7ffd1010 - sample33.addr)).take 16)) >>> 64,
          ⟨[0x7ffd1010], 0, 0⟩) ∧
    (_mm_cvtsi32_si128 (to_int32 0xDEADBEEF) = 0xDEADBEEF ∧
      _mm_cvtsi64_si128 (to_int64 0xDEADBEEF01234567) = 0xDEADBEEF01234567 ∧
      (2 ^ 31 ≤ 0xDEADBEEF → to_int32 0xDEADBEEF < 0) ∧ (2 ^ 63 ≤ 0xDEADBEEF01234567 → to_int64 0xDEADBEEF01234567 < 0)) ∧
    crc32_clmul sample33 0x7ffd1010 16 0xDEADBEEF
      = .ok (crc32_final (0xDEADBEEF ^^^ le_value ((sample33.bytes.drop (0x7ffd1010 - sample33.addr)).take 16))
          ((0xDEADBEEF ^^^ le_value ((sample33.bytes.drop (0x7ffd1010 - sample33.addr)).take 16)) >>> 64)) ∧
    crc64_clmul sample33 0x7ffd1010 16 0xDEADBEEF01234567
      = .ok (crc64_final (0xDEADBEEF01234567 ^^^ le_value ((sample33.bytes.drop (0x7ffd1010 - sample33.addr)).take 16))
          ((0xDEADBEEF01234567 ^^^ le_value ((sample33.bytes.drop (0x7ffd1010 - sample33.addr)).take 16)) >>> 64))) :=
  ⟨⟨by decide, by decide, by decide, by decide, by decide⟩,
    crc_simd_body_single_lane sample33 0x7ffd1010 crc32_vfold16 0xDEADBEEF 0xDEADBEEF
      0xDEADBEEF01234567 (by decide) (by decide) (by decide) (by decide) (by decide)⟩

/-- Claim C16. On an aligned in-bounds region of `n >= 1` lanes `crc_simd_body` returns
(it does not run out of its bound), loads exactly the lanes `0, ..., n - 1`, each once
and in increasing order, and makes `n - 1` fold steps, `n - 2` of them inside the
`while` loop and one after it when `n >= 2`; the resulting `v0` is the `n - 1`-fold
iteration of the fold step over the lanes after the first. -/
theorem crc_simd_body_loads_and_folds (m : Mem) (buf size vfold16 init n : Nat)
    (hn : 1 ≤ n) (hal : buf % 16 = 0) (hsize : size = 16 * n) (hlo : m.addr ≤ buf)
    (hhi : buf + size ≤ m.addr + m.bytes.length) :
    (∃ v0, crc_simd_body_traced m buf size vfold16 init
        = .ok (v0, _mm_srli_si128 v0 8,
            ⟨(List.range n).map (fun i => buf + 16 * i), n - 2, if 2 ≤ n then 1 else 0⟩) ∧
      crc_simd_body m buf size vfold16 init = .ok (v0, _mm_srli_si128 v0 8) ∧
      v0 = (lanes ((m.bytes.drop (buf - m.addr)).drop 16) (n - 1)).foldl (fold16 vfold16)
        (init ^^^ le_value ((m.bytes.drop (buf - m.addr)).take 16))) ∧
    (lanes ((m.bytes.drop (buf - m.addr)).drop 16) (n - 1)).length = n - 1 ∧
    (n - 2) + (if 2 ≤ n then 1 else 0) = n - 1 ∧
    (∀ x y, fold16 vfold16 x y
      = (y ^^^ clmul64 (lo64 x) (lo64 vfold16)) ^^^ clmul64 (hi64 x) (hi64 vfold16)) ∧
    (∀ (mem : Mem) (p sz vf ini : Nat),
      (crc_simd_body_traced mem p sz vf ini).map (fun r => (r.1, r.2.1))
        = crc_simd_body mem p sz vf ini) := by
  obtain ⟨k, rfl⟩ : ∃ k, n = k + 1 := ⟨n - 1, by omega⟩
  obtain ⟨V, hV⟩ := crc_simd_body_traced_ok m buf size vfold16 init k hal hsize hlo hhi
  obtain ⟨W, hW, hWeq⟩ := crc_simd_body_ok m buf size vfold16 init k hal hsize hlo hhi
  have he := crc_simd_body_erase m buf size vfold16 init
  rw [hV, hW] at he
  have hv : V = W := congrArg Prod.fst (Except.ok.inj he)
  subst hv
  refine ⟨⟨V, ?_, hW, hWeq⟩, lanes_length _ _, ?_, fun v0 v1 => rfl, crc_simd_body_erase⟩
  · rw [hV]
    have e1 : k + 1 - 2 = k - 1 := by omega
    have e2 : (if 2 ≤ k + 1 then 1 else 0) = (if k = 0 then 0 else 1) := by
      by_cases h : k = 0
      · subst h; rfl
      · rw [if_neg h, if_pos (by omega)]
    rw [e1, e2]
  · by_cases h : 2 ≤ k + 1
    · rw [if_pos h]; omega
    · rw [if_neg h]; omega

theorem crc_simd_body_loads_and_folds_witness :
    (1 ≤ 5 ∧ 0x7ffd2010 % 16 = 0 ∧ 80 = 16 * 5 ∧ sample100.addr ≤ 0x7ffd2010 ∧
      0x7ffd2010 + 80 ≤ sample100.addr + sample100.bytes.length) ∧
    ((∃ v0, crc_simd_body_traced sample100 0x7ffd2010 80 crc64_vfold16 0xDEADBEEF01234567
        = .ok (v0, _mm_srli_si128 v0 8,
            ⟨(List.range 5).map (fun i => 0x7ffd2010 + 16 * i), 5 - 2, if 2 ≤ 5 then 1 else 0⟩) ∧
      crc_simd_body sample100 0x7ffd2010 80 crc64_vfold16 0xDEADBEEF01234567 = .ok (v0, _mm_srli_si128 v0 8) ∧
      v0 = (lanes ((sample100.bytes.drop (0x7ffd2010 - sample100.addr)).drop 16) (5 - 1)).foldl (fold16 crc64_vfold16)
        (0xDEADBEEF01234567 ^^^ le_value ((sample100.bytes.drop (0x7ffd2010 - sample100.addr)).take 16))) ∧
    (lanes ((sample100.bytes.drop (0x7ffd2010 - sample100.addr)).drop 16) (5 - 1)).length = 5 - 1 ∧
    (5 - 2) + (if 2 ≤ 5 then 1 else 0) = 5 - 1 ∧
    (∀ x y, fold16 crc64_vfold16 x y
      = (y ^^^ clmul64 (lo64 x) (lo64 crc64_vfold16)) ^^^ clmul64 (hi64 x) (hi64 crc64_vfold16)) ∧
    (∀ (mem : Mem) (p sz vf ini : Nat),
      (crc_simd_body_traced mem p sz vf ini).map (fun r => (r.1, r.2.1))
        = crc_simd_body mem p sz vf ini)) :=
  ⟨⟨by decide, by decide, by decide, by decide, by decide⟩,
    crc_simd_body_loads_and_folds sample100 0x7ffd2010 80 crc64_vfold16 0xDEADBEEF01234567 5
      (by decide) (by decide) (by decide) (by decide) (by decide)⟩

/-! ## The two variants of `crc64_clmul` -/

theorem set_epi64x_zero (x : Int) : _mm_set_epi64x 0 x = _mm_cvtsi64_si128 x := by
  unfold _mm_set_epi64x _mm_cvtsi64_si128
  have h : to_uint64 0 = 0 := by decide
  rw [h, Nat.zero_shiftLeft, Nat.zero_or]

theorem two_extracts_eq (v : Nat) :
    (((to_uint32 (_mm_extract_epi32 v 3) % 2 ^ 64) <<< 32) % 2 ^ 64)
        ||| to_uint32 (_mm_extract_epi32 v 2)
      = to_uint64 (_mm_extract_epi64 v 1) := by
  rw [extract_epi32_eq, extract_epi32_eq, extract_epi64_eq]
  unfold epi32
  apply Nat.eq_of_testBit_eq
  intro i
  simp only [Nat.testBit_or, Nat.testBit_mod_two_pow, Nat.testBit_shiftLeft,
    Nat.testBit_shiftRight]
  by_cases h1 : i < 32
  · have h2 : i < 64 := by omega
    have h3 : ¬ i ≥ 32 := by omega
    simp [h1, h2, h3]
  · by_cases h2 : i < 64
    · have h3 : i ≥ 32 := by omega
      have h4 : i - 32 < 32 := by omega
      have h5 : i - 32 < 64 := by omega
      have e : 32 * 3 + (i - 32) = 64 * 1 + i := by omega
      simp [h1, h2, h3, h4, h5, e]
    · simp [h1, h2]

theorem crc64_clmul_i386_eq_x64 (m : Mem) (buf size crc : Nat) :
    crc64_clmul_i386 m buf size crc = crc64_clmul m buf size crc := by
  unfold crc64_clmul_i386 crc64_clmul
  simp only [set_epi64x_zero]
  cases h : crc_simd_body m buf size
      (_mm_set_epi64x (to_int64 0xdabe95afc7875f40) (to_int64 0xe05dd497ca393ae4))
      (_mm_cvtsi64_si128 (to_int64 crc)) with
  | error e => rfl
  | ok r =>
    simp only [ok_bind]
    exact congrArg Except.ok (two_extracts_eq _)

/-- Claim C17. The 32-bit-x86 variant and the x86-64 variant of `crc64_clmul` are the
same function; on every aligned in-bounds region of `n + 1` lanes and for every 64-bit
`crc` both return the same value below `2^64`. -/
theorem crc64_clmul_variants_agree (m : Mem) (buf size n crc : Nat)
    (hal : buf % 16 = 0) (hsize : size = 16 * (n + 1)) (hlo : m.addr ≤ buf)
    (hhi : buf + size ≤ m.addr + m.bytes.length) (hcrc : crc < 2 ^ 64) :
    (∃ r, r < 2 ^ 64 ∧ crc64_clmul m buf size crc = .ok r ∧
      crc64_clmul_i386 m buf size crc = .ok r) ∧
    (∀ (mem : Mem) (p sz c : Nat),
      crc64_clmul_i386 mem p sz c = crc64_clmul mem p sz c) := by
  refine ⟨?_, crc64_clmul_i386_eq_x64⟩
  obtain ⟨V, hV, -⟩ := crc_simd_body_ok m buf size crc64_vfold16 crc n hal hsize hlo hhi
  have h : crc64_clmul m buf size crc = .ok (crc64_final V (_mm_srli_si128 V 8)) := by
    rw [crc64_clmul_eq, cvtsi64_to_int64 crc hcrc, hV]
    rfl
  refine ⟨_, ?_, h, by rw [crc64_clmul_i386_eq_x64, h]⟩
  unfold crc64_final
  simp only [extract_epi64_eq]
  exact Nat.mod_lt _ (by positivity)

theorem crc64_clmul_variants_agree_witness :
    (0x1000 % 16 = 0 ∧ 32 = 16 * (1 + 1) ∧ sample32.addr ≤ 0x1000 ∧
      0x1000 + 32 ≤ sample32.addr + sample32.bytes.length ∧ 0x0123456789ABCDEF < 2 ^ 64) ∧
    ((∃ r, r < 2 ^ 64 ∧ crc64_clmul sample32 0x1000 32 0x0123456789ABCDEF = .ok r ∧
      crc64_clmul_i386 sample32 0x1000 32 0x0123456789ABCDEF = .ok r) ∧
    (∀ (mem : Mem) (p sz c : Nat),
      crc64_clmul_i386 mem p sz c = crc64_clmul mem p sz c)) :=
  ⟨⟨by decide, by decide, by decide, by decide, by decide⟩,
    crc64_clmul_variants_agree sample32 0x1000 32 1 0x0123456789ABCDEF
      (by decide) (by decide) (by decide) (by decide) (by decide)⟩

set_option maxRecDepth 100000 in
theorem crc64_sample32_run :
    crc64_clmul sample32 0x1000 32 0x0123456789ABCDEF = .ok 14646784849402219425 ∧
      crc64_clmul_i386 sample32 0x1000 32 0x0123456789ABCDEF = .ok 14646784849402219425 ∧
      (14646784849402219425 : Nat).testBit 31 = true ∧
      (14646784849402219425 : Nat).testBit 63 = true := by
  refine ⟨by rfl, by rfl, by decide, by decide⟩

/-! ## The folding constants -/

set_option maxRecDepth 100000 in
theorem crc32_generated :
    (0xedb88320 <<< 1) % 2 ^ 64 = 0x1db710640 ∧
    ((Gen32.calc_lo 0xedb88320 0xedb88320 32 <<< 1) % 2 ^ 64) ||| 1 = 0x1f7011641 ∧
    (Gen32.calc_hi 0xedb88320 0xedb88320 32 <<< 1) % 2 ^ 64 = 0x163cd6124 ∧
    (Gen32.calc_hi 0xedb88320 0xedb88320 64 <<< 1) % 2 ^ 64 = 0x0ccaa009e ∧
    (Gen32.calc_hi 0xedb88320 0xedb88320 128 <<< 1) % 2 ^ 64 = 0x1751997d0 := by
  decide

set_option maxRecDepth 100000 in
theorem crc64_generated :
    ((0xc96c5795d7870f42 <<< 1) % 2 ^ 64) ||| 1 = 0x92d8af2baf0e1e85 ∧
    ((Gen64.calc_lo 0xc96c5795d7870f42 <<< 1) % 2 ^ 64) ||| 1 = 0x9c3e466c172963d5 ∧
    Gen64.calc_hi 0xc96c5795d7870f42 1 = 0xdabe95afc7875f40 ∧
    Gen64.calc_hi 0xc96c5795d7870f42 (Gen64.calc_hi 0xc96c5795d7870f42 1)
      = 0xe05dd497ca393ae4 := by
  decide

/-- Claim C18. The five constants of `crc32_clmul` are the values of the documented
generator functions at `poly = 0xedb88320`, in `uint64_t` arithmetic, and `crc32_clmul`
is its body with the generated values as constants. -/
theorem crc32_clmul_constants :
    ((0xedb88320 <<< 1) % 2 ^ 64 = 0x1db710640 ∧
      ((Gen32.calc_lo 0xedb88320 0xedb88320 32 <<< 1) % 2 ^ 64) ||| 1 = 0x1f7011641 ∧
      (Gen32.calc_hi 0xedb88320 0xedb88320 32 <<< 1) % 2 ^ 64 = 0x163cd6124 ∧
      (Gen32.calc_hi 0xedb88320 0xedb88320 64 <<< 1) % 2 ^ 64 = 0x0ccaa009e ∧
      (Gen32.calc_hi 0xedb88320 0xedb88320 128 <<< 1) % 2 ^ 64 = 0x1751997d0) ∧
    crc32_clmul = crc32_clmul_with 0x1db710640 0x1f7011641 0x163cd6124 0x0ccaa009e
      0x1751997d0 ∧
    crc32_clmul = crc32_clmul_with
      (to_int64 ((0xedb88320 <<< 1) % 2 ^ 64))
      (to_int64 (((Gen32.calc_lo 0xedb88320 0xedb88320 32 <<< 1) % 2 ^ 64) ||| 1))
      (to_int64 ((Gen32.calc_hi 0xedb88320 0xedb88320 32 <<< 1) % 2 ^ 64))
      (to_int64 ((Gen32.calc_hi 0xedb88320 0xedb88320 64 <<< 1) % 2 ^ 64))
      (to_int64 ((Gen32.calc_hi 0xedb88320 0xedb88320 128 <<< 1) % 2 ^ 64)) := by
  obtain ⟨e1, e2, e3, e4, e5⟩ := crc32_generated
  refine ⟨crc32_generated, rfl, ?_⟩
  rw [e1, e2, e3, e4, e5]
  have c1 : to_int64 0x1db710640 = 0x1db710640 := by decide
  have c2 : to_int64 0x1f7011641 = 0x1f7011641 := by decide
  have c3 : to_int64 0x163cd6124 = 0x163cd6124 := by decide
  have c4 : to_int64 0x0ccaa009e = 0x0ccaa009e := by decide
  have c5 : to_int64 0x1751997d0 = 0x1751997d0 := by decide
  rw [c1, c2, c3, c4, c5]
  rfl

/-- Claim C19. The four constants of `crc64_clmul` are the values of the documented
generator functions at `poly = 0xc96c5795d7870f42`, in `uint64_t` arithmetic with
wrap-around, and `crc64_clmul` is its body with the generated values as constants. -/
theorem crc64_clmul_constants :
    (((0xc96c5795d7870f42 <<< 1) % 2 ^ 64) ||| 1 = 0x92d8af2baf0e1e85 ∧
      ((Gen64.calc_lo 0xc96c5795d7870f42 <<< 1) % 2 ^ 64) ||| 1 = 0x9c3e466c172963d5 ∧
      Gen64.calc_hi 0xc96c5795d7870f42 1 = 0xdabe95afc7875f40 ∧
      Gen64.calc_hi 0xc96c5795d7870f42 (Gen64.calc_hi 0xc96c5795d7870f42 1)
        = 0xe05dd497ca393ae4) ∧
    crc64_clmul = crc64_clmul_with 0x92d8af2baf0e1e85 0x9c3e466c172963d5
      0xdabe95afc7875f40 0xe05dd497ca393ae4 ∧
    crc64_clmul = crc64_clmul_with
      (((0xc96c5795d7870f42 <<< 1) % 2 ^ 64) ||| 1)
      (((Gen64.calc_lo 0xc96c5795d7870f42 <<< 1) % 2 ^ 64) ||| 1)
      (Gen64.calc_hi 0xc96c5795d7870f42 1)
      (Gen64.calc_hi 0xc96c5795d7870f42 (Gen64.calc_hi 0xc96c5795d7870f42 1)) := by
  obtain ⟨e1, e2, e3, e4⟩ := crc64_generated
  refine ⟨crc64_generated, rfl, ?_⟩
  rw [e3] at e4
  rw [e1, e2, e3, e4]
  rfl

/-! ## Linearity of the kernels -/

theorem crc_foldl_xor {t : Nat → Nat} (ht : IsLin t) (b1 : List Nat) :
    ∀ (b2 : List Nat) (s1 s2 : Nat), b1.length = b2.length →
      (xor_bytes b1 b2).foldl (crc_byte t) (s1 ^^^ s2)
        = b1.foldl (crc_byte t) s1 ^^^ b2.foldl (crc_byte t) s2 := by
  induction b1 with
  | nil =>
    intro b2 s1 s2 h
    cases b2 with
    | nil => rfl
    | cons _ _ => simp at h
  | cons x xs ih =>
    intro b2 s1 s2 h
    cases b2 with
    | nil => simp at h
    | cons y ys =>
      simp only [List.length_cons, Nat.add_right_cancel_iff] at h
      simp only [xor_bytes, List.zipWith_cons_cons, List.foldl_cons]
      rw [crc_byte_xor ht]
      exact ih ys _ _ h

theorem crc_foldl_zero {t : Nat → Nat} (ht : IsLin t) (k : Nat) :
    (List.replicate k 0).foldl (crc_byte t) 0 = 0 := by
  induction k with
  | zero => rfl
  | succ k ih =>
    simp only [List.replicate_succ, List.foldl_cons]
    have h : crc_byte t 0 0 = 0 := by
      unfold crc_byte
      simp [ht.zero]
    rw [h, ih]

theorem xor_bytes_lt (b1 b2 : List Nat) (h1 : ∀ b ∈ b1, b < 256) (h2 : ∀ b ∈ b2, b < 256) :
    ∀ b ∈ xor_bytes b1 b2, b < 256 := by
  induction b1 generalizing b2 with
  | nil => intro b hb; simp [xor_bytes] at hb
  | cons x xs ih =>
    cases b2 with
    | nil => intro b hb; simp [xor_bytes] at hb
    | cons y ys =>
      intro b hb
      simp only [xor_bytes, List.zipWith_cons_cons, List.mem_cons] at hb
      rcases hb with hb | hb
      · rw [hb]
        exact Nat.xor_lt_two_pow (n := 8) (h1 x (List.mem_cons_self _ _))
          (h2 y (List.mem_cons_self _ _))
      · exact ih ys (fun b h => h1 b (List.mem_cons_of_mem _ h))
          (fun b h => h2 b (List.mem_cons_of_mem _ h)) b hb

theorem xor_bytes_length (b1 b2 : List Nat) (h : b1.length = b2.length) :
    (xor_bytes b1 b2).length = b1.length := by
  unfold xor_bytes
  rw [List.length_zipWith, h, Nat.min_self]

theorem region_whole (a : Nat) (bs : List Nat) (size : Nat) (h : bs.length = size) :
    (bs.drop (a - a)).take size = bs := by
  rw [Nat.sub_self, List.drop_zero, ← h, List.take_length]

/-- Claim C20. The kernels are linear over GF(2) jointly in the data and the register:
for two aligned regions of `n + 1` lanes and two registers, the kernel on the bytewise
XOR of the regions with the XOR of the registers returns the XOR of the two results, for
`crc32_clmul` and for `crc64_clmul`; both map the all-zero region with register 0 to 0. -/
theorem clmul_linear (a n : Nat) (b1 b2 : List Nat) (s1 s2 t1 t2 : Nat)
    (hal : a % 16 = 0) (hl1 : b1.length = 16 * (n + 1)) (hl2 : b2.length = 16 * (n + 1))
    (hb1 : ∀ b ∈ b1, b < 256) (hb2 : ∀ b ∈ b2, b < 256)
    (hs1 : s1 < 2 ^ 32) (hs2 : s2 < 2 ^ 32) (ht1 : t1 < 2 ^ 64) (ht2 : t2 < 2 ^ 64) :
    (∃ r1 r2, crc32_clmul ⟨a, b1⟩ a (16 * (n + 1)) s1 = .ok r1 ∧
      crc32_clmul ⟨a, b2⟩ a (16 * (n + 1)) s2 = .ok r2 ∧
      crc32_clmul ⟨a, xor_bytes b1 b2⟩ a (16 * (n + 1)) (s1 ^^^ s2) = .ok (r1 ^^^ r2)) ∧
    (∃ r1 r2, crc64_clmul ⟨a, b1⟩ a (16 * (n + 1)) t1 = .ok r1 ∧
      crc64_clmul ⟨a, b2⟩ a (16 * (n + 1)) t2 = .ok r2 ∧
      crc64_clmul ⟨a, xor_bytes b1 b2⟩ a (16 * (n + 1)) (t1 ^^^ t2) = .ok (r1 ^^^ r2)) ∧
    crc32_clmul ⟨a, List.replicate (16 * (n + 1)) 0⟩ a (16 * (n + 1)) 0 = .ok 0 ∧
    crc64_clmul ⟨a, List.replicate (16 * (n + 1)) 0⟩ a (16 * (n + 1)) 0 = .ok 0 := by
  have hx := xor_bytes_lt b1 b2 hb1 hb2
  have hxl : (xor_bytes b1 b2).length = 16 * (n + 1) := by
    rw [xor_bytes_length b1 b2 (by rw [hl1, hl2]), hl1]
  have hz : ∀ b ∈ List.replicate (16 * (n + 1)) 0, b < 256 := by
    intro b hb
    rw [List.eq_of_mem_replicate hb]
    decide
  have hzl : (List.replicate (16 * (n + 1)) 0).length = 16 * (n + 1) :=
    List.length_replicate _ _
  have hbound : ∀ bs : List Nat, bs.length = 16 * (n + 1) →
      a + 16 * (n + 1) ≤ (⟨a, bs⟩ : Mem).addr + (⟨a, bs⟩ : Mem).bytes.length := by
    intro bs h
    show a + 16 * (n + 1) ≤ a + bs.length
    omega
  refine ⟨⟨_, _, crc32_clmul_ok ⟨a, b1⟩ a _ s1 n hal rfl (le_refl _) (hbound b1 hl1) hs1 hb1,
      crc32_clmul_ok ⟨a, b2⟩ a _ s2 n hal rfl (le_refl _) (hbound b2 hl2) hs2 hb2, ?_⟩,
    ⟨_, _, crc64_clmul_ok ⟨a, b1⟩ a _ t1 n hal rfl (le_refl _) (hbound b1 hl1) ht1 hb1,
      crc64_clmul_ok ⟨a, b2⟩ a _ t2 n hal rfl (le_refl _) (hbound b2 hl2) ht2 hb2, ?_⟩,
    ?_, ?_⟩
  · rw [crc32_clmul_ok ⟨a, xor_bytes b1 b2⟩ a _ _ n hal rfl (le_refl _) (hbound _ hxl)
      (Nat.xor_lt_two_pow hs1 hs2) hx]
    show Except.ok (((xor_bytes b1 b2).drop (a - a)).take _ |>.foldl _ _)
      = Except.ok ((((b1.drop (a - a)).take _).foldl _ _) ^^^ (((b2.drop (a - a)).take _).foldl _ _))
    rw [region_whole a _ _ hxl, region_whole a _ _ hl1, region_whole a _ _ hl2,
      crc_foldl_xor (lzma_crc32_table_lin 0) b1 b2 s1 s2 (by rw [hl1, hl2])]
  · rw [crc64_clmul_ok ⟨a, xor_bytes b1 b2⟩ a _ _ n hal rfl (le_refl _) (hbound _ hxl)
      (Nat.xor_lt_two_pow ht1 ht2) hx]
    show Except.ok (((xor_bytes b1 b2).drop (a - a)).take _ |>.foldl _ _)
      = Except.ok ((((b1.drop (a - a)).take _).foldl _ _) ^^^ (((b2.drop (a - a)).take _).foldl _ _))
    rw [region_whole a _ _ hxl, region_whole a _ _ hl1, region_whole a _ _ hl2,
      crc_foldl_xor (lzma_crc64_table_lin 0) b1 b2 t1 t2 (by rw [hl1, hl2])]
  · rw [crc32_clmul_ok ⟨a, _⟩ a _ 0 n hal rfl (le_refl _) (hbound _ hzl) (by decide) hz]
    show Except.ok (((List.replicate _ 0).drop (a - a)).take _ |>.foldl _ _) = _
    rw [region_whole a _ _ hzl, crc_foldl_zero (lzma_crc32_table_lin 0)]
  · rw [crc64_clmul_ok ⟨a, _⟩ a _ 0 n hal rfl (le_refl _) (hbound _ hzl) (by decide) hz]
    show Except.ok (((List.replicate _ 0).drop (a - a)).take _ |>.foldl _ _) = _
    rw [region_whole a _ _ hzl, crc_foldl_zero (lzma_crc64_table_lin 0)]

theorem clmul_linear_witness :
    (0x1000 % 16 = 0 ∧ sample32.bytes.length = 16 * (1 + 1) ∧
      (sample33.bytes.take 32).length = 16 * (1 + 1) ∧
      (∀ b ∈ sample32.bytes, b < 256) ∧ (∀ b ∈ sample33.bytes.take 32, b < 256) ∧
      0xDEADBEEF < 2 ^ 32 ∧ 0x80000001 < 2 ^ 32 ∧ 0xDEADBEEF01234567 < 2 ^ 64 ∧
      0x8000000000000001 < 2 ^ 64) ∧
    ((∃ r1 r2, crc32_clmul ⟨0x1000, sample32.bytes⟩ 0x1000 (16 * (1 + 1)) 0xDEADBEEF = .ok r1 ∧
      crc32_clmul ⟨0x1000, (sample33.bytes.take 32)⟩ 0x1000 (16 * (1 + 1)) 0x80000001 = .ok r2 ∧
      crc32_clmul ⟨0x1000, xor_bytes sample32.bytes (sample33.bytes.take 32)⟩ 0x1000 (16 * (1 + 1)) (0xDEADBEEF ^^^ 0x80000001) = .ok (r1 ^^^ r2)) ∧
    (∃ r1 r2, crc64_clmul ⟨0x1000, sample32.bytes⟩ 0x1000 (16 * (1 + 1)) 0xDEADBEEF01234567 = .ok r1 ∧
      crc64_clmul ⟨0x1000, (sample33.bytes.take 32)⟩ 0x1000 (16 * (1 + 1)) 0x8000000000000001 = .ok r2 ∧
      crc64_clmul ⟨0x1000, xor_bytes sample32.bytes (sample33.bytes.take 32)⟩ 0x1000 (16 * (1 + 1)) (0xDEADBEEF01234567 ^^^ 0x8000000000000001) = .ok (r1 ^^^ r2)) ∧
    crc32_clmul ⟨0x1000, List.replicate (16 * (1 + 1)) 0⟩ 0x1000 (16 * (1 + 1)) 0 = .ok 0 ∧
    crc64_clmul ⟨0x1000, List.replicate (16 * (1 + 1)) 0⟩ 0x1000 (16 * (1 + 1)) 0 = .ok 0) :=
  ⟨⟨by decide, by decide, by decide, by decide, by decide, by decide, by decide, by decide,
      by decide⟩,
    clmul_linear 0x1000 1 sample32.bytes (sample33.bytes.take 32) 0xDEADBEEF 0x80000001
      0xDEADBEEF01234567 0x8000000000000001 (by decide) (by decide) (by decide) (by decide)
      (by decide) (by decide) (by decide) (by decide) (by decide)⟩

end XzCrc
